import Mathlib

/-!
Shortlink: a verification development.

A shallow embedding of the core of the `link-shortener` service
(`internal/utils/validator.go`, `internal/services/link.go`,
`internal/repository/link.go`, `internal/middleware/rate_limit.go`) and
theorems about it.

Conventions of the embedding

* A Go `string` is a Lean `String` (a sequence of Unicode scalar values, i.e.
  a valid UTF-8 text); `len(s)` is the number of bytes of its UTF-8 encoding.
* A Go `error` is an `Option String`: `none` is `nil`, `some msg` is an error
  whose `Error()` text is `msg`.  `fmt.Errorf("p: %w", err)` is `"p: " ++ msg`.
* `time.Time` and `time.Duration` are integers (nanoseconds on one clock).
* The SQL table `links` is a list of rows.  Every repository call is recorded
  in a trace, and may fail with an error injected by the environment.
-/

namespace Shortlink

/-! ## Go strings -/

/-- Go's `len(s)` for a string: the number of bytes of the UTF-8 encoding. -/
def goLen (s : String) : Nat := s.utf8ByteSize

/-- Go's `strings.HasPrefix(s, p)`. -/
def hasPrefix (s p : String) : Bool := p.data.isPrefixOf s.data

/-! ## `internal/utils/validator.go` -/

/-- The character class `[a-zA-Z0-9-]` of the pattern in `ValidateShortCode`. -/
def inShortCodeClass (c : Char) : Bool :=
  ('a' ≤ c && c ≤ 'z') || ('A' ≤ c && c ≤ 'Z') || ('0' ≤ c && c ≤ '9') || c == '-'

/-- The call `regexp.MatchString("^[a-zA-Z0-9-]+$", code)`: the pattern compiles, so the
error result is always `nil`; the text matches when it is a non-empty run of characters of
the class (in Go `$` without the `m` flag matches only at the end of the text). -/
def matchShortCodePattern (code : String) : Except String Bool :=
  .ok (!code.data.isEmpty && code.data.all inShortCodeClass)

/-- Embedding of `ValidateShortCode`. -/
def ValidateShortCode (code : String) : Option String :=
  if goLen code < 3 ∨ goLen code > 20 then
    some "short code must be between 3 and 20 characters"
  else
    match matchShortCodePattern code with
    | .error err => some ("error validating short code: " ++ err)
    | .ok matched =>
      if !matched then
        some "short code can only contain letters, numbers, and hyphens"
      else
        none

/-- The alphabet `encodeURL` of Go's `encoding/base64`. -/
def encodeURLAlphabet : List Char :=
  "ABCDEFGHIJKLMNOPQRSTUVWXYZabcdefghijklmnopqrstuvwxyz0123456789-_".data

/-- The table lookup `enc.encode[i]` of `base64.URLEncoding`, for an index masked to six bits. -/
def encodeChar (i : Nat) : Char := encodeURLAlphabet.getD i 'A'

/-- The padding character of `base64.URLEncoding` (`StdPadding`). -/
def padChar : Char := '='

/-- Go's `base64.URLEncoding.EncodeToString` (the loop of `Encoding.Encode`): three source
bytes give four characters; a remainder of one or two bytes gives two or three characters
followed by padding. -/
def encodeToString : List Nat → List Char
  | b0 :: b1 :: b2 :: rest =>
    let val := b0 <<< 16 ||| b1 <<< 8 ||| b2
    encodeChar (val >>> 18 &&& 0x3F) :: encodeChar (val >>> 12 &&& 0x3F) ::
      encodeChar (val >>> 6 &&& 0x3F) :: encodeChar (val &&& 0x3F) :: encodeToString rest
  | [b0, b1] =>
    let val := b0 <<< 16 ||| b1 <<< 8
    [encodeChar (val >>> 18 &&& 0x3F), encodeChar (val >>> 12 &&& 0x3F),
      encodeChar (val >>> 6 &&& 0x3F), padChar]
  | [b0] =>
    let val := b0 <<< 16
    [encodeChar (val >>> 18 &&& 0x3F), encodeChar (val >>> 12 &&& 0x3F), padChar, padChar]
  | [] => []

/-- The slice expression `s[:n]` on a string of single-byte characters: `none` is the
run-time panic "slice bounds out of range". -/
def sliceTo (s : List Char) (n : Nat) : Option (List Char) :=
  if n ≤ s.length then some (s.take n) else none

/-- The buffer after `bytes := make([]byte, length); rand.Read(bytes)` succeeded: `length`
bytes, the `i`-th one being what the random source delivered at position `i`. -/
def filledBuffer (length : Nat) (random : List Nat) : List Nat :=
  (List.range length).map (fun i => random.getD i 0 % 256)

/-- Embedding of `GenerateShortCode`.  `read` is the outcome of `rand.Read`: an error, or
the bytes delivered.  The outer `Option` is `none` when the call panics (negative length for
`make`, or a slice bound out of range). -/
def GenerateShortCode (length : Int) (read : Except String (List Nat)) :
    Option (Except String String) :=
  if length < 0 then none
  else
    match read with
    | .error err => some (.error err)
    | .ok random =>
      match sliceTo (encodeToString (filledBuffer length.toNat random)) length.toNat with
      | none => none
      | some cs => some (.ok (String.mk cs))

/-- Go's `unicode.IsSpace`, the predicate `strings.TrimSpace` trims by: the code points with
the Unicode property White_Space. -/
def isSpace (c : Char) : Bool :=
  let n := c.toNat
  (0x09 ≤ n && n ≤ 0x0D) || n == 0x20 || n == 0x85 || n == 0xA0 || n == 0x1680 ||
    (0x2000 ≤ n && n ≤ 0x200A) || n == 0x2028 || n == 0x2029 || n == 0x202F ||
    n == 0x205F || n == 0x3000

/-- Go's `strings.TrimSpace`: all leading and trailing white space removed. -/
def trimSpace (s : String) : String :=
  String.mk ((s.data.dropWhile isSpace).rdropWhile isSpace)

/-- Embedding of `ValidateURL`.  `parseRequestURI` is the standard library's
`url.ParseRequestURI`, reduced to its error result. -/
def ValidateURL (parseRequestURI : String → Option String) (urlStr : String) : Option String :=
  if urlStr = "" then
    some "URL cannot be empty"
  else
    let urlStr :=
      if !hasPrefix urlStr "http://" && !hasPrefix urlStr "https://" then "https://" ++ urlStr
      else urlStr
    match parseRequestURI urlStr with
    | some err => some ("invalid URL format: " ++ err)
    | none => none

/-- Embedding of `SanitizeURL`. -/
def SanitizeURL (urlStr : String) : String :=
  let urlStr := trimSpace urlStr
  if !hasPrefix urlStr "http://" && !hasPrefix urlStr "https://" then "https://" ++ urlStr
  else urlStr

/-! ## `internal/models/link.go` -/

/-- A `uuid.UUID`. -/
abbrev UUID := Nat

/-- A `time.Time`, in nanoseconds on one clock; the zero value is `0`. -/
abbrev Time := Int

/-- The struct `models.Link`, which is also a row of the table `links`. -/
structure Link where
  ID : UUID
  UserID : UUID
  OriginalURL : String
  ShortCode : String
  Title : String
  Clicks : Int
  IsActive : Bool
  ExpiresAt : Option Time
  CreatedAt : Time
  UpdatedAt : Time
  deriving DecidableEq, Repr

/-- The struct `models.CreateLinkRequest`. -/
structure CreateLinkRequest where
  OriginalURL : String
  CustomAlias : String
  Title : String
  ExpiresAt : Option Time
  deriving DecidableEq, Repr

/-- The struct `models.UpdateLinkRequest`; a nil pointer is `none`. -/
structure UpdateLinkRequest where
  OriginalURL : String
  CustomAlias : String
  Title : String
  IsActive : Option Bool
  ExpiresAt : Option Time
  deriving DecidableEq, Repr

/-- The struct `models.LinkResponse`. -/
structure LinkResponse where
  ID : UUID
  OriginalURL : String
  ShortCode : String
  ShortURL : String
  Title : String
  Clicks : Int
  IsActive : Bool
  ExpiresAt : Option Time
  CreatedAt : Time
  UpdatedAt : Time
  deriving DecidableEq, Repr

/-! ## `internal/repository/link.go` -/

/-- One call of a `LinkRepository` method, with its arguments. -/
inductive RepoCall where
  | create (link : Link)
  | getByID (id : UUID)
  | getByShortCode (shortCode : String)
  | update (link : Link)
  | delete (id userID : UUID)
  | incrementClicks (id : UUID)
  | shortCodeExists (shortCode : String)
  deriving DecidableEq, Repr

/-- The persistence store as the service sees it: the rows of the table `links`, and the
trace of the repository calls made so far. -/
structure Store where
  rows : List Link
  calls : List RepoCall
  deriving DecidableEq, Repr

/-- What the surroundings contribute to one service call.

* `parseRequestURI`: the standard library's URL parser (its error result);
* `newUUID`: the value of `uuid.New()`;
* `randRead k`: the outcome of the `k`-th call of `rand.Read` in this service call;
* `fault n`: the error, if any, with which the database fails the repository call made
  when `n` calls are already in the trace (connectivity, a constraint of the table, ...);
* `dbNow`: the database's `CURRENT_TIMESTAMP`;
* `baseURL`: the field `baseURL` of the `LinkService`. -/
structure Env where
  parseRequestURI : String → Option String
  newUUID : UUID
  randRead : Nat → Except String (List Nat)
  fault : Nat → Option String
  dbNow : Time
  baseURL : String

/-- The trace extended by one call. -/
def Store.record (w : Store) (c : RepoCall) : Store :=
  { w with calls := w.calls ++ [c] }

/-- Embedding of `LinkRepository.ShortCodeExists`:
`SELECT EXISTS(SELECT 1 FROM links WHERE short_code = $1)`. -/
def LinkRepository.ShortCodeExists (env : Env) (shortCode : String) (w : Store) :
    Except String Bool × Store :=
  match env.fault w.calls.length with
  | some err => (.error err, w.record (.shortCodeExists shortCode))
  | none =>
    (.ok (w.rows.any (fun l => l.ShortCode == shortCode)), w.record (.shortCodeExists shortCode))

/-- Embedding of `LinkRepository.Create`: the `INSERT` of the six columns given, the others
taking the defaults of the table (`clicks 0`, `is_active true`, both timestamps
`CURRENT_TIMESTAMP`); `id` is the primary key of the table.  The uniqueness constraint on
`short_code` is not part of this store: a violation can only come from `fault`.  The result
is the link with the two timestamps scanned back into it. -/
def LinkRepository.Create (env : Env) (link : Link) (w : Store) : Except String Link × Store :=
  match env.fault w.calls.length with
  | some err => (.error err, w.record (.create link))
  | none =>
    if w.rows.any (fun l => l.ID == link.ID) then
      (.error "pq: duplicate key value violates unique constraint links_pkey",
        w.record (.create link))
    else
      (.ok { link with CreatedAt := env.dbNow, UpdatedAt := env.dbNow },
        { rows := w.rows ++ [{ link with Clicks := 0, IsActive := true,
                                         CreatedAt := env.dbNow, UpdatedAt := env.dbNow }],
          calls := w.calls ++ [.create link] })

/-- Embedding of `LinkRepository.GetByID`. -/
def LinkRepository.GetByID (env : Env) (id : UUID) (w : Store) : Except String Link × Store :=
  match env.fault w.calls.length with
  | some err => (.error err, w.record (.getByID id))
  | none =>
    match w.rows.find? (fun l => l.ID == id) with
    | none => (.error "link not found", w.record (.getByID id))
    | some l => (.ok l, w.record (.getByID id))

/-- The row `l` after the `UPDATE` of `LinkRepository.Update` with the values of `link`. -/
def updatedRow (env : Env) (link l : Link) : Link :=
  { l with OriginalURL := link.OriginalURL, ShortCode := link.ShortCode, Title := link.Title,
           IsActive := link.IsActive, ExpiresAt := link.ExpiresAt, UpdatedAt := env.dbNow }

/-- Embedding of `LinkRepository.Update`: every row `WHERE id = $1 AND user_id = $2` is
rewritten; scanning `RETURNING updated_at` fails with `sql.ErrNoRows` when no row matched. -/
def LinkRepository.Update (env : Env) (link : Link) (w : Store) : Except String Link × Store :=
  match env.fault w.calls.length with
  | some err => (.error err, w.record (.update link))
  | none =>
    if w.rows.any (fun l => l.ID == link.ID && l.UserID == link.UserID) then
      (.ok { link with UpdatedAt := env.dbNow },
        { rows := w.rows.map (fun l =>
            if l.ID == link.ID && l.UserID == link.UserID then updatedRow env link l else l),
          calls := w.calls ++ [.update link] })
    else
      (.error "sql: no rows in result set", w.record (.update link))

/-- Embedding of `LinkRepository.GetByShortCode`; `now` is the value of `time.Now()`.  The
query scans the first row `WHERE short_code = $1 AND is_active = true`. -/
def LinkRepository.GetByShortCode (env : Env) (now : Time) (shortCode : String) (w : Store) :
    Except String Link × Store :=
  match env.fault w.calls.length with
  | some err => (.error err, w.record (.getByShortCode shortCode))
  | none =>
    match w.rows.find? (fun l => l.ShortCode == shortCode && l.IsActive == true) with
    | none => (.error "link not found", w.record (.getByShortCode shortCode))
    | some link =>
      if (match link.ExpiresAt with
          | some expiresAt => decide (now > expiresAt)
          | none => false) then
        (.error "link has expired", w.record (.getByShortCode shortCode))
      else (.ok link, w.record (.getByShortCode shortCode))

/-- Embedding of `LinkRepository.Delete`: `DELETE FROM links WHERE id = $1 AND user_id = $2`,
an error when no row was affected. -/
def LinkRepository.Delete (env : Env) (id userID : UUID) (w : Store) : Option String × Store :=
  match env.fault w.calls.length with
  | some err => (some err, w.record (.delete id userID))
  | none =>
    if (w.rows.filter (fun l => l.ID == id && l.UserID == userID)).length = 0 then
      (some "link not found", w.record (.delete id userID))
    else
      (none, { rows := w.rows.filter (fun l => !(l.ID == id && l.UserID == userID)),
               calls := w.calls ++ [.delete id userID] })

/-- Embedding of `LinkRepository.IncrementClicks`:
`UPDATE links SET clicks = clicks + 1 WHERE id = $1` (the range of the column is not
modelled). -/
def LinkRepository.IncrementClicks (env : Env) (id : UUID) (w : Store) :
    Option String × Store :=
  match env.fault w.calls.length with
  | some err => (some err, w.record (.incrementClicks id))
  | none =>
    (none, { rows := w.rows.map (fun l =>
               if l.ID == id then { l with Clicks := l.Clicks + 1 } else l),
             calls := w.calls ++ [.incrementClicks id] })

/-! ## `internal/services/link.go` -/

/-- How a service call ends: it returns, it panics, or (an artefact of the embedding) the
fuel given to its loop is used up while the loop is still running. -/
inductive Run (α : Type) where
  | done (a : α)
  | panicked
  | outOfFuel
  deriving Repr

/-- Embedding of `LinkService.toLinkResponse`. -/
def toLinkResponse (env : Env) (link : Link) : LinkResponse :=
  { ID := link.ID, OriginalURL := link.OriginalURL, ShortCode := link.ShortCode,
    ShortURL := env.baseURL ++ "/r/" ++ link.ShortCode, Title := link.Title,
    Clicks := link.Clicks, IsActive := link.IsActive, ExpiresAt := link.ExpiresAt,
    CreatedAt := link.CreatedAt, UpdatedAt := link.UpdatedAt }

/-- The `for` loop of `CreateLink` that generates a short code; `k` counts the draws from
the random source made so far.  The result is the error to return, or the value of
`shortCode` at the `break`. -/
def generateLoop (env : Env) : Nat → Nat → Store → Run (Except String String × Store)
  | 0, _, _ => .outOfFuel
  | fuel + 1, k, w =>
    match GenerateShortCode 8 (env.randRead k) with
    | none => .panicked
    | some (.error err) => .done (.error ("failed to generate short code: " ++ err), w)
    | some (.ok generatedCode) =>
      match LinkRepository.ShortCodeExists env generatedCode w with
      | (.error err, w1) => .done (.error ("failed to check short code: " ++ err), w1)
      | (.ok found, w1) =>
        if !found then .done (.ok generatedCode, w1)
        else generateLoop env fuel (k + 1) w1

/-- The tail of `CreateLink` from the comment `// Create link` on. -/
def createWith (env : Env) (userID : UUID) (req : CreateLinkRequest) (originalURL : String)
    (shortCode : String) (w : Store) : Except String LinkResponse × Store :=
  let link : Link :=
    { ID := env.newUUID, UserID := userID, OriginalURL := originalURL, ShortCode := shortCode,
      Title := req.Title, Clicks := 0, IsActive := true, ExpiresAt := req.ExpiresAt,
      CreatedAt := 0, UpdatedAt := 0 }
  match LinkRepository.Create env link w with
  | (.error err, w1) => (.error ("failed to create link: " ++ err), w1)
  | (.ok link, w1) => (.ok (toLinkResponse env link), w1)

/-- Embedding of `LinkService.CreateLink`. -/
def CreateLink (env : Env) (fuel : Nat) (userID : UUID) (req : CreateLinkRequest) (w : Store) :
    Run (Except String LinkResponse × Store) :=
  match ValidateURL env.parseRequestURI req.OriginalURL with
  | some err => .done (.error ("invalid URL: " ++ err), w)
  | none =>
    let originalURL := SanitizeURL req.OriginalURL
    if req.CustomAlias ≠ "" then
      match ValidateShortCode req.CustomAlias with
      | some err => .done (.error ("invalid custom alias: " ++ err), w)
      | none =>
        match LinkRepository.ShortCodeExists env req.CustomAlias w with
        | (.error err, w1) => .done (.error ("failed to check short code: " ++ err), w1)
        | (.ok found, w1) =>
          if found then .done (.error "custom alias already exists", w1)
          else .done (createWith env userID req originalURL req.CustomAlias w1)
    else
      match generateLoop env fuel 0 w with
      | .panicked => .panicked
      | .outOfFuel => .outOfFuel
      | .done (.error err, w1) => .done (.error err, w1)
      | .done (.ok shortCode, w1) => .done (createWith env userID req originalURL shortCode w1)

/-- The block `if req.OriginalURL != "" { ... }` of `UpdateLink`: the error to return, or
the link after the block. -/
def updateOriginalURL (env : Env) (req : UpdateLinkRequest) (link : Link) :
    Except String Link :=
  if req.OriginalURL ≠ "" then
    match ValidateURL env.parseRequestURI req.OriginalURL with
    | some err => .error ("invalid URL: " ++ err)
    | none => .ok { link with OriginalURL := SanitizeURL req.OriginalURL }
  else .ok link

/-- The block `if req.CustomAlias != "" { ... }` of `UpdateLink`: the error to return, or
the link after the block. -/
def updateCustomAlias (env : Env) (req : UpdateLinkRequest) (link : Link) (w : Store) :
    Except String Link × Store :=
  if req.CustomAlias ≠ "" then
    match ValidateShortCode req.CustomAlias with
    | some err => (.error ("invalid custom alias: " ++ err), w)
    | none =>
      match LinkRepository.ShortCodeExists env req.CustomAlias w with
      | (.error err, w1) => (.error ("failed to check short code: " ++ err), w1)
      | (.ok found, w1) =>
        if found && req.CustomAlias != link.ShortCode then
          (.error "custom alias already exists", w1)
        else (.ok { link with ShortCode := req.CustomAlias }, w1)
  else (.ok link, w)

/-- The three blocks of `UpdateLink` for `Title`, `IsActive` and `ExpiresAt`. -/
def updateOptionalFields (req : UpdateLinkRequest) (link : Link) : Link :=
  let link := if req.Title ≠ "" then { link with Title := req.Title } else link
  let link :=
    match req.IsActive with
    | some b => { link with IsActive := b }
    | none => link
  match req.ExpiresAt with
  | some t => { link with ExpiresAt := some t }
  | none => link

/-- Embedding of `LinkService.UpdateLink`. -/
def UpdateLink (env : Env) (userID linkID : UUID) (req : UpdateLinkRequest) (w : Store) :
    Except String LinkResponse × Store :=
  match LinkRepository.GetByID env linkID w with
  | (.error err, w1) => (.error ("link not found: " ++ err), w1)
  | (.ok link, w1) =>
    if link.UserID ≠ userID then (.error "unauthorized", w1)
    else
      match updateOriginalURL env req link with
      | .error err => (.error err, w1)
      | .ok link =>
        match updateCustomAlias env req link w1 with
        | (.error err, w2) => (.error err, w2)
        | (.ok link, w2) =>
          match LinkRepository.Update env (updateOptionalFields req link) w2 with
          | (.error err, w3) => (.error ("failed to update link: " ++ err), w3)
          | (.ok link, w3) => (.ok (toLinkResponse env link), w3)

/-- Embedding of `LinkService.GetLinkByID`. -/
def GetLinkByID (env : Env) (userID linkID : UUID) (w : Store) :
    Except String LinkResponse × Store :=
  match LinkRepository.GetByID env linkID w with
  | (.error err, w1) => (.error ("link not found: " ++ err), w1)
  | (.ok link, w1) =>
    if link.UserID ≠ userID then (.error "unauthorized", w1)
    else (.ok (toLinkResponse env link), w1)

/-- Embedding of `LinkService.DeleteLink`. -/
def DeleteLink (env : Env) (userID linkID : UUID) (w : Store) : Option String × Store :=
  match LinkRepository.GetByID env linkID w with
  | (.error err, w1) => (some ("link not found: " ++ err), w1)
  | (.ok link, w1) =>
    if link.UserID ≠ userID then (some "unauthorized", w1)
    else LinkRepository.Delete env linkID userID w1

/-- A goroutine started by a service call and not waited for: the only one is the
`go func() { ... s.linkRepo.IncrementClicks(link.ID) ... }()` of `RedirectToOriginal`. -/
inductive Goroutine where
  | incrementClicks (id : UUID)
  deriving DecidableEq, Repr

/-- Embedding of `LinkService.RedirectToOriginal`; `now` is the value of `time.Now()` in the
lookup.  The result is what the call returns, the goroutines it has started, and the
store at the time it returns. -/
def RedirectToOriginal (env : Env) (now : Time) (shortCode : String) (w : Store) :
    Except String String × List Goroutine × Store :=
  match LinkRepository.GetByShortCode env now shortCode w with
  | (.error err, w1) => (.error ("link not found: " ++ err), [], w1)
  | (.ok link, w1) => (.ok link.OriginalURL, [.incrementClicks link.ID], w1)

/-- The body of a goroutine, run at some later time on the store as it is then: the lines
it prints, and the store it leaves.  The error of the increment is printed and dropped. -/
def Goroutine.run (env : Env) : Goroutine → Store → List String × Store
  | .incrementClicks id, w =>
    match LinkRepository.IncrementClicks env id w with
    | (some err, w1) => (["Failed to increment clicks: " ++ err ++ "\n"], w1)
    | (none, w1) => ([], w1)

/-! ## `internal/handlers/link.go` and the binding tags of `internal/models/link.go` -/

/-- A tag of the `binding:"..."` struct tags used on the request structs (`omitempty` is a
flag of the field, see `validateField`). -/
inductive Tag where
  | required
  | url
  | min (n : Nat)
  | max (n : Nat)
  | alphanum
  deriving DecidableEq, Repr

/-- The character class of the validator's `alphanum` tag, whose pattern is
`^[a-zA-Z0-9]+$`. -/
def isAlphanumChar (c : Char) : Bool :=
  ('a' ≤ c && c ≤ 'z') || ('A' ≤ c && c ≤ 'Z') || ('0' ≤ c && c ≤ '9')

/-- Whether a string field passes one tag, as in `go-playground/validator`, the validator
behind gin's binding: `required` is a non-empty string, `min` and `max` bound the number of
characters, `alphanum` is a non-empty run of ASCII letters and digits; `isURL` stands for
the validator's `url` check. -/
def checkTag (isURL : String → Bool) : Tag → String → Bool
  | .required, s => decide (s ≠ "")
  | .url, s => isURL s
  | .min n, s => decide (n ≤ s.length)
  | .max n, s => decide (s.length ≤ n)
  | .alphanum, s => !s.data.isEmpty && s.data.all isAlphanumChar

/-- The validation of one string field: with `omitempty` an empty field is skipped;
otherwise the tags are checked in order and the first one that fails is reported. -/
def validateField (isURL : String → Bool) (omitempty : Bool) (tags : List Tag) (s : String) :
    Option Tag :=
  if omitempty && decide (s = "") then none
  else tags.find? (fun t => !checkTag isURL t s)

/-- The validation of a `CreateLinkRequest` by its binding tags
(`OriginalURL: required,url`, `CustomAlias: omitempty,min=3,max=20,alphanum`,
`Title: omitempty,max=255`): the fields that fail, each with the tag it fails on. -/
def validateCreateLinkRequest (isURL : String → Bool) (req : CreateLinkRequest) :
    List (String × Tag) :=
  (match validateField isURL false [.required, .url] req.OriginalURL with
    | some t => [("OriginalURL", t)]
    | none => []) ++
  (match validateField isURL true [.min 3, .max 20, .alphanum] req.CustomAlias with
    | some t => [("CustomAlias", t)]
    | none => []) ++
  (match validateField isURL true [.max 255] req.Title with
    | some t => [("Title", t)]
    | none => [])

/-- The error of `c.ShouldBindJSON`: the body is no JSON for the struct, or fields fail
their tags. -/
inductive BindError where
  | json (msg : String)
  | validation (failed : List (String × Tag))
  deriving DecidableEq, Repr

/-- The call `c.ShouldBindJSON(&req)` for a `CreateLinkRequest`; `body` is the outcome of
decoding the JSON body into the struct. -/
def ShouldBindJSON (isURL : String → Bool) (body : Except String CreateLinkRequest) :
    Except BindError CreateLinkRequest :=
  match body with
  | .error msg => .error (.json msg)
  | .ok req =>
    match validateCreateLinkRequest isURL req with
    | [] => .ok req
    | failed => .error (.validation failed)

/-- The answer written by `c.JSON(status, gin.H{...})`: the status and the keys `error`,
`details` (the bind error, of which the JSON carries the text), `message` and `data`. -/
structure Response where
  status : Nat
  error : Option String
  details : Option BindError
  message : Option String
  data : Option LinkResponse
  deriving DecidableEq, Repr

/-- Embedding of the handler `LinkHandler.CreateLink`; `user` is the result of
`middleware.GetUserIDFromContext` (`none` when it fails) and `body` the decoded JSON
body. -/
def LinkHandler.CreateLink (env : Env) (isURL : String → Bool) (fuel : Nat)
    (user : Option UUID) (body : Except String CreateLinkRequest) (w : Store) :
    Run (Response × Store) :=
  match user with
  | none =>
    .done ({ status := 401, error := some "User not authenticated", details := none,
             message := none, data := none }, w)
  | some userID =>
    match ShouldBindJSON isURL body with
    | .error err =>
      .done ({ status := 400, error := some "Invalid request data", details := some err,
               message := none, data := none }, w)
    | .ok req =>
      match Shortlink.CreateLink env fuel userID req w with
      | .panicked => .panicked
      | .outOfFuel => .outOfFuel
      | .done (.error err, w1) =>
        .done ({ status := 400, error := some err, details := none, message := none,
                 data := none }, w1)
      | .done (.ok response, w1) =>
        .done ({ status := 201, error := none, details := none,
                 message := some "Link created successfully", data := some response }, w1)

/-! ## `internal/middleware/rate_limit.go` -/

/-- The constant `math.MinInt64`, the least value of a `time.Duration` (an `int64` number of
nanoseconds). -/
def minDuration : Int := -9223372036854775808

/-- The negation `-d` of a `time.Duration`: an `int64` negation, which wraps at
`math.MinInt64`, the one duration without a positive counterpart, and leaves it as it is. -/
def negDuration (d : Int) : Int := if d = minDuration then minDuration else -d

/-- The struct `RateLimiter` without its mutex: the map `requests` (a missing key is `none`),
`limit`, and `window`, a `time.Duration` in nanoseconds. -/
structure RateLimiter where
  requests : String → Option (List Time)
  limit : Int
  window : Int

/-- Embedding of `NewRateLimiter`. -/
def NewRateLimiter (limit : Int) (window : Int) : RateLimiter :=
  { requests := fun _ => none, limit := limit, window := window }

/-- The index expression `rl.requests[clientIP]`: the zero value, a nil slice, for a missing
key. -/
def RateLimiter.lookup (rl : RateLimiter) (clientIP : String) : List Time :=
  (rl.requests clientIP).getD []

/-- The assignment `rl.requests[clientIP] = times`. -/
def RateLimiter.store (rl : RateLimiter) (clientIP : String) (times : List Time) :
    RateLimiter :=
  { rl with requests := fun k => if k = clientIP then some times else rl.requests k }

/-- The key under which a request is counted: `c.ClientIP()`, or `unknown` when that is
empty. -/
def identity (clientIP : String) : String :=
  if clientIP = "" then "unknown" else clientIP

/-- The loop `for _, t := range times { if t.After(windowStart) { validTimes = append(validTimes, t) } }`. -/
def validTimes (windowStart : Time) (times : List Time) : List Time :=
  times.foldl (fun valid t => if t > windowStart then valid ++ [t] else valid) []

/-- What the handler does with the request: `allow` is `c.Next()`, `reject` is the answer
`429 Too Many Requests` followed by `c.Abort()`. -/
inductive Decision where
  | allow
  | reject
  deriving DecidableEq, Repr

/-- Embedding of the handler returned by `RateLimiter.RateLimit`, the body that runs under
`rl.mutex`; `clientIP` is the value of `c.ClientIP()` and `now` that of `time.Now()`.  The
pruning threshold is `now.Add(-rl.window)`, with the negation taken on the duration. -/
def RateLimit (rl : RateLimiter) (clientIP : String) (now : Time) : Decision × RateLimiter :=
  let clientIP := if clientIP = "" then "unknown" else clientIP
  let windowStart := now + negDuration rl.window
  let rl :=
    match rl.requests clientIP with
    | some times => rl.store clientIP (validTimes windowStart times)
    | none => rl
  if ((rl.lookup clientIP).length : Int) ≥ rl.limit then (.reject, rl)
  else (.allow, rl.store clientIP (rl.lookup clientIP ++ [now]))

/-- A sequence of requests `(c.ClientIP(), time.Now())` served one after the other: the
decisions, and the limiter at the end. -/
def runChecks (rl : RateLimiter) : List (String × Time) → List Decision × RateLimiter
  | [] => ([], rl)
  | (clientIP, now) :: rest =>
    ((RateLimit rl clientIP now).1 :: (runChecks (RateLimit rl clientIP now).2 rest).1,
      (runChecks (RateLimit rl clientIP now).2 rest).2)

/-- The admitted requests of a sequence of requests served one after the other, each with
the identity it was counted under and its time. -/
def admitted (rl : RateLimiter) : List (String × Time) → List (String × Time)
  | [] => []
  | (clientIP, now) :: rest =>
    if (RateLimit rl clientIP now).1 = .allow then
      (identity clientIP, now) :: admitted (RateLimit rl clientIP now).2 rest
    else admitted (RateLimit rl clientIP now).2 rest

/-! ## Predicates and values used in the statements -/

/-- The URL-safe base64 alphabet as a predicate: an ASCII letter, an ASCII digit, `-` or `_`. -/
def isURLSafeChar (c : Char) : Bool := c.isAlpha || c.isDigit || c == '-' || c == '_'

/-- The struct that `CreateLink` hands to `LinkRepository.Create`. -/
def newLink (env : Env) (userID : UUID) (req : CreateLinkRequest) (originalURL : String)
    (shortCode : String) : Link :=
  { ID := env.newUUID, UserID := userID, OriginalURL := originalURL, ShortCode := shortCode,
    Title := req.Title, Clicks := 0, IsActive := true, ExpiresAt := req.ExpiresAt,
    CreatedAt := 0, UpdatedAt := 0 }

/-- The row that a successful insert of `newLink` adds to the table. -/
def newRow (env : Env) (userID : UUID) (req : CreateLinkRequest) (originalURL : String)
    (shortCode : String) : Link :=
  { newLink env userID req originalURL shortCode with
    CreatedAt := env.dbNow, UpdatedAt := env.dbNow }

/-! ## Sample inputs -/

/-- A store with an empty table and an empty trace. -/
def emptyStore : Store := { rows := [], calls := [] }

/-- Sample surroundings: a URL parser that accepts everything, a database that never fails,
and a random source whose every byte is `0xFF`. -/
def sampleEnv : Env :=
  { parseRequestURI := fun _ => none, newUUID := 1,
    randRead := fun _ => .ok [255, 255, 255, 255, 255, 255, 255, 255],
    fault := fun _ => none, dbNow := 100, baseURL := "http://localhost:8080" }

/-- The request of `TestCreateLink`. -/
def sampleRequest : CreateLinkRequest :=
  { OriginalURL := "https://example.com/very-long-url", CustomAlias := "test-link",
    Title := "Test Link", ExpiresAt := none }

/-- A row with the short code `test-link`, owned by user `7`. -/
def sampleRow : Link :=
  { ID := 5, UserID := 7, OriginalURL := "https://example.org", ShortCode := "test-link",
    Title := "", Clicks := 0, IsActive := true, ExpiresAt := none, CreatedAt := 50,
    UpdatedAt := 50 }

/-- A store whose table holds `sampleRow`. -/
def sampleStore : Store := { rows := [sampleRow], calls := [] }

/-- The request of `TestCreateLink` without its alias. -/
def sampleRequestNoAlias : CreateLinkRequest :=
  { OriginalURL := "https://example.com/very-long-url", CustomAlias := "",
    Title := "Test Link", ExpiresAt := none }

/-- An update request that only renames: the alias `new-code`. -/
def sampleRename : UpdateLinkRequest :=
  { OriginalURL := "", CustomAlias := "new-code", Title := "", IsActive := none,
    ExpiresAt := none }

/-- No two rows of the table share a short code. -/
def UniqueShortCodes (w : Store) : Prop :=
  w.rows.Pairwise (fun a b => a.ShortCode ≠ b.ShortCode)

/-- No two rows of the table share an id (`id` is the primary key). -/
def UniqueIDs (w : Store) : Prop :=
  w.rows.Pairwise (fun a b => a.ID ≠ b.ID)

/-- A limiter with cap 2 and window 60 that has recorded the times 0, 10 and 50 for `a`. -/
def sampleLimiter : RateLimiter := (NewRateLimiter 2 60).store "a" [0, 10, 50]

/-- A limiter with cap 1 and window 60 that has recorded the time 0 for `a`. -/
def boundaryLimiter : RateLimiter := (NewRateLimiter 1 60).store "a" [0]

/-- Membership of the time `x` in the trailing window `(t - W, t]`. -/
def inWindow (W : Int) (t x : Time) : Bool := decide (t - W < x) && decide (x ≤ t)

/-- A sequence of checks with non-decreasing times, for cap 3 and window 60. -/
def sampleChecks : List (String × Time) :=
  [("a", 0), ("a", 0), ("b", 1), ("a", 2), ("a", 3), ("", 5), ("a", 61), ("a", 62)]

/-- Three checks for the identity `b`, which exhaust a cap of 2. -/
def sampleOthers : List (String × Time) := [("b", 0), ("b", 1), ("b", 2)]

/-- A create request for `example.com`, without scheme and without alias. -/
def sampleBareRequest : CreateLinkRequest :=
  { OriginalURL := "example.com", CustomAlias := "", Title := "", ExpiresAt := none }

/-- An update request that only changes the URL, to ` example.net`. -/
def sampleRetarget : UpdateLinkRequest :=
  { OriginalURL := " example.net", CustomAlias := "", Title := "", IsActive := none,
    ExpiresAt := none }

/-- A second row, with the short code `other-code`, owned by user `7`. -/
def sampleRow2 : Link :=
  { ID := 6, UserID := 7, OriginalURL := "https://example.net", ShortCode := "other-code",
    Title := "", Clicks := 0, IsActive := true, ExpiresAt := none, CreatedAt := 60,
    UpdatedAt := 60 }

/-- A store whose table holds `sampleRow` and `sampleRow2`. -/
def sampleStore2 : Store := { rows := [sampleRow, sampleRow2], calls := [] }

/-- An update request that only names the alias `test-link`. -/
def sampleAliasTestLink : UpdateLinkRequest :=
  { OriginalURL := "", CustomAlias := "test-link", Title := "", IsActive := none,
    ExpiresAt := none }

/-- The message of the database when an insert violates the uniqueness constraint on
`short_code`. -/
def uniqueViolation : String :=
  "pq: duplicate key value violates unique constraint links_short_code_key"

/-- Surroundings in which the check-then-write race is lost: the existence query (call 0)
is answered, and the insert (call 1) fails on the uniqueness constraint. -/
def raceEnv : Env :=
  { sampleEnv with fault := fun n => if n = 1 then some uniqueViolation else none }

/-- A link may be resolved at the time `now`: it is active, and it has no expiry or `now` is
not after its expiry. -/
def resolvable (now : Time) (l : Link) : Prop :=
  l.IsActive = true ∧ ∀ expiresAt, l.ExpiresAt = some expiresAt → now ≤ expiresAt

/-- An active row with the short code `old`, which expires at the time 10. -/
def expiringRow : Link :=
  { ID := 8, UserID := 7, OriginalURL := "https://example.org/old", ShortCode := "old",
    Title := "", Clicks := 0, IsActive := true, ExpiresAt := some 10, CreatedAt := 1,
    UpdatedAt := 1 }

/-- An inactive row with the short code `off`. -/
def inactiveRow : Link :=
  { ID := 9, UserID := 7, OriginalURL := "https://example.org/off", ShortCode := "off",
    Title := "", Clicks := 0, IsActive := false, ExpiresAt := none, CreatedAt := 1,
    UpdatedAt := 1 }

/-- A store whose table holds `sampleRow`, `expiringRow` and `inactiveRow`. -/
def sampleStore3 : Store := { rows := [sampleRow, expiringRow, inactiveRow], calls := [] }

/-- Surroundings in which the lookup (call 0) is answered and the click increment (call 1)
fails. -/
def incrementFailsEnv : Env :=
  { sampleEnv with fault := fun n => if n = 1 then some "pq: connection refused" else none }

/-- The store after `n` more existence checks, for the candidates `cand 0`, ...,
`cand (n - 1)`. -/
def afterChecks (w : Store) (cand : Nat → String) (n : Nat) : Store :=
  { rows := w.rows,
    calls := w.calls ++ (List.range n).map (fun i => RepoCall.shortCodeExists (cand i)) }

/-- Surroundings whose random source delivers the bytes `0xFF` at the first two draws and
the bytes `1, ..., 8` from then on: the candidates are `________`, `________`, `AQIDBAUG`. -/
def retryEnv : Env :=
  { sampleEnv with
    randRead := fun k =>
      if k < 2 then .ok [255, 255, 255, 255, 255, 255, 255, 255]
      else .ok [1, 2, 3, 4, 5, 6, 7, 8] }

/-- The candidates generated in `retryEnv`. -/
def retryCandidates (k : Nat) : String := if k < 2 then "________" else "AQIDBAUG"

/-- A store whose table holds a row with the generated code `________`. -/
def takenStore : Store :=
  { rows := [{ sampleRow with ShortCode := "________" }], calls := [] }

/-- The link after all the blocks of `UpdateLink`, field by field: each field is the stored
one unless the request provides it. -/
def updatedLink (req : UpdateLinkRequest) (old : Link) : Link :=
  { old with
    OriginalURL :=
      if req.OriginalURL = "" then old.OriginalURL else SanitizeURL req.OriginalURL,
    ShortCode := if req.CustomAlias = "" then old.ShortCode else req.CustomAlias,
    Title := if req.Title = "" then old.Title else req.Title,
    IsActive := match req.IsActive with
      | some b => b
      | none => old.IsActive,
    ExpiresAt := match req.ExpiresAt with
      | some t => some t
      | none => old.ExpiresAt }

/-- An update request that provides nothing. -/
def emptyUpdate : UpdateLinkRequest :=
  { OriginalURL := "", CustomAlias := "", Title := "", IsActive := none, ExpiresAt := none }

/-- An update request that provides a title and the active flag only. -/
def sampleRetitle : UpdateLinkRequest :=
  { OriginalURL := "", CustomAlias := "", Title := "New title", IsActive := some false,
    ExpiresAt := none }

/-- An update request that only names the alias `________`, a generated code. -/
def sampleAliasGenerated : UpdateLinkRequest :=
  { OriginalURL := "", CustomAlias := "________", Title := "", IsActive := none,
    ExpiresAt := none }

/-- A store whose table holds `sampleRow2` and a row with the generated code `________`. -/
def sampleStore4 : Store :=
  { rows := [sampleRow2, { sampleRow with ShortCode := "________" }], calls := [] }

/-! ## THEOREMS -/

/-! ### The short-code format -/

theorem inShortCodeClass_iff (c : Char) :
    inShortCodeClass c = true ↔ (c.isAlpha = true ∨ c.isDigit = true ∨ c = '-') := by
  simp only [inShortCodeClass, Char.isAlpha, Char.isUpper, Char.isLower, Char.isDigit,
    Bool.or_eq_true, Bool.and_eq_true, decide_eq_true_eq, beq_iff_eq, Char.le_def, ge_iff_le]
  constructor
  · rintro (((h | h) | h) | h)
    · exact Or.inl (Or.inr h)
    · exact Or.inl (Or.inl h)
    · exact Or.inr (Or.inl h)
    · exact Or.inr (Or.inr h)
  · rintro ((h | h) | h | h)
    · exact Or.inl (Or.inl (Or.inr h))
    · exact Or.inl (Or.inl (Or.inl h))
    · exact Or.inl (Or.inr h)
    · exact Or.inr h

theorem utf8Size_of_inShortCodeClass (c : Char) (h : inShortCodeClass c = true) :
    c.utf8Size = 1 := by
  have h127 : c.val ≤ UInt32.ofNatCore 127 (by decide) := by
    simp only [inShortCodeClass,
      Bool.or_eq_true, Bool.and_eq_true, decide_eq_true_eq, beq_iff_eq, Char.le_def] at h
    rcases h with ((⟨_, h⟩ | ⟨_, h⟩) | ⟨_, h⟩) | h
    · exact UInt32.le_trans h (by decide)
    · exact UInt32.le_trans h (by decide)
    · exact UInt32.le_trans h (by decide)
    · subst h; decide
  unfold Char.utf8Size
  exact if_pos h127

theorem utf8ByteSize_go_of_class (cs : List Char) (h : cs.all inShortCodeClass = true) :
    String.utf8ByteSize.go cs = cs.length := by
  induction cs with
  | nil => rfl
  | cons c cs ih =>
    simp only [List.all_cons, Bool.and_eq_true] at h
    simp only [String.utf8ByteSize.go, List.length_cons, ih h.2,
      utf8Size_of_inShortCodeClass c h.1]

/-- On a text of characters of the class, the byte length is the number of characters. -/
theorem goLen_of_class (s : String) (h : s.data.all inShortCodeClass = true) :
    goLen s = s.length := by
  cases s with
  | mk cs => exact utf8ByteSize_go_of_class cs h

/-- Every character takes at least one byte. -/
theorem length_le_goLen (s : String) : s.length ≤ goLen s := by
  cases s with
  | mk cs =>
    show cs.length ≤ String.utf8ByteSize.go cs
    induction cs with
    | nil => exact Nat.le_refl _
    | cons c cs ih =>
      have := c.utf8Size_pos
      simp only [String.utf8ByteSize.go, List.length_cons]
      omega

theorem ValidateShortCode_eq_none_iff (code : String) :
    ValidateShortCode code = none ↔
      (3 ≤ goLen code ∧ goLen code ≤ 20 ∧ code.data.all inShortCodeClass = true) := by
  unfold ValidateShortCode matchShortCodePattern
  by_cases hlen : goLen code < 3 ∨ goLen code > 20
  · rw [if_pos hlen]
    constructor
    · intro h; cases h
    · rintro ⟨h1, h2, _⟩; omega
  · rw [if_neg hlen]
    have hne : code.data.isEmpty = false := by
      cases hd : code.data with
      | nil =>
        exfalso
        have : goLen code = 0 := by
          cases code with
          | mk cs => simp only at hd; subst hd; rfl
        omega
      | cons c cs => rfl
    cases hall : code.data.all inShortCodeClass
    · simp [hne, hall]
    · simp [hne, hall]; omega

/-- The format rule in the words of the specification: 3 to 20 characters, each an ASCII
letter, an ASCII digit or a hyphen. -/
theorem ValidateShortCode_eq_none_iff_chars (code : String) :
    ValidateShortCode code = none ↔
      (3 ≤ code.length ∧ code.length ≤ 20 ∧
        ∀ c ∈ code.data, c.isAlpha = true ∨ c.isDigit = true ∨ c = '-') := by
  rw [ValidateShortCode_eq_none_iff]
  have hcls : code.data.all inShortCodeClass = true ↔
      ∀ c ∈ code.data, c.isAlpha = true ∨ c.isDigit = true ∨ c = '-' := by
    rw [List.all_eq_true]
    exact forall₂_congr (fun c _ => inShortCodeClass_iff c)
  constructor
  · rintro ⟨h1, h2, h3⟩
    rw [goLen_of_class code h3] at h1 h2
    exact ⟨h1, h2, hcls.mp h3⟩
  · rintro ⟨h1, h2, h3⟩
    have h3' := hcls.mpr h3
    rw [goLen_of_class code h3']
    exact ⟨h1, h2, h3'⟩

/-- C1: `ValidateShortCode code` returns no error exactly when `code` has between 3 and 20
characters (equivalently, bytes), each an ASCII letter, an ASCII digit or a hyphen; on every
other string it returns an error. -/
theorem ValidateShortCode_spec (code : String) :
    (ValidateShortCode code = none ↔
      (3 ≤ code.length ∧ code.length ≤ 20 ∧
        ∀ c ∈ code.data, c.isAlpha = true ∨ c.isDigit = true ∨ c = '-')) ∧
    (ValidateShortCode code = none ↔
      (3 ≤ goLen code ∧ goLen code ≤ 20 ∧
        ∀ c ∈ code.data, c.isAlpha = true ∨ c.isDigit = true ∨ c = '-')) ∧
    ((ValidateShortCode code).isSome = true ↔
      ¬ (3 ≤ code.length ∧ code.length ≤ 20 ∧
        ∀ c ∈ code.data, c.isAlpha = true ∨ c.isDigit = true ∨ c = '-')) := by
  refine ⟨ValidateShortCode_eq_none_iff_chars code, ?_, ?_⟩
  · rw [ValidateShortCode_eq_none_iff]
    have hcls : code.data.all inShortCodeClass = true ↔
        ∀ c ∈ code.data, c.isAlpha = true ∨ c.isDigit = true ∨ c = '-' := by
      rw [List.all_eq_true]
      exact forall₂_congr (fun c _ => inShortCodeClass_iff c)
    rw [hcls]
  · rw [← ValidateShortCode_eq_none_iff_chars]
    cases ValidateShortCode code <;> simp

/-! ### Generated codes -/

theorem encodeChar_table : ∀ j, j < 64 →
    (isURLSafeChar (encodeChar j) = true ∧ encodeChar j ≠ padChar) := by
  decide

theorem encodeChar_masked (v : Nat) :
    isURLSafeChar (encodeChar (v &&& 0x3F)) = true ∧ encodeChar (v &&& 0x3F) ≠ padChar :=
  encodeChar_table _ (Nat.lt_succ_of_le Nat.and_le_right)

/-- The length of a padded base64 text, Go's `EncodedLen`. -/
theorem length_encodeToString (bs : List Nat) :
    (encodeToString bs).length = 4 * ((bs.length + 2) / 3) := by
  induction bs using encodeToString.induct with
  | case1 b0 b1 b2 rest ih =>
    simp only [encodeToString, List.length_cons, ih]
    omega
  | case2 b0 b1 => simp [encodeToString]
  | case3 b0 => simp [encodeToString]
  | case4 => rfl

/-- Padding only comes after as many characters as there are source bytes. -/
theorem take_encodeToString_safe (bs : List Nat) :
    ∀ k, k ≤ bs.length → ∀ c ∈ (encodeToString bs).take k,
      isURLSafeChar c = true ∧ c ≠ padChar := by
  induction bs using encodeToString.induct with
  | case1 b0 b1 b2 rest ih =>
    intro k hk c hc
    simp only [encodeToString] at hc
    match k, hk, hc with
    | 0, _, hc => simp at hc
    | 1, _, hc =>
      simp only [List.take_succ_cons, List.take_zero, List.mem_cons, List.mem_nil_iff,
        or_false] at hc
      subst hc; exact encodeChar_masked _
    | 2, _, hc =>
      simp only [List.take_succ_cons, List.take_zero, List.mem_cons, List.mem_nil_iff,
        or_false] at hc
      rcases hc with h | h <;> subst h <;> exact encodeChar_masked _
    | 3, _, hc =>
      simp only [List.take_succ_cons, List.take_zero, List.mem_cons, List.mem_nil_iff,
        or_false] at hc
      rcases hc with h | h | h <;> subst h <;> exact encodeChar_masked _
    | k + 4, hk, hc =>
      simp only [List.take_succ_cons, List.mem_cons] at hc
      rcases hc with h | h | h | h | h
      · subst h; exact encodeChar_masked _
      · subst h; exact encodeChar_masked _
      · subst h; exact encodeChar_masked _
      · subst h; exact encodeChar_masked _
      · exact ih k (by simp only [List.length_cons] at hk; omega) c h
  | case2 b0 b1 =>
    intro k hk c hc
    simp only [encodeToString] at hc
    match k, hk, hc with
    | 0, _, hc => simp at hc
    | 1, _, hc =>
      simp only [List.take_succ_cons, List.take_zero, List.mem_cons, List.mem_nil_iff,
        or_false] at hc
      subst hc; exact encodeChar_masked _
    | 2, _, hc =>
      simp only [List.take_succ_cons, List.take_zero, List.mem_cons, List.mem_nil_iff,
        or_false] at hc
      rcases hc with h | h <;> subst h <;> exact encodeChar_masked _
    | k + 3, hk, _ => simp only [List.length_cons, List.length_nil] at hk; omega
  | case3 b0 =>
    intro k hk c hc
    simp only [encodeToString] at hc
    match k, hk, hc with
    | 0, _, hc => simp at hc
    | 1, _, hc =>
      simp only [List.take_succ_cons, List.take_zero, List.mem_cons, List.mem_nil_iff,
        or_false] at hc
      subst hc; exact encodeChar_masked _
    | k + 2, hk, _ => simp only [List.length_cons, List.length_nil] at hk; omega
  | case4 =>
    intro k _ c hc
    simp [encodeToString] at hc

theorem length_filledBuffer (n : Nat) (random : List Nat) :
    (filledBuffer n random).length = n := by
  simp [filledBuffer]

/-- What `GenerateShortCode n` returns when the random source delivers. -/
theorem GenerateShortCode_ok (n : Nat) (random : List Nat) :
    ∃ code : String, GenerateShortCode (n : Int) (.ok random) = some (.ok code) ∧
      code.length = n ∧ ∀ c ∈ code.data, isURLSafeChar c = true ∧ c ≠ '=' := by
  have hlen : n ≤ (encodeToString (filledBuffer n random)).length := by
    rw [length_encodeToString, length_filledBuffer]; omega
  refine ⟨String.mk ((encodeToString (filledBuffer n random)).take n), ?_, ?_, ?_⟩
  · have hn : ¬ ((n : Int) < 0) := by omega
    simp only [GenerateShortCode, hn, if_false, Int.toNat_ofNat, sliceTo, hlen, if_true]
  · show ((encodeToString (filledBuffer n random)).take n).length = n
    rw [List.length_take]; omega
  · intro c hc
    exact take_encodeToString_safe (filledBuffer n random) n
      (by rw [length_filledBuffer]) c hc

/-! ### The repository -/

theorem ShortCodeExists_store (env : Env) (shortCode : String) (w : Store) :
    (LinkRepository.ShortCodeExists env shortCode w).2 = w.record (.shortCodeExists shortCode) := by
  unfold LinkRepository.ShortCodeExists
  cases env.fault w.calls.length <;> rfl

theorem ShortCodeExists_result (env : Env) (shortCode : String) (w : Store) :
    (LinkRepository.ShortCodeExists env shortCode w).1 =
      match env.fault w.calls.length with
      | some err => .error err
      | none => .ok (w.rows.any (fun l => l.ShortCode == shortCode)) := by
  unfold LinkRepository.ShortCodeExists
  cases env.fault w.calls.length <;> rfl

theorem any_shortCode_eq_false_iff (rows : List Link) (code : String) :
    rows.any (fun l => l.ShortCode == code) = false ↔ ∀ l ∈ rows, l.ShortCode ≠ code := by
  simp [List.any_eq_false]

theorem any_shortCode_eq_true_iff (rows : List Link) (code : String) :
    rows.any (fun l => l.ShortCode == code) = true ↔ ∃ l ∈ rows, l.ShortCode = code := by
  simp [List.any_eq_true]

/-! ### The generation loop -/

theorem GenerateShortCode_eight (read : Except String (List Nat)) :
    (∃ err, read = .error err ∧ GenerateShortCode 8 read = some (.error err)) ∨
    (∃ code : String, GenerateShortCode 8 read = some (.ok code) ∧ code.length = 8 ∧
      ∀ c ∈ code.data, isURLSafeChar c = true ∧ c ≠ '=') := by
  cases read with
  | error err => exact Or.inl ⟨err, rfl, rfl⟩
  | ok random => exact Or.inr (GenerateShortCode_ok 8 random)

/-- The loop never panics. -/
theorem generateLoop_ne_panicked (env : Env) :
    ∀ fuel k w, generateLoop env fuel k w ≠ .panicked := by
  intro fuel
  induction fuel with
  | zero => intro k w h; simp [generateLoop] at h
  | succ fuel ih =>
    intro k w
    unfold generateLoop
    rcases GenerateShortCode_eight (env.randRead k) with ⟨err, _, h⟩ | ⟨code, h, _, _⟩
    · rw [h]; simp
    · rw [h]
      simp only
      rcases hq : LinkRepository.ShortCodeExists env code w with ⟨res, w1⟩
      cases res with
      | error e => simp
      | ok found =>
        cases found with
        | false => simp
        | true => simpa using ih (k + 1) w1

/-- When the loop ends, it has only queried the store; and the code it breaks with has 8
characters of the URL-safe alphabet and is the short code of no row. -/
theorem generateLoop_done (env : Env) :
    ∀ fuel k w out w1, generateLoop env fuel k w = .done (out, w1) →
      w1.rows = w.rows ∧
      (∃ extra, w1.calls = w.calls ++ extra ∧ ∀ c ∈ extra, ∃ s, c = RepoCall.shortCodeExists s) ∧
      ∀ code, out = .ok code →
        code.length = 8 ∧ (∀ c ∈ code.data, isURLSafeChar c = true ∧ c ≠ '=') ∧
        ∀ l ∈ w.rows, l.ShortCode ≠ code := by
  intro fuel
  induction fuel with
  | zero => intro k w out w1 h; simp [generateLoop] at h
  | succ fuel ih =>
    intro k w out w1 h
    unfold generateLoop at h
    rcases GenerateShortCode_eight (env.randRead k) with ⟨err, _, hg⟩ | ⟨code, hg, hlen, hsafe⟩
    · rw [hg] at h
      simp only [Run.done.injEq, Prod.mk.injEq] at h
      obtain ⟨rfl, rfl⟩ := h
      exact ⟨rfl, ⟨[], by simp, by simp⟩, by intro code hc; cases hc⟩
    · rw [hg] at h
      simp only at h
      have hs := ShortCodeExists_store env code w
      have hr := ShortCodeExists_result env code w
      rcases hq : LinkRepository.ShortCodeExists env code w with ⟨res, w2⟩
      rw [hq] at h hs hr
      simp only at hs hr
      subst hs
      cases res with
      | error e =>
        simp only [Run.done.injEq, Prod.mk.injEq] at h
        obtain ⟨rfl, rfl⟩ := h
        exact ⟨rfl, ⟨[.shortCodeExists code], rfl, by simp⟩, by intro c hc; cases hc⟩
      | ok found =>
        cases found with
        | false =>
          simp only [Bool.not_false, if_true, Run.done.injEq, Prod.mk.injEq] at h
          obtain ⟨rfl, rfl⟩ := h
          refine ⟨rfl, ⟨[.shortCodeExists code], rfl, by simp⟩, ?_⟩
          intro c hc
          cases hc
          refine ⟨hlen, hsafe, ?_⟩
          cases hf : env.fault w.calls.length with
          | some e => rw [hf] at hr; cases hr
          | none =>
            rw [hf] at hr
            simp only [Except.ok.injEq] at hr
            exact (any_shortCode_eq_false_iff _ _).mp hr.symm
        | true =>
          simp only [Bool.not_true, Bool.false_eq_true, if_false] at h
          obtain ⟨h1, ⟨extra, h2, h3⟩, h4⟩ := ih (k + 1) _ out w1 h
          refine ⟨h1, ⟨RepoCall.shortCodeExists code :: extra, ?_, ?_⟩, h4⟩
          · rw [h2]; simp [Store.record]
          · intro c hc
            rcases List.mem_cons.mp hc with rfl | hc
            · exact ⟨code, rfl⟩
            · exact h3 c hc

/-! ### `CreateLink` -/

theorem createWith_eq (env : Env) (userID : UUID) (req : CreateLinkRequest)
    (url code : String) (w : Store) :
    createWith env userID req url code w =
      match env.fault w.calls.length with
      | some err =>
        (.error ("failed to create link: " ++ err), w.record (.create (newLink env userID req url code)))
      | none =>
        if w.rows.any (fun l => l.ID == env.newUUID) then
          (.error ("failed to create link: " ++
              "pq: duplicate key value violates unique constraint links_pkey"),
            w.record (.create (newLink env userID req url code)))
        else
          (.ok (toLinkResponse env (newRow env userID req url code)),
            { rows := w.rows ++ [newRow env userID req url code],
              calls := w.calls ++ [.create (newLink env userID req url code)] }) := by
  unfold createWith LinkRepository.Create
  cases env.fault w.calls.length with
  | some err => rfl
  | none =>
    simp only
    by_cases h : w.rows.any (fun l => l.ID == env.newUUID) = true
    · simp only [h, if_true]; rfl
    · simp only [h]; rfl

/-- The two ways `createWith` can end: the insert failed and the table is as before, or the
table has one more row, carrying the code and the URL that were passed in. -/
theorem createWith_cases (env : Env) (userID : UUID) (req : CreateLinkRequest)
    (url code : String) (w : Store) :
    ((∃ err, (createWith env userID req url code w).1 = .error err) ∧
      (createWith env userID req url code w).2 =
        w.record (.create (newLink env userID req url code))) ∨
    ((createWith env userID req url code w).1 =
        .ok (toLinkResponse env (newRow env userID req url code)) ∧
      (createWith env userID req url code w).2 =
        { rows := w.rows ++ [newRow env userID req url code],
          calls := w.calls ++ [.create (newLink env userID req url code)] } ∧
      env.fault w.calls.length = none ∧ ∀ l ∈ w.rows, l.ID ≠ env.newUUID) := by
  rw [createWith_eq]
  cases hf : env.fault w.calls.length with
  | some err => exact Or.inl ⟨⟨_, rfl⟩, rfl⟩
  | none =>
    by_cases h : w.rows.any (fun l => l.ID == env.newUUID) = true
    · rw [if_pos h]; exact Or.inl ⟨⟨_, rfl⟩, rfl⟩
    · rw [if_neg h]
      refine Or.inr ⟨rfl, rfl, rfl, ?_⟩
      simpa [List.any_eq_true] using h

theorem ne_empty_of_ValidateShortCode (code : String) (h : ValidateShortCode code = none) :
    code ≠ "" := by
  intro he
  subst he
  revert h
  decide

theorem ShortCodeExists_eq_of_no_fault (env : Env) (shortCode : String) (w : Store)
    (h : env.fault w.calls.length = none) :
    LinkRepository.ShortCodeExists env shortCode w =
      (.ok (w.rows.any (fun l => l.ShortCode == shortCode)),
        w.record (.shortCodeExists shortCode)) := by
  unfold LinkRepository.ShortCodeExists
  rw [h]

/-- `CreateLink` with a well-formed URL and a non-empty alias, as far as the alias decides. -/
theorem CreateLink_alias_eq (env : Env) (fuel : Nat) (userID : UUID) (req : CreateLinkRequest)
    (w : Store) (hurl : ValidateURL env.parseRequestURI req.OriginalURL = none)
    (hne : req.CustomAlias ≠ "") :
    CreateLink env fuel userID req w =
      match ValidateShortCode req.CustomAlias with
      | some err => .done (.error ("invalid custom alias: " ++ err), w)
      | none =>
        match LinkRepository.ShortCodeExists env req.CustomAlias w with
        | (.error err, w1) => .done (.error ("failed to check short code: " ++ err), w1)
        | (.ok found, w1) =>
          if found then .done (.error "custom alias already exists", w1)
          else .done (createWith env userID req (SanitizeURL req.OriginalURL)
            req.CustomAlias w1) := by
  unfold CreateLink
  rw [hurl]
  simp only [hne, ne_eq, not_false_eq_true, if_true]

/-- C2: for a request whose URL passes `ValidateURL` and whose custom alias satisfies the
format rule, and a store that answers the existence query: when no stored link has the
alias as short code and the insert succeeds (the database raises no error and the fresh id
is not taken), `CreateLink` returns a response with `short_code` equal to the alias and
`original_url` equal to `SanitizeURL` of the input, and the table has gained exactly that
row; when some stored link already has the alias as short code, `CreateLink` returns the
error "custom alias already exists" and the store has only seen the existence query: the
table is unchanged and `Create` was not called. -/
theorem CreateLink_custom_alias (env : Env) (fuel : Nat) (userID : UUID)
    (req : CreateLinkRequest) (w : Store)
    (hurl : ValidateURL env.parseRequestURI req.OriginalURL = none)
    (halias : ValidateShortCode req.CustomAlias = none)
    (hquery : env.fault w.calls.length = none) :
    ((∀ l ∈ w.rows, l.ShortCode ≠ req.CustomAlias) →
      env.fault (w.calls.length + 1) = none → (∀ l ∈ w.rows, l.ID ≠ env.newUUID) →
      ∃ r w', CreateLink env fuel userID req w = .done (.ok r, w') ∧
        r.ShortCode = req.CustomAlias ∧ r.OriginalURL = SanitizeURL req.OriginalURL ∧
        ∃ row, w'.rows = w.rows ++ [row] ∧ row.ShortCode = req.CustomAlias ∧
          row.OriginalURL = SanitizeURL req.OriginalURL ∧ row.UserID = userID ∧
          row.ID = r.ID) ∧
    ((∃ l ∈ w.rows, l.ShortCode = req.CustomAlias) →
      CreateLink env fuel userID req w =
        .done (.error "custom alias already exists",
          { rows := w.rows, calls := w.calls ++ [.shortCodeExists req.CustomAlias] })) := by
  have hne := ne_empty_of_ValidateShortCode _ halias
  rw [CreateLink_alias_eq env fuel userID req w hurl hne, halias]
  simp only [ShortCodeExists_eq_of_no_fault env req.CustomAlias w hquery]
  constructor
  · intro hfree hins hid
    have hfound := (any_shortCode_eq_false_iff w.rows req.CustomAlias).mpr hfree
    rw [hfound]
    simp only [Bool.false_eq_true, if_false]
    rw [createWith_eq]
    have hlen : (w.record (.shortCodeExists req.CustomAlias)).calls.length =
        w.calls.length + 1 := by simp [Store.record]
    rw [hlen, hins]
    have hany : (w.record (.shortCodeExists req.CustomAlias)).rows.any
        (fun l => l.ID == env.newUUID) = false := by
      simpa [Store.record, List.any_eq_false] using hid
    simp only [hany, Bool.false_eq_true, if_false]
    exact ⟨_, _, rfl, rfl, rfl, _, rfl, rfl, rfl, rfl, rfl⟩
  · intro hex
    have hfound := (any_shortCode_eq_true_iff w.rows req.CustomAlias).mpr hex
    rw [hfound]
    rfl

/-- The request of `TestCreateLink` on an empty table, and on a table that already holds
the alias. -/
theorem CreateLink_custom_alias_witness :
    ValidateURL sampleEnv.parseRequestURI sampleRequest.OriginalURL = none ∧
    ValidateShortCode sampleRequest.CustomAlias = none ∧
    sampleEnv.fault emptyStore.calls.length = none ∧
    (∃ r w', CreateLink sampleEnv 0 7 sampleRequest emptyStore = .done (.ok r, w') ∧
        r.ShortCode = "test-link" ∧
        r.OriginalURL = SanitizeURL "https://example.com/very-long-url" ∧
        ∃ row, w'.rows = emptyStore.rows ++ [row] ∧ row.ShortCode = "test-link" ∧
          row.OriginalURL = SanitizeURL "https://example.com/very-long-url" ∧
          row.UserID = 7 ∧ row.ID = r.ID) ∧
    CreateLink sampleEnv 0 7 sampleRequest sampleStore =
        .done (.error "custom alias already exists",
          { rows := [sampleRow], calls := [.shortCodeExists "test-link"] }) :=
  ⟨rfl, by decide, rfl,
    (CreateLink_custom_alias sampleEnv 0 7 sampleRequest emptyStore rfl (by decide) rfl).1
      (by intro l hl; cases hl) rfl (by intro l hl; cases hl),
    (CreateLink_custom_alias sampleEnv 0 7 sampleRequest sampleStore rfl (by decide) rfl).2
      ⟨sampleRow, List.mem_singleton.mpr rfl, rfl⟩⟩

/-- C3: for a request whose URL passes `ValidateURL` and whose custom alias is non-empty and
malformed (its length is outside [3,20], or one of its characters is no ASCII letter, ASCII
digit or hyphen), `CreateLink` returns an error "invalid custom alias: ..." and leaves the
store as it was, trace included: no repository method is called, neither `ShortCodeExists`
nor `Create`. -/
theorem CreateLink_malformed_alias (env : Env) (fuel : Nat) (userID : UUID)
    (req : CreateLinkRequest) (w : Store)
    (hurl : ValidateURL env.parseRequestURI req.OriginalURL = none)
    (hne : req.CustomAlias ≠ "")
    (hbad : ¬ (3 ≤ req.CustomAlias.length ∧ req.CustomAlias.length ≤ 20 ∧
      ∀ c ∈ req.CustomAlias.data, c.isAlpha = true ∨ c.isDigit = true ∨ c = '-')) :
    ∃ msg, ValidateShortCode req.CustomAlias = some msg ∧
      CreateLink env fuel userID req w =
        .done (.error ("invalid custom alias: " ++ msg), w) := by
  rw [CreateLink_alias_eq env fuel userID req w hurl hne]
  rw [← ValidateShortCode_eq_none_iff_chars] at hbad
  cases hv : ValidateShortCode req.CustomAlias with
  | none => exact absurd hv hbad
  | some msg => exact ⟨msg, rfl, rfl⟩

/-- The alias `test_link` contains an underscore: no repository call is made. -/
theorem CreateLink_malformed_alias_witness :
    ValidateURL sampleEnv.parseRequestURI "example.com" = none ∧
    "test_link" ≠ "" ∧
    ¬ (3 ≤ "test_link".length ∧ "test_link".length ≤ 20 ∧
      ∀ c ∈ "test_link".data, c.isAlpha = true ∨ c.isDigit = true ∨ c = '-') ∧
    ∃ msg, ValidateShortCode "test_link" = some msg ∧
      CreateLink sampleEnv 0 7
          { OriginalURL := "example.com", CustomAlias := "test_link", Title := "",
            ExpiresAt := none } sampleStore =
        .done (.error ("invalid custom alias: " ++ msg), sampleStore) :=
  have hbad : ¬ (3 ≤ "test_link".length ∧ "test_link".length ≤ 20 ∧
      ∀ c ∈ "test_link".data, c.isAlpha = true ∨ c.isDigit = true ∨ c = '-') := by
    intro h
    have := h.2.2 '_' (by decide)
    revert this
    decide
  ⟨rfl, by decide, hbad,
    CreateLink_malformed_alias sampleEnv 0 7
      { OriginalURL := "example.com", CustomAlias := "test_link", Title := "",
        ExpiresAt := none } sampleStore rfl (by decide) hbad⟩

/-- `CreateLink` with a well-formed URL and no alias. -/
theorem CreateLink_generated_eq (env : Env) (fuel : Nat) (userID : UUID)
    (req : CreateLinkRequest) (w : Store)
    (hurl : ValidateURL env.parseRequestURI req.OriginalURL = none)
    (he : req.CustomAlias = "") :
    CreateLink env fuel userID req w =
      match generateLoop env fuel 0 w with
      | .panicked => .panicked
      | .outOfFuel => .outOfFuel
      | .done (.error err, w1) => .done (.error err, w1)
      | .done (.ok shortCode, w1) =>
        .done (createWith env userID req (SanitizeURL req.OriginalURL) shortCode w1) := by
  unfold CreateLink
  rw [hurl]
  simp only [he, ne_eq, not_true_eq_false, if_false]

/-- `CreateLink` never panics. -/
theorem CreateLink_ne_panicked (env : Env) (fuel : Nat) (userID : UUID)
    (req : CreateLinkRequest) (w : Store) :
    CreateLink env fuel userID req w ≠ .panicked := by
  cases hurl : ValidateURL env.parseRequestURI req.OriginalURL with
  | some err => unfold CreateLink; rw [hurl]; simp
  | none =>
    by_cases he : req.CustomAlias = ""
    · rw [CreateLink_generated_eq env fuel userID req w hurl he]
      have hp := generateLoop_ne_panicked env fuel 0 w
      rcases hg : generateLoop env fuel 0 w with ⟨⟨res, w1⟩⟩ | _ | _
      · cases res <;> simp
      · exact absurd hg hp
      · simp
    · rw [CreateLink_alias_eq env fuel userID req w hurl he]
      cases ValidateShortCode req.CustomAlias with
      | some err => simp
      | none =>
        rcases LinkRepository.ShortCodeExists env req.CustomAlias w with ⟨res, w1⟩
        cases res with
        | error e => simp
        | ok found => cases found <;> simp

/-- What a completed `CreateLink` has done to the table: nothing, with an error returned; or
one row added, whose short code was the short code of no row before, and is the validated
alias of the request, or, without an alias, a generated code of 8 URL-safe characters. -/
theorem CreateLink_done (env : Env) (fuel : Nat) (userID : UUID) (req : CreateLinkRequest)
    (w : Store) (out : Except String LinkResponse) (w' : Store)
    (h : CreateLink env fuel userID req w = .done (out, w')) :
    (w'.rows = w.rows ∧ ∃ err, out = .error err) ∨
    (∃ code, w'.rows = w.rows ++ [newRow env userID req (SanitizeURL req.OriginalURL) code] ∧
      out = .ok (toLinkResponse env (newRow env userID req (SanitizeURL req.OriginalURL) code)) ∧
      (∀ l ∈ w.rows, l.ShortCode ≠ code) ∧ (∀ l ∈ w.rows, l.ID ≠ env.newUUID) ∧
      ((req.CustomAlias ≠ "" ∧ code = req.CustomAlias ∧ ValidateShortCode code = none) ∨
       (req.CustomAlias = "" ∧ code.length = 8 ∧
          ∀ c ∈ code.data, isURLSafeChar c = true ∧ c ≠ '='))) := by
  have key : ∀ (code : String) (w1 : Store), w1.rows = w.rows →
      (∀ l ∈ w.rows, l.ShortCode ≠ code) →
      ((req.CustomAlias ≠ "" ∧ code = req.CustomAlias ∧ ValidateShortCode code = none) ∨
       (req.CustomAlias = "" ∧ code.length = 8 ∧
          ∀ c ∈ code.data, isURLSafeChar c = true ∧ c ≠ '=')) →
      createWith env userID req (SanitizeURL req.OriginalURL) code w1 = (out, w') →
      (w'.rows = w.rows ∧ ∃ err, out = .error err) ∨
      (∃ code, w'.rows = w.rows ++ [newRow env userID req (SanitizeURL req.OriginalURL) code] ∧
        out = .ok (toLinkResponse env
          (newRow env userID req (SanitizeURL req.OriginalURL) code)) ∧
        (∀ l ∈ w.rows, l.ShortCode ≠ code) ∧ (∀ l ∈ w.rows, l.ID ≠ env.newUUID) ∧
        ((req.CustomAlias ≠ "" ∧ code = req.CustomAlias ∧ ValidateShortCode code = none) ∨
         (req.CustomAlias = "" ∧ code.length = 8 ∧
            ∀ c ∈ code.data, isURLSafeChar c = true ∧ c ≠ '='))) := by
    intro code w1 hrows hfree hcode hc
    rcases createWith_cases env userID req (SanitizeURL req.OriginalURL) code w1 with
      ⟨⟨err, h1⟩, h2⟩ | ⟨h1, h2, _, h4⟩
    · rw [hc] at h1 h2
      simp only at h1 h2
      left
      exact ⟨by rw [h2]; exact hrows, err, h1⟩
    · rw [hc] at h1 h2
      simp only at h1 h2
      right
      refine ⟨code, by rw [h2, hrows], h1, hfree, ?_, hcode⟩
      rw [hrows] at h4
      exact h4
  cases hurl : ValidateURL env.parseRequestURI req.OriginalURL with
  | some err =>
    unfold CreateLink at h
    rw [hurl] at h
    simp only [Run.done.injEq, Prod.mk.injEq] at h
    obtain ⟨rfl, rfl⟩ := h
    exact Or.inl ⟨rfl, _, rfl⟩
  | none =>
    by_cases he : req.CustomAlias = ""
    · rw [CreateLink_generated_eq env fuel userID req w hurl he] at h
      rcases hg : generateLoop env fuel 0 w with ⟨⟨res, w1⟩⟩ | _ | _
      · rw [hg] at h
        obtain ⟨hrows, _, hcode⟩ := generateLoop_done env fuel 0 w res w1 hg
        cases res with
        | error e =>
          simp only [Run.done.injEq, Prod.mk.injEq] at h
          obtain ⟨rfl, rfl⟩ := h
          exact Or.inl ⟨hrows, _, rfl⟩
        | ok code =>
          simp only [Run.done.injEq] at h
          obtain ⟨hlen, hsafe, hfree⟩ := hcode code rfl
          exact key code w1 hrows hfree (Or.inr ⟨he, hlen, hsafe⟩) h
      · rw [hg] at h; cases h
      · rw [hg] at h; cases h
    · rw [CreateLink_alias_eq env fuel userID req w hurl he] at h
      cases hv : ValidateShortCode req.CustomAlias with
      | some err =>
        rw [hv] at h
        simp only [Run.done.injEq, Prod.mk.injEq] at h
        obtain ⟨rfl, rfl⟩ := h
        exact Or.inl ⟨rfl, _, rfl⟩
      | none =>
        rw [hv] at h
        simp only at h
        have hs := ShortCodeExists_store env req.CustomAlias w
        have hr := ShortCodeExists_result env req.CustomAlias w
        rcases hq : LinkRepository.ShortCodeExists env req.CustomAlias w with ⟨res, w1⟩
        rw [hq] at h hs hr
        simp only at hs hr
        subst hs
        cases res with
        | error e =>
          simp only [Run.done.injEq, Prod.mk.injEq] at h
          obtain ⟨rfl, rfl⟩ := h
          exact Or.inl ⟨rfl, _, rfl⟩
        | ok found =>
          cases found with
          | true =>
            simp only [if_true, Run.done.injEq, Prod.mk.injEq] at h
            obtain ⟨rfl, rfl⟩ := h
            exact Or.inl ⟨rfl, _, rfl⟩
          | false =>
            simp only [Bool.false_eq_true, if_false, Run.done.injEq] at h
            have hfree : ∀ l ∈ w.rows, l.ShortCode ≠ req.CustomAlias := by
              cases hf : env.fault w.calls.length with
              | some e => rw [hf] at hr; cases hr
              | none =>
                rw [hf] at hr
                simp only [Except.ok.injEq] at hr
                exact (any_shortCode_eq_false_iff _ _).mp hr.symm
            exact key req.CustomAlias (w.record (.shortCodeExists req.CustomAlias)) rfl hfree
              (Or.inl ⟨he, rfl, hv⟩) h

/-- C4: for every length `n ≥ 0` and whatever bytes the random source delivers,
`GenerateShortCode n` does not panic (no index or slice bound is out of range) and returns a
string of exactly `n` characters, each of the URL-safe base64 alphabet (an ASCII letter, an
ASCII digit, `-` or `_`) and none the padding character `=`; `CreateLink` never panics, and
the short code of a link it creates for a request without alias has exactly 8 characters,
all of that alphabet. -/
theorem GenerateShortCode_spec (n : Nat) (random : List Nat) :
    (∃ code : String, GenerateShortCode (n : Int) (.ok random) = some (.ok code) ∧
      code.length = n ∧ ∀ c ∈ code.data, isURLSafeChar c = true ∧ c ≠ '=') ∧
    (∀ (env : Env) (fuel : Nat) (userID : UUID) (req : CreateLinkRequest) (w : Store),
      CreateLink env fuel userID req w ≠ .panicked) ∧
    (∀ (env : Env) (fuel : Nat) (userID : UUID) (req : CreateLinkRequest) (w : Store)
      (r : LinkResponse) (w' : Store), req.CustomAlias = "" →
      CreateLink env fuel userID req w = .done (.ok r, w') →
      r.ShortCode.length = 8 ∧ ∀ c ∈ r.ShortCode.data, isURLSafeChar c = true ∧ c ≠ '=') := by
  refine ⟨GenerateShortCode_ok n random, CreateLink_ne_panicked, ?_⟩
  intro env fuel userID req w r w' he h
  rcases CreateLink_done env fuel userID req w _ w' h with ⟨_, err, herr⟩ | ⟨code, _, hout, _, _, hc⟩
  · cases herr
  · simp only [Except.ok.injEq] at hout
    subst hout
    rcases hc with ⟨hne, _⟩ | ⟨_, hlen, hsafe⟩
    · exact absurd he hne
    · exact ⟨hlen, hsafe⟩

/-- Eight bytes `1..8` give a code of eight characters; the sample surroundings give the
code `________`. -/
theorem GenerateShortCode_spec_witness :
    (∃ code : String, GenerateShortCode 8 (.ok [1, 2, 3, 4, 5, 6, 7, 8]) = some (.ok code) ∧
      code.length = 8 ∧ ∀ c ∈ code.data, isURLSafeChar c = true ∧ c ≠ '=') ∧
    (∃ r w', CreateLink sampleEnv 1 7 { sampleRequest with CustomAlias := "" } emptyStore =
        .done (.ok r, w') ∧ r.ShortCode = "________" ∧ r.ShortCode.length = 8 ∧
        ∀ c ∈ r.ShortCode.data, isURLSafeChar c = true ∧ c ≠ '=') :=
  ⟨(GenerateShortCode_spec 8 [1, 2, 3, 4, 5, 6, 7, 8]).1,
    _, _, rfl, rfl,
    (GenerateShortCode_spec 8 []).2.2 sampleEnv 1 7 { sampleRequest with CustomAlias := "" }
      emptyStore _ _ rfl rfl⟩

/-! ### `UpdateLink` -/

theorem GetByID_store (env : Env) (id : UUID) (w : Store) :
    (LinkRepository.GetByID env id w).2 = w.record (.getByID id) := by
  unfold LinkRepository.GetByID
  cases env.fault w.calls.length with
  | some e => rfl
  | none => cases w.rows.find? (fun l => l.ID == id) <;> rfl

theorem GetByID_ok (env : Env) (id : UUID) (w : Store) (link : Link)
    (h : (LinkRepository.GetByID env id w).1 = .ok link) :
    w.rows.find? (fun l => l.ID == id) = some link := by
  unfold LinkRepository.GetByID at h
  cases hf : env.fault w.calls.length with
  | some e => rw [hf] at h; cases h
  | none =>
    rw [hf] at h
    cases hfind : w.rows.find? (fun l => l.ID == id) with
    | none => rw [hfind] at h; cases h
    | some l => rw [hfind] at h; simp only [Except.ok.injEq] at h; rw [h]

theorem Update_cases (env : Env) (link : Link) (w : Store) :
    ((∃ err, (LinkRepository.Update env link w).1 = .error err) ∧
      (LinkRepository.Update env link w).2 = w.record (.update link)) ∨
    ((LinkRepository.Update env link w).1 = .ok { link with UpdatedAt := env.dbNow } ∧
      (LinkRepository.Update env link w).2 =
        { rows := w.rows.map (fun l =>
            if l.ID == link.ID && l.UserID == link.UserID then updatedRow env link l else l),
          calls := w.calls ++ [.update link] }) := by
  unfold LinkRepository.Update
  cases env.fault w.calls.length with
  | some e => exact Or.inl ⟨⟨e, rfl⟩, rfl⟩
  | none =>
    by_cases h : w.rows.any (fun l => l.ID == link.ID && l.UserID == link.UserID) = true
    · rw [if_pos h]; exact Or.inr ⟨rfl, rfl⟩
    · rw [if_neg h]; exact Or.inl ⟨⟨_, rfl⟩, rfl⟩

theorem updateOriginalURL_ok (env : Env) (req : UpdateLinkRequest) (link link' : Link)
    (h : updateOriginalURL env req link = .ok link') :
    link'.ID = link.ID ∧ link'.UserID = link.UserID ∧ link'.ShortCode = link.ShortCode := by
  unfold updateOriginalURL at h
  by_cases hne : req.OriginalURL = ""
  · simp only [hne, ne_eq, not_true_eq_false, if_false, Except.ok.injEq] at h
    subst h; exact ⟨rfl, rfl, rfl⟩
  · simp only [hne, ne_eq, not_false_eq_true, if_true] at h
    cases hv : ValidateURL env.parseRequestURI req.OriginalURL with
    | some e => rw [hv] at h; cases h
    | none =>
      rw [hv] at h
      simp only [Except.ok.injEq] at h
      subst h; exact ⟨rfl, rfl, rfl⟩

theorem updateOptionalFields_keeps (req : UpdateLinkRequest) (link : Link) :
    (updateOptionalFields req link).ID = link.ID ∧
    (updateOptionalFields req link).UserID = link.UserID ∧
    (updateOptionalFields req link).ShortCode = link.ShortCode := by
  unfold updateOptionalFields
  cases req.IsActive <;> cases req.ExpiresAt <;> by_cases ht : req.Title = "" <;>
    simp [ht]

/-- The alias block only queries the store; the code it leaves in the link is the one the
link had when the request has no alias, and otherwise the validated alias, which is that
code or the short code of no row. -/
theorem updateCustomAlias_cases (env : Env) (req : UpdateLinkRequest) (link : Link)
    (w : Store) (out : Except String Link) (w' : Store)
    (h : updateCustomAlias env req link w = (out, w')) :
    w'.rows = w.rows ∧
    ∀ link', out = .ok link' →
      link'.ID = link.ID ∧ link'.UserID = link.UserID ∧
      (req.CustomAlias = "" → link'.ShortCode = link.ShortCode) ∧
      (req.CustomAlias ≠ "" → link'.ShortCode = req.CustomAlias ∧
        ValidateShortCode req.CustomAlias = none ∧
        (req.CustomAlias = link.ShortCode ∨ ∀ l ∈ w.rows, l.ShortCode ≠ req.CustomAlias)) := by
  unfold updateCustomAlias at h
  by_cases hne : req.CustomAlias = ""
  · simp only [hne, ne_eq, not_true_eq_false, if_false, Prod.mk.injEq] at h
    obtain ⟨rfl, rfl⟩ := h
    refine ⟨rfl, ?_⟩
    intro link' hl
    simp only [Except.ok.injEq] at hl
    subst hl
    exact ⟨rfl, rfl, fun _ => rfl, fun hc => absurd hne hc⟩
  · simp only [hne, ne_eq, not_false_eq_true, if_true] at h
    cases hv : ValidateShortCode req.CustomAlias with
    | some e =>
      rw [hv] at h
      simp only [Prod.mk.injEq] at h
      obtain ⟨rfl, rfl⟩ := h
      exact ⟨rfl, by intro l hl; cases hl⟩
    | none =>
      rw [hv] at h
      simp only at h
      have hs := ShortCodeExists_store env req.CustomAlias w
      have hr := ShortCodeExists_result env req.CustomAlias w
      rcases hq : LinkRepository.ShortCodeExists env req.CustomAlias w with ⟨res, w1⟩
      rw [hq] at h hs hr
      simp only at hs hr
      subst hs
      cases res with
      | error e =>
        simp only [Prod.mk.injEq] at h
        obtain ⟨rfl, rfl⟩ := h
        exact ⟨rfl, by intro l hl; cases hl⟩
      | ok found =>
        simp only at h
        by_cases hc : (found && req.CustomAlias != link.ShortCode) = true
        · rw [if_pos hc] at h
          simp only [Prod.mk.injEq] at h
          obtain ⟨rfl, rfl⟩ := h
          exact ⟨rfl, by intro l hl; cases hl⟩
        · rw [if_neg hc] at h
          simp only [Prod.mk.injEq] at h
          obtain ⟨rfl, rfl⟩ := h
          refine ⟨rfl, ?_⟩
          intro link' hl
          simp only [Except.ok.injEq] at hl
          subst hl
          refine ⟨rfl, rfl, fun he => absurd he hne, fun _ => ⟨rfl, rfl, ?_⟩⟩
          cases hf : env.fault w.calls.length with
          | some e => rw [hf] at hr; cases hr
          | none =>
            rw [hf] at hr
            simp only [Except.ok.injEq] at hr
            cases found with
            | false => exact Or.inr ((any_shortCode_eq_false_iff _ _).mp hr.symm)
            | true =>
              left
              simpa using hc

/-- What a completed `UpdateLink` has done to the table: nothing, with an error returned; or
it has rewritten the rows with the id and owner of the link it read, and the short code it
wrote is the stored one when the request has no alias, and otherwise the validated alias,
which is the stored code or the short code of no row. -/
theorem UpdateLink_done (env : Env) (userID linkID : UUID) (req : UpdateLinkRequest)
    (w : Store) (out : Except String LinkResponse) (w' : Store)
    (h : UpdateLink env userID linkID req w = (out, w')) :
    (w'.rows = w.rows ∧ ∃ err, out = .error err) ∨
    (∃ old link, w.rows.find? (fun l => l.ID == linkID) = some old ∧ old.UserID = userID ∧
      link.ID = old.ID ∧ link.UserID = old.UserID ∧
      (req.CustomAlias = "" → link.ShortCode = old.ShortCode) ∧
      (req.CustomAlias ≠ "" → link.ShortCode = req.CustomAlias ∧
        ValidateShortCode req.CustomAlias = none ∧
        (req.CustomAlias = old.ShortCode ∨ ∀ l ∈ w.rows, l.ShortCode ≠ req.CustomAlias)) ∧
      w'.rows = w.rows.map (fun l =>
        if l.ID == link.ID && l.UserID == link.UserID then updatedRow env link l else l) ∧
      out = .ok (toLinkResponse env { link with UpdatedAt := env.dbNow })) := by
  unfold UpdateLink at h
  have hs := GetByID_store env linkID w
  have hg := GetByID_ok env linkID w
  rcases hq : LinkRepository.GetByID env linkID w with ⟨res, w1⟩
  rw [hq] at h hs hg
  simp only at hs hg
  subst hs
  cases res with
  | error e =>
    simp only [Prod.mk.injEq] at h
    obtain ⟨rfl, rfl⟩ := h
    exact Or.inl ⟨rfl, _, rfl⟩
  | ok old =>
    have hfind := hg old rfl
    simp only at h
    by_cases hown : old.UserID = userID
    · simp only [hown, ne_eq, not_true_eq_false, if_false] at h
      cases hu : updateOriginalURL env req old with
      | error e =>
        rw [hu] at h
        simp only [Prod.mk.injEq] at h
        obtain ⟨rfl, rfl⟩ := h
        exact Or.inl ⟨rfl, _, rfl⟩
      | ok link1 =>
        rw [hu] at h
        simp only at h
        obtain ⟨hid1, huser1, hcode1⟩ := updateOriginalURL_ok env req old link1 hu
        rcases ha : updateCustomAlias env req link1 (w.record (.getByID linkID)) with ⟨res2, w2⟩
        rw [ha] at h
        obtain ⟨hrows2, hlink2⟩ := updateCustomAlias_cases env req link1 _ res2 w2 ha
        cases res2 with
        | error e =>
          simp only [Prod.mk.injEq] at h
          obtain ⟨rfl, rfl⟩ := h
          exact Or.inl ⟨hrows2, _, rfl⟩
        | ok link2 =>
          simp only at h
          obtain ⟨hid2, huser2, hno, hyes⟩ := hlink2 link2 rfl
          obtain ⟨hid3, huser3, hcode3⟩ := updateOptionalFields_keeps req link2
          rcases Update_cases env (updateOptionalFields req link2) w2 with
            ⟨⟨err, h1⟩, h2⟩ | ⟨h1, h2⟩
          · rcases hU : LinkRepository.Update env (updateOptionalFields req link2) w2 with
              ⟨res3, w3⟩
            rw [hU] at h h1 h2
            simp only at h1 h2
            subst h1
            simp only [Prod.mk.injEq] at h
            obtain ⟨rfl, rfl⟩ := h
            exact Or.inl ⟨by rw [h2]; exact hrows2, _, rfl⟩
          · rcases hU : LinkRepository.Update env (updateOptionalFields req link2) w2 with
              ⟨res3, w3⟩
            rw [hU] at h h1 h2
            simp only at h1 h2
            subst h1
            simp only [Prod.mk.injEq] at h
            obtain ⟨rfl, rfl⟩ := h
            right
            refine ⟨old, updateOptionalFields req link2, hfind, hown, ?_, ?_, ?_, ?_, ?_, rfl⟩
            · rw [hid3, hid2, hid1]
            · rw [huser3, huser2, huser1]
            · intro he; rw [hcode3, hno he, hcode1]
            · intro hne
              obtain ⟨ha1, ha2, ha3⟩ := hyes hne
              refine ⟨by rw [hcode3, ha1], ha2, ?_⟩
              rw [hcode1] at ha3
              exact ha3
            · rw [h2, hrows2]; rfl
    · simp only [hown, ne_eq, not_false_eq_true, if_true, Prod.mk.injEq] at h
      obtain ⟨rfl, rfl⟩ := h
      exact Or.inl ⟨rfl, _, rfl⟩

/-! ### The short codes written to the store -/

/-- C5, counterexample: with a random source that delivers eight bytes `0xFF`, `CreateLink`
for a request without alias stores a link with the short code `________`, which
`ValidateShortCode` rejects. -/
theorem CreateLink_generated_code_invalid :
    ∃ r w', CreateLink sampleEnv 1 7 sampleRequestNoAlias emptyStore = .done (.ok r, w') ∧
      r.ShortCode = "________" ∧ (w'.rows.map Link.ShortCode) = ["________"] ∧
      ValidateShortCode "________" =
        some "short code can only contain letters, numbers, and hyphens" :=
  ⟨_, _, rfl, rfl, rfl, by decide⟩

/-- C5, amended: every row in the table after `CreateLink` was there before, or carries the
custom alias of the request, which then satisfies `ValidateShortCode` (3 to 20 characters of
`[A-Za-z0-9-]`), or, for a request without alias, a generated code of exactly 8 characters
of the URL-safe alphabet `[A-Za-z0-9_-]`; every row in the table after `UpdateLink` carries
the short code that the row with its id had before, or the custom alias of the request,
which then satisfies `ValidateShortCode`. -/
theorem written_short_codes (env : Env) :
    (∀ (fuel : Nat) (userID : UUID) (req : CreateLinkRequest) (w : Store)
        (out : Except String LinkResponse) (w' : Store),
      CreateLink env fuel userID req w = .done (out, w') →
      ∀ l ∈ w'.rows, l ∈ w.rows ∨
        (req.CustomAlias ≠ "" ∧ l.ShortCode = req.CustomAlias ∧
          ValidateShortCode l.ShortCode = none) ∨
        (req.CustomAlias = "" ∧ l.ShortCode.length = 8 ∧
          ∀ c ∈ l.ShortCode.data, isURLSafeChar c = true)) ∧
    (∀ (userID linkID : UUID) (req : UpdateLinkRequest) (w : Store)
        (out : Except String LinkResponse) (w' : Store),
      UpdateLink env userID linkID req w = (out, w') →
      ∀ l ∈ w'.rows, (∃ old ∈ w.rows, old.ID = l.ID ∧ old.ShortCode = l.ShortCode) ∨
        (req.CustomAlias ≠ "" ∧ l.ShortCode = req.CustomAlias ∧
          ValidateShortCode l.ShortCode = none)) := by
  constructor
  · intro fuel userID req w out w' h l hl
    rcases CreateLink_done env fuel userID req w out w' h with
      ⟨hrows, _⟩ | ⟨code, hrows, _, _, _, hc⟩
    · left; rw [← hrows]; exact hl
    · rw [hrows] at hl
      rcases List.mem_append.mp hl with hl | hl
      · exact Or.inl hl
      · right
        rw [List.mem_singleton] at hl
        subst hl
        rcases hc with ⟨h1, h2, h3⟩ | ⟨h1, h2, h3⟩
        · exact Or.inl ⟨h1, h2, h3⟩
        · exact Or.inr ⟨h1, h2, fun c hc => (h3 c hc).1⟩
  · intro userID linkID req w out w' h l hl
    rcases UpdateLink_done env userID linkID req w out w' h with
      ⟨hrows, _⟩ | ⟨old, link, hfind, _, hid, _, hno, hyes, hrows, _⟩
    · left; rw [hrows] at hl; exact ⟨l, hl, rfl, rfl⟩
    · rw [hrows] at hl
      obtain ⟨l0, hl0, rfl⟩ := List.mem_map.mp hl
      by_cases hm : (l0.ID == link.ID && l0.UserID == link.UserID) = true
      · rw [if_pos hm]
        by_cases he : req.CustomAlias = ""
        · left
          refine ⟨old, List.mem_of_find?_eq_some hfind, ?_, ?_⟩
          · simp only [Bool.and_eq_true, beq_iff_eq] at hm
            show old.ID = l0.ID
            rw [hm.1, hid]
          · show old.ShortCode = link.ShortCode
            exact (hno he).symm
        · right
          obtain ⟨h1, h2, _⟩ := hyes he
          refine ⟨he, h1, ?_⟩
          show ValidateShortCode link.ShortCode = none
          rw [h1]; exact h2
      · rw [if_neg hm]
        exact Or.inl ⟨l0, hl0, rfl, rfl⟩

/-- A generated code next to a stored one, and a rename of the stored one. -/
theorem written_short_codes_witness :
    (∃ out w', CreateLink sampleEnv 1 7 sampleRequestNoAlias sampleStore = .done (out, w') ∧
      w'.rows.map Link.ShortCode = ["test-link", "________"] ∧
      ∀ l ∈ w'.rows, l ∈ sampleStore.rows ∨
        (sampleRequestNoAlias.CustomAlias ≠ "" ∧
          l.ShortCode = sampleRequestNoAlias.CustomAlias ∧
          ValidateShortCode l.ShortCode = none) ∨
        (sampleRequestNoAlias.CustomAlias = "" ∧ l.ShortCode.length = 8 ∧
          ∀ c ∈ l.ShortCode.data, isURLSafeChar c = true)) ∧
    (∃ out w', UpdateLink sampleEnv 7 5 sampleRename sampleStore = (out, w') ∧
      w'.rows.map Link.ShortCode = ["new-code"] ∧
      ∀ l ∈ w'.rows, (∃ old ∈ sampleStore.rows, old.ID = l.ID ∧ old.ShortCode = l.ShortCode) ∨
        (sampleRename.CustomAlias ≠ "" ∧ l.ShortCode = sampleRename.CustomAlias ∧
          ValidateShortCode l.ShortCode = none)) :=
  ⟨⟨_, _, rfl, rfl,
      (written_short_codes sampleEnv).1 1 7 sampleRequestNoAlias sampleStore _ _ rfl⟩,
    ⟨_, _, rfl, rfl,
      (written_short_codes sampleEnv).2 7 5 sampleRename sampleStore _ _ rfl⟩⟩

/-! ### Uniqueness of short codes -/

/-- In a list without two entries of the same key, entries with the same key are equal. -/
theorem eq_of_pairwise_ne {α β : Type} (f : α → β) (l : List α)
    (h : l.Pairwise (fun a b => f a ≠ f b)) :
    ∀ a ∈ l, ∀ b ∈ l, f a = f b → a = b := by
  induction l with
  | nil => intro a ha; cases ha
  | cons x xs ih =>
    rw [List.pairwise_cons] at h
    intro a ha b hb hab
    rcases List.mem_cons.mp ha with ha' | ha' <;> rcases List.mem_cons.mp hb with hb' | hb'
    · rw [ha', hb']
    · rw [ha'] at hab; exact absurd hab (h.1 b hb')
    · rw [hb'] at hab; exact absurd hab.symm (h.1 a ha')
    · exact ih h.2 a ha' b hb' hab

theorem pairwise_append_singleton {α : Type} (R : α → α → Prop) (l : List α) (x : α)
    (h : l.Pairwise R) (hx : ∀ a ∈ l, R a x) : (l ++ [x]).Pairwise R := by
  rw [List.pairwise_append]
  refine ⟨h, List.pairwise_singleton R x, ?_⟩
  intro a ha b hb
  rw [List.mem_singleton] at hb
  subst hb
  exact hx a ha

/-- C6: on a store that enforces no uniqueness of short codes, and executed without
interleaving: if no two rows share a short code, then after a completed `CreateLink` still
no two rows share a short code; and if moreover no two rows share an id (the primary key of
the table), then after a completed `UpdateLink` still no two rows share a short code.  Both
operations also keep the ids distinct, so the two properties together are an invariant of
the store. -/
theorem short_code_uniqueness_preserved (env : Env) :
    (∀ (fuel : Nat) (userID : UUID) (req : CreateLinkRequest) (w : Store)
        (out : Except String LinkResponse) (w' : Store),
      UniqueShortCodes w → CreateLink env fuel userID req w = .done (out, w') →
      UniqueShortCodes w') ∧
    (∀ (userID linkID : UUID) (req : UpdateLinkRequest) (w : Store)
        (out : Except String LinkResponse) (w' : Store),
      UniqueIDs w → UniqueShortCodes w → UpdateLink env userID linkID req w = (out, w') →
      UniqueShortCodes w') ∧
    (∀ (fuel : Nat) (userID : UUID) (req : CreateLinkRequest) (w : Store)
        (out : Except String LinkResponse) (w' : Store),
      UniqueIDs w → CreateLink env fuel userID req w = .done (out, w') → UniqueIDs w') ∧
    (∀ (userID linkID : UUID) (req : UpdateLinkRequest) (w : Store)
        (out : Except String LinkResponse) (w' : Store),
      UniqueIDs w → UpdateLink env userID linkID req w = (out, w') → UniqueIDs w') := by
  refine ⟨?_, ?_, ?_, ?_⟩
  · intro fuel userID req w out w' hu h
    rcases CreateLink_done env fuel userID req w out w' h with
      ⟨hrows, _⟩ | ⟨code, hrows, _, hfree, _, _⟩
    · unfold UniqueShortCodes; rw [hrows]; exact hu
    · unfold UniqueShortCodes; rw [hrows]
      exact pairwise_append_singleton _ _ _ hu (fun a ha => hfree a ha)
  · intro userID linkID req w out w' hids hu h
    rcases UpdateLink_done env userID linkID req w out w' h with
      ⟨hrows, _⟩ | ⟨old, link, hfind, _, hid, _, hno, hyes, hrows, _⟩
    · unfold UniqueShortCodes; rw [hrows]; exact hu
    · unfold UniqueShortCodes; rw [hrows, List.pairwise_map]
      have hold : old ∈ w.rows := List.mem_of_find?_eq_some hfind
      have hinj := eq_of_pairwise_ne Link.ID w.rows hids
      -- a matched row is the row that was read, and gets a code no other row has
      have hkey : ∀ a ∈ w.rows, ∀ b ∈ w.rows, a.ID ≠ b.ID → a.ShortCode ≠ b.ShortCode →
          (a.ID == link.ID && a.UserID == link.UserID) = true →
          link.ShortCode ≠ b.ShortCode := by
        intro a ha b hb _ hcode hm
        simp only [Bool.and_eq_true, beq_iff_eq] at hm
        have haold : a = old := hinj a ha old hold (by rw [hm.1, hid])
        by_cases he : req.CustomAlias = ""
        · rw [hno he, ← haold]; exact hcode
        · obtain ⟨h1, _, h3⟩ := hyes he
          rcases h3 with h3 | h3
          · rw [h1, h3, ← haold]; exact hcode
          · rw [h1]; exact fun hc => h3 b hb hc.symm
      refine List.Pairwise.imp_of_mem ?_ (hids.and hu)
      intro a b ha hb hab
      obtain ⟨hid_ne, hcode_ne⟩ := hab
      by_cases hma : (a.ID == link.ID && a.UserID == link.UserID) = true <;>
        by_cases hmb : (b.ID == link.ID && b.UserID == link.UserID) = true
      · exfalso
        simp only [Bool.and_eq_true, beq_iff_eq] at hma hmb
        exact hid_ne (by rw [hma.1, hmb.1])
      · rw [if_pos hma, if_neg hmb]
        exact hkey a ha b hb hid_ne hcode_ne hma
      · rw [if_neg hma, if_pos hmb]
        exact fun hc => hkey b hb a ha (Ne.symm hid_ne) (Ne.symm hcode_ne) hmb hc.symm
      · rw [if_neg hma, if_neg hmb]
        exact hcode_ne
  · intro fuel userID req w out w' hu h
    rcases CreateLink_done env fuel userID req w out w' h with
      ⟨hrows, _⟩ | ⟨code, hrows, _, _, hfresh, _⟩
    · unfold UniqueIDs; rw [hrows]; exact hu
    · unfold UniqueIDs; rw [hrows]
      exact pairwise_append_singleton _ _ _ hu (fun a ha => hfresh a ha)
  · intro userID linkID req w out w' hu h
    rcases UpdateLink_done env userID linkID req w out w' h with
      ⟨hrows, _⟩ | ⟨old, link, _, _, _, _, _, _, hrows, _⟩
    · unfold UniqueIDs; rw [hrows]; exact hu
    · unfold UniqueIDs; rw [hrows, List.pairwise_map]
      refine List.Pairwise.imp ?_ hu
      intro a b hab
      by_cases hma : (a.ID == link.ID && a.UserID == link.UserID) = true <;>
        by_cases hmb : (b.ID == link.ID && b.UserID == link.UserID) = true <;>
        simp only [hma, hmb, if_true, if_false] <;> exact hab

/-- A create and a rename on the sample table keep the short codes distinct. -/
theorem short_code_uniqueness_preserved_witness :
    UniqueIDs sampleStore ∧ UniqueShortCodes sampleStore ∧
    (∃ r w', CreateLink sampleEnv 1 7 sampleRequestNoAlias sampleStore = .done (.ok r, w') ∧
      w'.rows.map Link.ShortCode = ["test-link", "________"] ∧ UniqueShortCodes w') ∧
    (∃ r w', UpdateLink sampleEnv 7 5 sampleRename sampleStore = (.ok r, w') ∧
      w'.rows.map Link.ShortCode = ["new-code"] ∧ UniqueShortCodes w') :=
  ⟨List.pairwise_singleton _ _, List.pairwise_singleton _ _,
    ⟨_, _, rfl, rfl,
      (short_code_uniqueness_preserved sampleEnv).1 1 7 sampleRequestNoAlias sampleStore _ _
        (List.pairwise_singleton _ _) rfl⟩,
    ⟨_, _, rfl, rfl,
      (short_code_uniqueness_preserved sampleEnv).2.1 7 5 sampleRename sampleStore _ _
        (List.pairwise_singleton _ _) (List.pairwise_singleton _ _) rfl⟩⟩

/-! ### The rate limiter -/

theorem foldl_validTimes (windowStart : Time) (times acc : List Time) :
    times.foldl (fun valid t => if t > windowStart then valid ++ [t] else valid) acc =
      acc ++ times.filter (fun t => decide (windowStart < t)) := by
  induction times generalizing acc with
  | nil => simp
  | cons t ts ih =>
    simp only [List.foldl_cons, ih]
    by_cases h : t > windowStart
    · have h' : windowStart < t := h
      simp [h, h', List.filter_cons]
    · have h' : ¬ windowStart < t := h
      simp [h, h', List.filter_cons]

/-- The pruning loop keeps, in their order, the timestamps strictly later than
`windowStart`. -/
theorem validTimes_eq_filter (windowStart : Time) (times : List Time) :
    validTimes windowStart times = times.filter (fun t => decide (windowStart < t)) := by
  unfold validTimes
  rw [foldl_validTimes]
  rfl

theorem lookup_store (rl : RateLimiter) (k : String) (times : List Time) (k' : String) :
    (rl.store k times).lookup k' = if k' = k then times else rl.lookup k' := by
  unfold RateLimiter.store RateLimiter.lookup
  by_cases h : k' = k <;> simp [h]

theorem validTimes_nil (windowStart : Time) : validTimes windowStart [] = [] := rfl

/-- The limiter after the pruning step of `RateLimit`, seen through `lookup`. -/
theorem lookup_pruned (rl : RateLimiter) (k : String) (ws : Time) (k' : String) :
    (match rl.requests k with
      | some times => rl.store k (validTimes ws times)
      | none => rl).lookup k' =
      if k' = k then validTimes ws (rl.lookup k) else rl.lookup k' := by
  cases h : rl.requests k with
  | none =>
    by_cases hk : k' = k
    · subst hk
      simp [RateLimiter.lookup, h, validTimes_nil]
    · simp [hk]
  | some times =>
    simp only [lookup_store]
    by_cases hk : k' = k
    · simp [hk, RateLimiter.lookup, h]
    · simp [hk]

theorem limit_pruned (rl : RateLimiter) (k : String) (ws : Time) :
    (match rl.requests k with
      | some times => rl.store k (validTimes ws times)
      | none => rl).limit = rl.limit ∧
    (match rl.requests k with
      | some times => rl.store k (validTimes ws times)
      | none => rl).window = rl.window := by
  cases rl.requests k <;> exact ⟨rfl, rfl⟩

/-- Away from `math.MinInt64` the negation of a duration is the negation of the integer. -/
theorem negDuration_of_ne (d : Int) (h : d ≠ minDuration) : negDuration d = -d := by
  unfold negDuration
  rw [if_neg h]

/-- For a window above `math.MinInt64` the pruning threshold `now.Add(-window)` is
`now - window`. -/
theorem windowStart_eq (now : Time) (d : Int) (h : minDuration < d) :
    now + negDuration d = now - d := by
  rw [negDuration_of_ne d (ne_of_gt h)]
  exact (sub_eq_add_neg now d).symm

theorem minDuration_neg : minDuration < 0 := by decide

theorem windowStart_of_pos (now : Time) (d : Int) (h : 0 < d) :
    now + negDuration d = now - d :=
  windowStart_eq now d (lt_trans minDuration_neg h)

/-- On the range of `int64`, `negDuration` is the negation in two's complement. -/
theorem negDuration_eq_wrap (d : Int) (h1 : minDuration ≤ d) (h2 : d < 9223372036854775808) :
    negDuration d =
      (-d + 9223372036854775808) % 18446744073709551616 - 9223372036854775808 := by
  unfold negDuration
  unfold minDuration at *
  by_cases h : d = -9223372036854775808
  · rw [if_pos h, h]
    decide
  · rw [if_neg h]
    have h3 : (-d + 9223372036854775808) % 18446744073709551616 = -d + 9223372036854775808 :=
      Int.emod_eq_of_lt (by omega) (by omega)
    rw [h3]
    omega

/-- The pruning threshold is never later than `now - window`: the wrapped negation of
`math.MinInt64` is negative. -/
theorem windowStart_le (now : Time) (d : Int) : now + negDuration d ≤ now - d := by
  by_cases h : d = minDuration
  · have hn := minDuration_neg
    unfold negDuration
    rw [if_pos h, h]
    linarith
  · rw [negDuration_of_ne d h]
    exact le_of_eq (sub_eq_add_neg now d).symm

/-- At `math.MinInt64` the negation wraps: the threshold lies in the past, below `now`. -/
theorem windowStart_minDuration (now : Time) :
    now + negDuration minDuration = now + minDuration := by
  unfold negDuration
  rw [if_pos rfl]

/-- The decision of `RateLimit`, and the limiter it leaves, in terms of `lookup`. -/
theorem RateLimit_eq (rl : RateLimiter) (clientIP : String) (now : Time) :
    ((RateLimit rl clientIP now).1 =
      if ((validTimes (now + negDuration rl.window) (rl.lookup (identity clientIP))).length
          : Int) ≥ rl.limit
      then .reject else .allow) ∧
    (∀ k, (RateLimit rl clientIP now).2.lookup k =
      if k = identity clientIP then
        (if ((validTimes (now + negDuration rl.window) (rl.lookup (identity clientIP))).length
            : Int) ≥ rl.limit
         then validTimes (now + negDuration rl.window) (rl.lookup (identity clientIP))
         else validTimes (now + negDuration rl.window) (rl.lookup (identity clientIP)) ++ [now])
      else rl.lookup k) ∧
    (RateLimit rl clientIP now).2.limit = rl.limit ∧
    (RateLimit rl clientIP now).2.window = rl.window := by
  unfold RateLimit
  simp only
  have hl := lookup_pruned rl (identity clientIP) (now + negDuration rl.window)
  have hlim := limit_pruned rl (identity clientIP) (now + negDuration rl.window)
  unfold identity at hl hlim ⊢
  generalize (match rl.requests (if clientIP = "" then "unknown" else clientIP) with
      | some times => rl.store (if clientIP = "" then "unknown" else clientIP)
          (validTimes (now + negDuration rl.window) times)
      | none => rl) = rl1 at hl hlim ⊢
  have hself := hl (if clientIP = "" then "unknown" else clientIP)
  simp only [if_true] at hself
  rw [hself, hlim.1]
  by_cases hc : ((validTimes (now + negDuration rl.window)
      (rl.lookup (if clientIP = "" then "unknown" else clientIP))).length : Int) ≥ rl.limit
  · simp only [hc, if_true]
    refine ⟨trivial, ?_, hlim.1, hlim.2⟩
    intro k
    rw [hl k]
  · simp only [hc, if_false]
    refine ⟨trivial, ?_, hlim.1, hlim.2⟩
    intro k
    rw [lookup_store, hl k]
    by_cases hk : k = (if clientIP = "" then "unknown" else clientIP)
    · simp [hk]
    · simp [hk]

/-- C7: for a limiter whose window is a duration above `math.MinInt64` (the one duration
whose negation wraps), with `kept` the stored timestamps of the identity that survive the
pruning loop against `windowStart = now - window`: the check rejects exactly when `kept` has
at least `limit` entries (and admits otherwise); on rejection the sequence of the identity
becomes `kept`, without `now`; on admission it becomes `kept` followed by `now`. -/
theorem RateLimit_spec (rl : RateLimiter) (clientIP : String) (now : Time)
    (hW : minDuration < rl.window) :
    ((RateLimit rl clientIP now).1 = .reject ↔
      ((validTimes (now - rl.window) (rl.lookup (identity clientIP))).length : Int)
        ≥ rl.limit) ∧
    ((RateLimit rl clientIP now).1 = .allow ↔
      ((validTimes (now - rl.window) (rl.lookup (identity clientIP))).length : Int)
        < rl.limit) ∧
    ((RateLimit rl clientIP now).1 = .reject →
      (RateLimit rl clientIP now).2.lookup (identity clientIP) =
        validTimes (now - rl.window) (rl.lookup (identity clientIP))) ∧
    ((RateLimit rl clientIP now).1 = .allow →
      (RateLimit rl clientIP now).2.lookup (identity clientIP) =
        validTimes (now - rl.window) (rl.lookup (identity clientIP)) ++ [now]) := by
  obtain ⟨hd, hl, _, _⟩ := RateLimit_eq rl clientIP now
  have hself := hl (identity clientIP)
  simp only [if_true] at hself
  rw [windowStart_eq now rl.window hW] at hd hself
  by_cases hc : ((validTimes (now - rl.window) (rl.lookup (identity clientIP))).length : Int)
      ≥ rl.limit
  · rw [if_pos hc] at hd hself
    rw [hd, hself]
    refine ⟨by simp [hc], ?_, fun _ => rfl, fun h => by cases h⟩
    constructor
    · intro h; cases h
    · intro h; omega
  · rw [if_neg hc] at hd hself
    rw [hd, hself]
    refine ⟨?_, ?_, fun h => (by cases h), fun _ => rfl⟩
    · constructor
      · intro h; cases h
      · intro h; exact absurd h hc
    · constructor
      · intro _; omega
      · intro _; rfl

/-- With cap 2 and window 60 and the times 0, 10, 50 recorded: a check at 65 keeps 10 and 50
and is rejected, a check at 75 keeps 50 and is admitted. -/
theorem RateLimit_spec_witness :
    minDuration < sampleLimiter.window ∧
    ((RateLimit sampleLimiter "a" 65).1 = .reject ∧
      validTimes (65 - sampleLimiter.window) (sampleLimiter.lookup (identity "a")) = [10, 50] ∧
      (RateLimit sampleLimiter "a" 65).2.lookup (identity "a") =
        validTimes (65 - sampleLimiter.window) (sampleLimiter.lookup (identity "a"))) ∧
    ((RateLimit sampleLimiter "a" 75).1 = .allow ∧
      (RateLimit sampleLimiter "a" 75).2.lookup (identity "a") =
        validTimes (75 - sampleLimiter.window) (sampleLimiter.lookup (identity "a")) ++ [75] ∧
      (RateLimit sampleLimiter "a" 75).2.lookup (identity "a") = [50, 75]) :=
  ⟨by decide,
    ⟨by decide, by decide, (RateLimit_spec sampleLimiter "a" 65 (by decide)).2.2.1 (by decide)⟩,
    ⟨by decide, (RateLimit_spec sampleLimiter "a" 75 (by decide)).2.2.2 (by decide),
      by decide⟩⟩

/-- C8, counterexample: with cap 1 and window 60, a timestamp 0 stored for `a` and a check at
time 60, the stored timestamp is equal to `windowStart = 60 - 60` and is dropped: nothing
is kept, the request is admitted, and the sequence of `a` becomes `[60]`. -/
theorem boundary_timestamp_dropped :
    boundaryLimiter.lookup (identity "a") = [0] ∧
    60 - boundaryLimiter.window = 0 ∧
    validTimes (60 - boundaryLimiter.window) (boundaryLimiter.lookup (identity "a")) = [] ∧
    (RateLimit boundaryLimiter "a" 60).1 = .allow ∧
    (RateLimit boundaryLimiter "a" 60).2.lookup (identity "a") = [60] :=
  ⟨by decide, by decide, by decide, by decide, by decide⟩

/-- C8, amended: when the rate limiter, with a window that is a duration above
`math.MinInt64`, prunes the timestamps of an identity at time `now`, it keeps, in their
order, exactly the timestamps strictly later than `windowStart = now - window` and drops the
others; a stored timestamp equal to `windowStart` is dropped and does not count toward the
cap.  The sequence of the identity after the check is the kept timestamps, followed by `now`
when the request is admitted. -/
theorem pruning_spec (rl : RateLimiter) (clientIP : String) (now : Time)
    (hW : minDuration < rl.window) :
    validTimes (now - rl.window) (rl.lookup (identity clientIP)) =
      (rl.lookup (identity clientIP)).filter (fun t => decide (now - rl.window < t)) ∧
    (∀ t, t ∈ validTimes (now - rl.window) (rl.lookup (identity clientIP)) ↔
      (t ∈ rl.lookup (identity clientIP) ∧ now - rl.window < t)) ∧
    (now - rl.window) ∉ validTimes (now - rl.window) (rl.lookup (identity clientIP)) ∧
    (RateLimit rl clientIP now).2.lookup (identity clientIP) =
      (rl.lookup (identity clientIP)).filter (fun t => decide (now - rl.window < t)) ++
        (if (RateLimit rl clientIP now).1 = .allow then [now] else []) := by
  have hf := validTimes_eq_filter (now - rl.window) (rl.lookup (identity clientIP))
  refine ⟨hf, ?_, ?_, ?_⟩
  · intro t
    rw [hf, List.mem_filter, decide_eq_true_eq]
  · rw [hf, List.mem_filter, decide_eq_true_eq]
    intro h
    exact lt_irrefl _ h.2
  · obtain ⟨hd, hl, _, _⟩ := RateLimit_eq rl clientIP now
    have hself := hl (identity clientIP)
    simp only [if_true] at hself
    rw [windowStart_eq now rl.window hW] at hd hself
    by_cases hc : ((validTimes (now - rl.window) (rl.lookup (identity clientIP))).length : Int)
        ≥ rl.limit
    · rw [if_pos hc] at hd hself
      rw [hself, hd, hf]
      simp
    · rw [if_neg hc] at hd hself
      rw [hself, hd, hf]
      simp

/-- With cap 2 and window 60 and the times 0, 10, 50 recorded for `a`: a check at 65 keeps
the times later than 5, which are 10 and 50, and is rejected; a check at 110 keeps nothing,
the time 50 being the threshold itself, and is admitted. -/
theorem pruning_spec_witness :
    minDuration < sampleLimiter.window ∧
    (sampleLimiter.lookup (identity "a")).filter
      (fun t => decide (65 - sampleLimiter.window < t)) = [10, 50] ∧
    (RateLimit sampleLimiter "a" 65).2.lookup (identity "a") =
      (sampleLimiter.lookup (identity "a")).filter
          (fun t => decide (65 - sampleLimiter.window < t)) ++
        (if (RateLimit sampleLimiter "a" 65).1 = .allow then [65] else []) ∧
    (RateLimit sampleLimiter "a" 65).2.lookup (identity "a") = [10, 50] ∧
    (110 - sampleLimiter.window) ∉
      validTimes (110 - sampleLimiter.window) (sampleLimiter.lookup (identity "a")) ∧
    (RateLimit sampleLimiter "a" 110).2.lookup (identity "a") = [110] :=
  ⟨by decide, by decide, (pruning_spec sampleLimiter "a" 65 (by decide)).2.2.2, by decide,
    (pruning_spec sampleLimiter "a" 110 (by decide)).2.2.1, by decide⟩

/-- The wrap of the negation, seen in a run: with cap 1 and the window `math.MinInt64`, the
threshold `now.Add(-window)` lies far in the past, the first timestamp is kept and the second
check is rejected. -/
theorem RateLimit_minDuration_window :
    (runChecks (NewRateLimiter 1 minDuration) [("a", 0), ("a", 1)]).1 = [.allow, .reject] ∧
    (runChecks (NewRateLimiter 1 minDuration) [("a", 0), ("a", 1)]).2.lookup "a" = [0] := by
  decide

/-! ### The sliding-window bound -/

theorem admitted_cons (rl : RateLimiter) (clientIP : String) (now : Time)
    (rest : List (String × Time)) :
    admitted rl ((clientIP, now) :: rest) =
      if (RateLimit rl clientIP now).1 = .allow then
        (identity clientIP, now) :: admitted (RateLimit rl clientIP now).2 rest
      else admitted (RateLimit rl clientIP now).2 rest := rfl

/-- The admitted requests are the requests whose decision is `allow`. -/
theorem admitted_eq_zip (reqs : List (String × Time)) :
    ∀ rl : RateLimiter, admitted rl reqs =
      ((reqs.zip (runChecks rl reqs).1).filter (fun p => decide (p.2 = .allow))).map
        (fun p => (identity p.1.1, p.1.2)) := by
  induction reqs with
  | nil => intro rl; rfl
  | cons r rest ih =>
    intro rl
    obtain ⟨ip, now⟩ := r
    rw [admitted_cons]
    simp only [runChecks, List.zip_cons_cons, List.filter_cons]
    by_cases h : (RateLimit rl ip now).1 = .allow
    · simp only [h, if_true, decide_True, List.map_cons, ih]
    · simp only [h, if_false, decide_False, ih]
      rfl

/-- Every admitted request is one of the requests served. -/
theorem time_mem_of_mem_admitted (reqs : List (String × Time)) :
    ∀ (rl : RateLimiter) (r : String × Time), r ∈ admitted rl reqs →
      r.2 ∈ reqs.map Prod.snd := by
  induction reqs with
  | nil => intro rl r h; cases h
  | cons q rest ih =>
    intro rl r h
    obtain ⟨ip, now⟩ := q
    rw [admitted_cons] at h
    by_cases hd : (RateLimit rl ip now).1 = .allow
    · rw [if_pos hd] at h
      rcases List.mem_cons.mp h with h | h
      · subst h; simp
      · exact List.mem_cons_of_mem _ (ih _ r h)
    · rw [if_neg hd] at h
      exact List.mem_cons_of_mem _ (ih _ r h)

theorem filter_inWindow_of_pruned (W : Int) (t now : Time) (s : List Time) (h : now ≤ t) :
    (s.filter (fun x => decide (now + negDuration W < x))).filter (inWindow W t) =
      s.filter (inWindow W t) := by
  rw [List.filter_filter]
  apply List.filter_congr
  intro x _
  unfold inWindow
  by_cases h1 : t - W < x
  · by_cases h3 : x ≤ t
    · have h2 : now + negDuration W < x := by
        by_cases hm : W = minDuration
        · -- the window `(t - W, t]` is empty
          exfalso
          rw [hm] at h1
          have := minDuration_neg
          linarith
        · rw [negDuration_of_ne W hm]
          linarith
      simp [h1, h2, h3]
    · simp [h3]
  · simp [h1]

/-- The bound, from any limiter that holds at most `N` timestamps for the identity: the
stored timestamps and the requests admitted from then on, together, have at most `N`
members in any trailing window. -/
theorem window_bound_aux (N W : Int) (id : String) (t : Time) :
    ∀ (reqs : List (String × Time)) (rl : RateLimiter), rl.limit = N → rl.window = W →
      (reqs.map Prod.snd).Pairwise (fun a b => a ≤ b) →
      ((rl.lookup id).length : Int) ≤ N →
      ((((rl.lookup id).filter (inWindow W t)).length +
        ((admitted rl reqs).filter
          (fun r => decide (r.1 = id) && inWindow W t r.2)).length : Nat) : Int) ≤ N := by
  intro reqs
  induction reqs with
  | nil =>
    intro rl _ _ _ hlen
    have := List.length_filter_le (inWindow W t) (rl.lookup id)
    simp only [admitted, List.filter_nil, List.length_nil, Nat.add_zero]
    omega
  | cons q rest ih =>
    intro rl hlim hwin hmono hlen
    obtain ⟨ip, now⟩ := q
    simp only [List.map_cons, List.pairwise_cons] at hmono
    obtain ⟨hnow, hrest⟩ := hmono
    obtain ⟨hd, hl, hlim1, hwin1⟩ := RateLimit_eq rl ip now
    rw [hlim, hwin] at hd hl
    rw [hlim] at hlim1
    rw [hwin] at hwin1
    have hself := hl (identity ip)
    simp only [if_true] at hself
    have hkept := validTimes_eq_filter (now + negDuration W) (rl.lookup (identity ip))
    by_cases hid : id = identity ip
    · subst hid
      by_cases ht : now ≤ t
      · -- pruning against `now + negDuration W` drops nothing that lies in the window at `t`
        have hfw := filter_inWindow_of_pruned W t now (rl.lookup (identity ip)) ht
        have hklen := List.length_filter_le (fun x => decide (now + negDuration W < x))
          (rl.lookup (identity ip))
        by_cases hc : ((validTimes (now + negDuration W) (rl.lookup (identity ip))).length : Int) ≥ N
        · rw [if_pos hc] at hd hself
          have hIH := ih (RateLimit rl ip now).2 hlim1 hwin1 hrest
            (by rw [hself, hkept]; omega)
          rw [hself, hkept, hfw] at hIH
          rw [admitted_cons, hd]
          simpa using hIH
        · rw [if_neg hc] at hd hself
          have hIH := ih (RateLimit rl ip now).2 hlim1 hwin1 hrest
            (by rw [hself, List.length_append, List.length_singleton]; push_cast; omega)
          rw [hself, hkept, List.filter_append, hfw, List.length_append] at hIH
          rw [admitted_cons, hd]
          simp only [if_true, List.filter_cons, decide_True, Bool.true_and]
          by_cases hw : inWindow W t now = true
          · simp only [hw, if_true, List.length_cons]
            simp only [List.filter_cons, hw, if_true, List.filter_nil, List.length_cons,
              List.length_nil] at hIH
            omega
          · simp only [hw]
            simp only [List.filter_cons, hw, List.filter_nil,
              List.length_nil] at hIH
            simpa using hIH
      · -- nothing admitted from now on lies in the window at `t`
        have hnone : (admitted rl ((ip, now) :: rest)).filter
            (fun r => decide (r.1 = identity ip) && inWindow W t r.2) = [] := by
          rw [List.filter_eq_nil_iff]
          intro r hr
          have hmem := time_mem_of_mem_admitted _ rl r hr
          have hge : now ≤ r.2 := by
            rcases List.mem_cons.mp hmem with h | h
            · rw [h]
            · exact hnow _ h
          have : ¬ (r.2 ≤ t) := by
            intro hle
            exact ht (le_trans hge hle)
          simp [inWindow, this]
        have := List.length_filter_le (inWindow W t) (rl.lookup (identity ip))
        rw [hnone, List.length_nil, Nat.add_zero]
        omega
    · have hother := hl id
      rw [if_neg hid] at hother
      have hIH := ih (RateLimit rl ip now).2 hlim1 hwin1 hrest (by rw [hother]; exact hlen)
      rw [hother] at hIH
      rw [admitted_cons]
      have hne : ¬ (identity ip = id) := fun h => hid h.symm
      by_cases hdec : (RateLimit rl ip now).1 = .allow
      · rw [if_pos hdec]
        simp only [List.filter_cons, hne, decide_False, Bool.false_and, Bool.false_eq_true,
          if_false]
        exact hIH
      · rw [if_neg hdec]
        exact hIH

/-- C9: starting from an empty limiter with cap `N ≥ 0` and window `W`, for every sequence
of checks whose times are non-decreasing, every identity and every instant `t`, at most `N`
admitted requests of that identity have their time in the trailing window `(t - W, t]`. -/
theorem sliding_window_bound (N W : Int) (hN : 0 ≤ N) (reqs : List (String × Time))
    (hmono : (reqs.map Prod.snd).Pairwise (fun a b => a ≤ b)) (id : String) (t : Time) :
    (((admitted (NewRateLimiter N W) reqs).filter
      (fun r => decide (r.1 = id) && (decide (t - W < r.2) && decide (r.2 ≤ t)))).length : Int)
      ≤ N := by
  have h := window_bound_aux N W id t reqs (NewRateLimiter N W) rfl rfl hmono
    (by simpa [NewRateLimiter, RateLimiter.lookup] using hN)
  have hempty : (NewRateLimiter N W).lookup id = [] := rfl
  rw [hempty, List.filter_nil, List.length_nil, Nat.zero_add] at h
  exact h

/-- The sample sequence of checks, and the window `(2, 62]` for the identity `a`. -/
theorem sliding_window_bound_witness :
    (0 : Int) ≤ 3 ∧ (sampleChecks.map Prod.snd).Pairwise (fun a b => a ≤ b) ∧
    (runChecks (NewRateLimiter 3 60) sampleChecks).1 =
      [.allow, .allow, .allow, .allow, .reject, .allow, .allow, .allow] ∧
    (((admitted (NewRateLimiter 3 60) sampleChecks).filter
      (fun r => decide (r.1 = "a") && (decide (62 - 60 < r.2) && decide (r.2 ≤ 62)))).length
        : Int) ≤ 3 :=
  ⟨by decide, by decide, by decide,
    sliding_window_bound 3 60 (by decide) sampleChecks (by decide) "a" 62⟩

/-! ### The scenario of the specification -/

theorem runChecks_append (a b : List (String × Time)) :
    ∀ rl : RateLimiter,
      (runChecks rl (a ++ b)).1 = (runChecks rl a).1 ++ (runChecks (runChecks rl a).2 b).1 ∧
      (runChecks rl (a ++ b)).2 = (runChecks (runChecks rl a).2 b).2 := by
  induction a with
  | nil => intro rl; exact ⟨rfl, rfl⟩
  | cons q rest ih =>
    intro rl
    obtain ⟨ip, now⟩ := q
    obtain ⟨h1, h2⟩ := ih (RateLimit rl ip now).2
    constructor
    · show (RateLimit rl ip now).1 :: (runChecks (RateLimit rl ip now).2 (rest ++ b)).1 = _
      rw [h1]; rfl
    · show (runChecks (RateLimit rl ip now).2 (rest ++ b)).2 = _
      rw [h2]; rfl

theorem validTimes_replicate_same (W : Int) (hW : 0 < W) (now : Time) (j : Nat) :
    validTimes (now + negDuration W) (List.replicate j now) = List.replicate j now := by
  rw [windowStart_of_pos now W hW, validTimes_eq_filter, List.filter_eq_self]
  intro x hx
  rw [List.eq_of_mem_replicate hx]
  simp only [decide_eq_true_eq]
  linarith

theorem validTimes_replicate_later (W : Int) (hW : 0 < W) (now later : Time)
    (h : now + W < later) (j : Nat) :
    validTimes (later + negDuration W) (List.replicate j now) = [] := by
  rw [windowStart_of_pos later W hW, validTimes_eq_filter, List.filter_eq_nil_iff]
  intro x hx
  rw [List.eq_of_mem_replicate hx]
  simp only [decide_eq_true_eq, not_lt]
  linarith

/-- While fewer than `N` requests at the time `now` are recorded, checks at `now` are
admitted and recorded. -/
theorem runChecks_replicate_allow (N : Nat) (W : Int) (hW : 0 < W) (clientIP : String)
    (now : Time) :
    ∀ (k j : Nat) (rl : RateLimiter), rl.limit = N → rl.window = W →
      rl.lookup (identity clientIP) = List.replicate j now → j + k ≤ N →
      (runChecks rl (List.replicate k (clientIP, now))).1 = List.replicate k .allow ∧
      (runChecks rl (List.replicate k (clientIP, now))).2.lookup (identity clientIP) =
        List.replicate (j + k) now ∧
      (runChecks rl (List.replicate k (clientIP, now))).2.limit = N ∧
      (runChecks rl (List.replicate k (clientIP, now))).2.window = W := by
  intro k
  induction k with
  | zero => intro j rl hlim hwin hl _; exact ⟨rfl, hl, hlim, hwin⟩
  | succ k ih =>
    intro j rl hlim hwin hl hjk
    obtain ⟨hd, hlk, hlim1, hwin1⟩ := RateLimit_eq rl clientIP now
    have hself := hlk (identity clientIP)
    simp only [if_true] at hself
    rw [hwin, hl, validTimes_replicate_same W hW, hlim, List.length_replicate] at hd hself
    have hc : ¬ ((j : Int) ≥ (N : Int)) := by omega
    rw [if_neg hc] at hd hself
    have hrep : List.replicate j now ++ [now] = List.replicate (j + 1) now := by
      rw [List.replicate_succ']
    rw [hrep] at hself
    obtain ⟨h1, h2, h3, h4⟩ := ih (j + 1) (RateLimit rl clientIP now).2
      (by rw [hlim1, hlim]) (by rw [hwin1, hwin]) hself (by omega)
    simp only [List.replicate_succ, runChecks, hd, h1]
    refine ⟨trivial, ?_, h3, h4⟩
    rw [h2]
    congr 1
    omega

/-- C10: for every cap `N ≥ 1` and window `W > 0`, from a limiter that has recorded nothing
for the identity, and at a fixed time `now`: the first `N` checks for that identity are
admitted and the next one is rejected; a check that follows at a time later than `now + W`
is admitted again. -/
theorem rate_limit_scenario (N : Nat) (W : Int) (hN : 1 ≤ N) (hW : 0 < W)
    (rl : RateLimiter) (hlim : rl.limit = N) (hwin : rl.window = W) (clientIP : String)
    (hempty : rl.lookup (identity clientIP) = []) (now later : Time)
    (hlater : now + W < later) :
    (runChecks rl (List.replicate (N + 1) (clientIP, now))).1 =
      List.replicate N .allow ++ [.reject] ∧
    (RateLimit (runChecks rl (List.replicate (N + 1) (clientIP, now))).2 clientIP later).1 =
      .allow := by
  obtain ⟨h1, h2, h3, h4⟩ := runChecks_replicate_allow N W hW clientIP now N 0 rl hlim hwin
    (by rw [hempty]; rfl) (by omega)
  rw [Nat.zero_add] at h2
  obtain ⟨ha1, ha2⟩ := runChecks_append (List.replicate N (clientIP, now)) [(clientIP, now)] rl
  rw [← List.replicate_succ'] at ha1 ha2
  -- the check number `N + 1`
  obtain ⟨hd, hlk, hlim1, hwin1⟩ :=
    RateLimit_eq (runChecks rl (List.replicate N (clientIP, now))).2 clientIP now
  have hself := hlk (identity clientIP)
  simp only [if_true] at hself
  rw [h4, h2, validTimes_replicate_same W hW, h3, List.length_replicate] at hd hself
  have hc : ((N : Nat) : Int) ≥ (N : Int) := le_refl _
  rw [if_pos hc] at hd hself
  have hlast : runChecks (runChecks rl (List.replicate N (clientIP, now))).2
      [(clientIP, now)] =
      ([(RateLimit (runChecks rl (List.replicate N (clientIP, now))).2 clientIP now).1],
        (RateLimit (runChecks rl (List.replicate N (clientIP, now))).2 clientIP now).2) := rfl
  rw [hlast] at ha1 ha2
  simp only at ha1 ha2
  refine ⟨by rw [ha1, h1, hd], ?_⟩
  -- the check after the window has passed
  rw [ha2]
  obtain ⟨hd2, _, _, _⟩ :=
    RateLimit_eq (RateLimit (runChecks rl (List.replicate N (clientIP, now))).2 clientIP now).2
      clientIP later
  rw [hd2, hself, hwin1, h4, validTimes_replicate_later W hW now later hlater, hlim1, h3]
  have hc2 : ¬ (((([] : List Time).length : Nat) : Int) ≥ (N : Int)) := by
    simp only [List.length_nil]; omega
  rw [if_neg hc2]

/-- The scenario with cap 3 and window 60. -/
theorem rate_limit_scenario_witness :
    1 ≤ 3 ∧ (0 : Int) < 60 ∧ (NewRateLimiter 3 60).limit = (3 : Nat) ∧
    (NewRateLimiter 3 60).window = 60 ∧
    (NewRateLimiter 3 60).lookup (identity "10.0.0.1") = [] ∧ (1000 : Int) + 60 < 1061 ∧
    (runChecks (NewRateLimiter 3 60) (List.replicate (3 + 1) ("10.0.0.1", 1000))).1 =
      [.allow, .allow, .allow, .reject] ∧
    (RateLimit (runChecks (NewRateLimiter 3 60)
      (List.replicate (3 + 1) ("10.0.0.1", 1000))).2 "10.0.0.1" 1061).1 = .allow :=
  ⟨by decide, by decide, rfl, rfl, rfl, by decide,
    rate_limit_scenario 3 60 (by decide) (by decide) (NewRateLimiter 3 60) rfl rfl
      "10.0.0.1" rfl 1000 1061 (by decide)⟩

/-! ### Independence of identities -/

theorem requests_store_of_ne (rl : RateLimiter) (k : String) (times : List Time) (k' : String)
    (h : k' ≠ k) : (rl.store k times).requests k' = rl.requests k' := by
  simp [RateLimiter.store, h]

/-- A check touches the map entry of the identity it is counted under, and no other. -/
theorem RateLimit_requests_of_ne (rl : RateLimiter) (clientIP : String) (now : Time)
    (k : String) (h : k ≠ identity clientIP) :
    (RateLimit rl clientIP now).2.requests k = rl.requests k := by
  unfold RateLimit
  unfold identity at h
  simp only
  generalize (if clientIP = "" then "unknown" else clientIP) = key at h ⊢
  have hp : (match rl.requests key with
      | some times => rl.store key (validTimes (now + negDuration rl.window) times)
      | none => rl).requests k = rl.requests k := by
    cases rl.requests key with
    | none => rfl
    | some times => exact requests_store_of_ne _ _ _ _ h
  generalize (match rl.requests key with
      | some times => rl.store key (validTimes (now + negDuration rl.window) times)
      | none => rl) = rl1 at hp ⊢
  by_cases hc : ((rl1.lookup key).length : Int) ≥ rl1.limit
  · rw [if_pos hc]; exact hp
  · rw [if_neg hc]
    show (rl1.store key (rl1.lookup key ++ [now])).requests k = rl.requests k
    rw [requests_store_of_ne _ _ _ _ h]; exact hp

/-- Checks for other identities leave the entry, the cap and the window as they are. -/
theorem runChecks_frame (k : String) (reqs : List (String × Time)) :
    ∀ rl : RateLimiter, (∀ r ∈ reqs, identity r.1 ≠ k) →
      (runChecks rl reqs).2.requests k = rl.requests k ∧
      (runChecks rl reqs).2.limit = rl.limit ∧ (runChecks rl reqs).2.window = rl.window := by
  induction reqs with
  | nil => intro rl _; exact ⟨rfl, rfl, rfl⟩
  | cons q rest ih =>
    intro rl h
    obtain ⟨ip, now⟩ := q
    have hq : identity ip ≠ k := h (ip, now) (List.mem_cons_self _ _)
    obtain ⟨h1, h2, h3⟩ := ih (RateLimit rl ip now).2
      (fun r hr => h r (List.mem_cons_of_mem _ hr))
    obtain ⟨_, _, hlim, hwin⟩ := RateLimit_eq rl ip now
    refine ⟨?_, ?_, ?_⟩
    · show (runChecks (RateLimit rl ip now).2 rest).2.requests k = _
      rw [h1, RateLimit_requests_of_ne rl ip now k (Ne.symm hq)]
    · show (runChecks (RateLimit rl ip now).2 rest).2.limit = _
      rw [h2, hlim]
    · show (runChecks (RateLimit rl ip now).2 rest).2.window = _
      rw [h3, hwin]

/-- The decision depends on the limiter only through the cap, the window and the sequence
of the identity checked. -/
theorem RateLimit_decision_congr (rl rl' : RateLimiter) (clientIP : String) (now : Time)
    (hlim : rl'.limit = rl.limit) (hwin : rl'.window = rl.window)
    (hseq : rl'.lookup (identity clientIP) = rl.lookup (identity clientIP)) :
    (RateLimit rl' clientIP now).1 = (RateLimit rl clientIP now).1 := by
  rw [(RateLimit_eq rl' clientIP now).1, (RateLimit_eq rl clientIP now).1, hlim, hwin, hseq]

/-- C11: identities are independent in the rate limiter.  A check for one identity leaves
the map entry, hence the stored sequence, of every other identity unchanged; the decision
of a check is determined by the cap, the window, the time and the stored sequence of the
identity checked; so whatever checks are served for other identities, even until their
budget is exhausted, the decision for this identity is the one it would have got without
them. -/
theorem identities_independent (rl : RateLimiter) (clientIP : String) (now : Time) :
    (∀ k, k ≠ identity clientIP →
      (RateLimit rl clientIP now).2.requests k = rl.requests k ∧
      (RateLimit rl clientIP now).2.lookup k = rl.lookup k) ∧
    (∀ rl' : RateLimiter, rl'.limit = rl.limit → rl'.window = rl.window →
      rl'.lookup (identity clientIP) = rl.lookup (identity clientIP) →
      (RateLimit rl' clientIP now).1 = (RateLimit rl clientIP now).1) ∧
    (∀ others : List (String × Time), (∀ r ∈ others, identity r.1 ≠ identity clientIP) →
      (runChecks rl others).2.lookup (identity clientIP) = rl.lookup (identity clientIP) ∧
      (RateLimit (runChecks rl others).2 clientIP now).1 = (RateLimit rl clientIP now).1) := by
  refine ⟨?_, ?_, ?_⟩
  · intro k hk
    have h := RateLimit_requests_of_ne rl clientIP now k hk
    exact ⟨h, by unfold RateLimiter.lookup; rw [h]⟩
  · intro rl' hlim hwin hseq
    exact RateLimit_decision_congr rl rl' clientIP now hlim hwin hseq
  · intro others hothers
    obtain ⟨h1, h2, h3⟩ := runChecks_frame (identity clientIP) others rl hothers
    have hseq : (runChecks rl others).2.lookup (identity clientIP) =
        rl.lookup (identity clientIP) := by
      unfold RateLimiter.lookup; rw [h1]
    exact ⟨hseq, RateLimit_decision_congr rl _ clientIP now h2 h3 hseq⟩

/-- With cap 2, the identity `b` is served until it is rejected; the identity `a` is then
still admitted, and nothing was recorded for it. -/
theorem identities_independent_witness :
    (∀ r ∈ sampleOthers, identity r.1 ≠ identity "a") ∧
    (runChecks (NewRateLimiter 2 60) sampleOthers).1 = [.allow, .allow, .reject] ∧
    (RateLimit (NewRateLimiter 2 60) "a" 3).1 = .allow ∧
    ((runChecks (NewRateLimiter 2 60) sampleOthers).2.lookup (identity "a") =
        (NewRateLimiter 2 60).lookup (identity "a") ∧
      (RateLimit (runChecks (NewRateLimiter 2 60) sampleOthers).2 "a" 3).1 =
        (RateLimit (NewRateLimiter 2 60) "a" 3).1) :=
  ⟨by decide, by decide, by decide,
    (identities_independent (NewRateLimiter 2 60) "a" 3).2.2 sampleOthers (by decide)⟩

/-! ### `SanitizeURL` -/

theorem isSpace_h : isSpace 'h' = false := by decide

theorem isSpace_slash : isSpace '/' = false := by decide

theorem get_zero_of_append_eq {α : Type} (t r d : List α) (h : t ++ r = d)
    (ht : 0 < t.length) (hd : 0 < d.length) : t.get ⟨0, ht⟩ = d.get ⟨0, hd⟩ := by
  subst h
  cases t with
  | nil => exact absurd ht (Nat.lt_irrefl 0)
  | cons a t => rfl

/-- The text left by `trimSpace` neither starts nor ends with white space. -/
theorem trimmed_fixed (l : List Char) :
    ((l.dropWhile isSpace).rdropWhile isSpace).dropWhile isSpace =
        (l.dropWhile isSpace).rdropWhile isSpace ∧
    ((l.dropWhile isSpace).rdropWhile isSpace).rdropWhile isSpace =
        (l.dropWhile isSpace).rdropWhile isSpace := by
  refine ⟨?_, List.rdropWhile_idempotent _ _⟩
  rw [List.dropWhile_eq_self_iff]
  intro hl
  obtain ⟨r, hr⟩ := List.rdropWhile_prefix isSpace (l.dropWhile isSpace)
  have hne : 0 < (l.dropWhile isSpace).length := by
    rw [← hr, List.length_append]; omega
  have h0 := List.dropWhile_get_zero_not isSpace l hne
  rw [get_zero_of_append_eq _ r _ hr hl hne]
  exact h0

theorem trimSpace_idem (s : String) : trimSpace (trimSpace s) = trimSpace s := by
  unfold trimSpace
  simp only
  rw [(trimmed_fixed s.data).1, (trimmed_fixed s.data).2]

theorem hasPrefix_https_append (t : String) : hasPrefix ("https://" ++ t) "https://" = true := by
  unfold hasPrefix
  rw [String.data_append, List.isPrefixOf_iff_prefix]
  exact List.prefix_append _ _

/-- Putting `https://` before a trimmed text gives a trimmed text. -/
theorem trimSpace_https_append (s : String) :
    trimSpace ("https://" ++ trimSpace s) = "https://" ++ trimSpace s := by
  apply String.ext
  show (("https://" ++ trimSpace s).data.dropWhile isSpace).rdropWhile isSpace =
    ("https://" ++ trimSpace s).data
  rw [String.data_append]
  have hd : ("https://".data ++ (trimSpace s).data).dropWhile isSpace =
      "https://".data ++ (trimSpace s).data := by
    show List.dropWhile isSpace ('h' :: _) = _
    rw [List.dropWhile_cons_of_neg (by rw [isSpace_h]; exact Bool.false_ne_true)]
    rfl
  rw [hd, List.rdropWhile_eq_self_iff]
  intro hl
  by_cases ht : (trimSpace s).data = []
  · have hlast : ∀ (l : List Char) (h : "https://".data ++ l ≠ []), l = [] →
        ("https://".data ++ l).getLast h = '/' := by
      intro l h hnil
      subst hnil
      rfl
    rw [hlast _ hl ht, isSpace_slash]
    exact Bool.false_ne_true
  · rw [List.getLast_append_of_ne_nil ht]
    exact List.rdropWhile_last_not isSpace (s.data.dropWhile isSpace) ht

/-- `SanitizeURL` in terms of the trimmed text. -/
theorem SanitizeURL_eq (s : String) :
    SanitizeURL s =
      if hasPrefix (trimSpace s) "http://" = true ∨ hasPrefix (trimSpace s) "https://" = true
      then trimSpace s else "https://" ++ trimSpace s := by
  unfold SanitizeURL
  simp only
  cases h1 : hasPrefix (trimSpace s) "http://" <;>
    cases h2 : hasPrefix (trimSpace s) "https://" <;> simp

theorem rdropWhile_append_rtakeWhile {α : Type} (p : α → Bool) (l : List α) :
    l.rdropWhile p ++ l.rtakeWhile p = l := by
  unfold List.rdropWhile List.rtakeWhile
  rw [← List.reverse_append, List.takeWhile_append_dropWhile, List.reverse_reverse]

/-- What `trimSpace` removes and what it leaves: white space before and after a text that
neither starts nor ends with white space. -/
theorem trimSpace_spec (s : String) :
    ∃ pre post : List Char, s.data = pre ++ (trimSpace s).data ++ post ∧
      (∀ c ∈ pre, isSpace c = true) ∧ (∀ c ∈ post, isSpace c = true) ∧
      (∀ c, (trimSpace s).data.head? = some c → isSpace c = false) ∧
      (∀ c, (trimSpace s).data.getLast? = some c → isSpace c = false) := by
  refine ⟨s.data.takeWhile isSpace, (s.data.dropWhile isSpace).rtakeWhile isSpace, ?_, ?_, ?_,
    ?_, ?_⟩
  · show s.data = _ ++ (s.data.dropWhile isSpace).rdropWhile isSpace ++ _
    rw [List.append_assoc, rdropWhile_append_rtakeWhile, List.takeWhile_append_dropWhile]
  · intro c hc; exact List.mem_takeWhile_imp hc
  · intro c hc; exact List.mem_rtakeWhile_imp hc
  · intro c hc
    have hfix := (trimmed_fixed s.data).1
    change (trimSpace s).data.dropWhile isSpace = (trimSpace s).data at hfix
    cases ht : (trimSpace s).data with
    | nil => rw [ht] at hc; cases hc
    | cons a t =>
      rw [ht] at hc hfix
      simp only [List.head?_cons, Option.some.injEq] at hc
      subst hc
      cases ha : isSpace a with
      | false => rfl
      | true =>
        exfalso
        rw [List.dropWhile_cons_of_pos ha] at hfix
        have hlen := congrArg List.length hfix
        have hle := (List.dropWhile_suffix isSpace (l := t)).length_le
        simp only [List.length_cons] at hlen
        omega
  · intro c hc
    have hne : (trimSpace s).data ≠ [] := by
      intro h; rw [h] at hc; cases hc
    have hlast := List.rdropWhile_last_not isSpace (s.data.dropWhile isSpace) hne
    change ¬ isSpace ((trimSpace s).data.getLast hne) = true at hlast
    rw [List.getLast?_eq_getLast _ hne, Option.some.injEq] at hc
    rw [← hc]
    simpa using hlast

/-- C13: `SanitizeURL` is idempotent: normalising a normalised URL changes nothing. -/
theorem SanitizeURL_idempotent (s : String) :
    SanitizeURL (SanitizeURL s) = SanitizeURL s := by
  rw [SanitizeURL_eq s]
  by_cases h : hasPrefix (trimSpace s) "http://" = true ∨
      hasPrefix (trimSpace s) "https://" = true
  · rw [if_pos h, SanitizeURL_eq, trimSpace_idem, if_pos h]
  · rw [if_neg h, SanitizeURL_eq, trimSpace_https_append,
      if_pos (Or.inr (hasPrefix_https_append _))]

/-- C14: with `t` the input stripped of leading and trailing white space, `SanitizeURL`
returns `t` when `t` starts with `http://` or `https://`, and `https://` followed by `t`
otherwise; so its result always starts with `http://` or `https://`. -/
theorem SanitizeURL_spec (s : String) :
    (∃ pre post : List Char, s.data = pre ++ (trimSpace s).data ++ post ∧
      (∀ c ∈ pre, isSpace c = true) ∧ (∀ c ∈ post, isSpace c = true) ∧
      (∀ c, (trimSpace s).data.head? = some c → isSpace c = false) ∧
      (∀ c, (trimSpace s).data.getLast? = some c → isSpace c = false)) ∧
    ((hasPrefix (trimSpace s) "http://" = true ∨ hasPrefix (trimSpace s) "https://" = true) →
      SanitizeURL s = trimSpace s) ∧
    (¬ (hasPrefix (trimSpace s) "http://" = true ∨ hasPrefix (trimSpace s) "https://" = true) →
      SanitizeURL s = "https://" ++ trimSpace s) ∧
    (hasPrefix (SanitizeURL s) "http://" = true ∨
      hasPrefix (SanitizeURL s) "https://" = true) := by
  refine ⟨trimSpace_spec s, ?_, ?_, ?_⟩
  · intro h; rw [SanitizeURL_eq, if_pos h]
  · intro h; rw [SanitizeURL_eq, if_neg h]
  · rw [SanitizeURL_eq]
    by_cases h : hasPrefix (trimSpace s) "http://" = true ∨
        hasPrefix (trimSpace s) "https://" = true
    · rw [if_pos h]; exact h
    · rw [if_neg h]; exact Or.inr (hasPrefix_https_append _)

/-- An input with surrounding white space and a scheme, and one without a scheme. -/
theorem SanitizeURL_spec_witness :
    trimSpace "  http://example.com \n" = "http://example.com" ∧
    SanitizeURL "  http://example.com \n" = "http://example.com" ∧
    trimSpace "\texample.com " = "example.com" ∧
    SanitizeURL "\texample.com " = "https://example.com" ∧
    SanitizeURL "  http://example.com \n" = trimSpace "  http://example.com \n" ∧
    SanitizeURL "\texample.com " = "https://" ++ trimSpace "\texample.com " :=
  ⟨by decide, by decide, by decide, by decide,
    (SanitizeURL_spec "  http://example.com \n").2.1 (Or.inl (by decide)),
    (SanitizeURL_spec "\texample.com ").2.2.1 (by decide)⟩

/-! ### Normalisation on create and on update -/

theorem updateOriginalURL_url (env : Env) (req : UpdateLinkRequest) (link link' : Link)
    (h : updateOriginalURL env req link = .ok link') :
    (req.OriginalURL ≠ "" → link'.OriginalURL = SanitizeURL req.OriginalURL ∧
      ValidateURL env.parseRequestURI req.OriginalURL = none) ∧
    (req.OriginalURL = "" → link' = link) := by
  unfold updateOriginalURL at h
  by_cases hne : req.OriginalURL = ""
  · simp only [hne, ne_eq, not_true_eq_false, if_false, Except.ok.injEq] at h
    subst h
    exact ⟨fun hc => absurd hne hc, fun _ => rfl⟩
  · simp only [hne, ne_eq, not_false_eq_true, if_true] at h
    cases hv : ValidateURL env.parseRequestURI req.OriginalURL with
    | some e => rw [hv] at h; cases h
    | none =>
      rw [hv] at h
      simp only [Except.ok.injEq] at h
      subst h
      exact ⟨fun _ => ⟨rfl, rfl⟩, fun hc => absurd hc hne⟩

theorem updateCustomAlias_url (env : Env) (req : UpdateLinkRequest) (link link' : Link)
    (w : Store) (h : (updateCustomAlias env req link w).1 = .ok link') :
    link'.OriginalURL = link.OriginalURL := by
  unfold updateCustomAlias at h
  by_cases hne : req.CustomAlias = ""
  · simp only [hne, ne_eq, not_true_eq_false, if_false, Except.ok.injEq] at h
    subst h; rfl
  · simp only [hne, ne_eq, not_false_eq_true, if_true] at h
    cases hv : ValidateShortCode req.CustomAlias with
    | some e => rw [hv] at h; cases h
    | none =>
      rw [hv] at h
      simp only at h
      rcases hq : LinkRepository.ShortCodeExists env req.CustomAlias w with ⟨res, w1⟩
      rw [hq] at h
      cases res with
      | error e => cases h
      | ok found =>
        simp only at h
        by_cases hc : (found && req.CustomAlias != link.ShortCode) = true
        · rw [if_pos hc] at h; cases h
        · rw [if_neg hc] at h
          simp only [Except.ok.injEq] at h
          subst h; rfl

theorem updateOptionalFields_url (req : UpdateLinkRequest) (link : Link) :
    (updateOptionalFields req link).OriginalURL = link.OriginalURL := by
  unfold updateOptionalFields
  cases req.IsActive <;> cases req.ExpiresAt <;> by_cases ht : req.Title = "" <;>
    simp [ht]

/-- A successful `UpdateLink`, step by step: the link read, the link after the URL block,
the link after the alias block, and the rows and the response written from the link after
the remaining blocks. -/
theorem UpdateLink_ok (env : Env) (userID linkID : UUID) (req : UpdateLinkRequest)
    (w : Store) (r : LinkResponse) (w' : Store)
    (h : UpdateLink env userID linkID req w = (.ok r, w')) :
    ∃ old link1 link2, w.rows.find? (fun l => l.ID == linkID) = some old ∧
      old.ID = linkID ∧ old.UserID = userID ∧ old ∈ w.rows ∧
      updateOriginalURL env req old = .ok link1 ∧
      (updateCustomAlias env req link1 (w.record (.getByID linkID))).1 = .ok link2 ∧
      w'.rows = w.rows.map (fun l =>
        if l.ID == linkID && l.UserID == userID then
          updatedRow env (updateOptionalFields req link2) l else l) ∧
      r = toLinkResponse env { updateOptionalFields req link2 with UpdatedAt := env.dbNow } := by
  unfold UpdateLink at h
  have hs := GetByID_store env linkID w
  have hg := GetByID_ok env linkID w
  rcases hq : LinkRepository.GetByID env linkID w with ⟨res, w1⟩
  rw [hq] at h hs hg
  simp only at hs hg
  subst hs
  cases res with
  | error e => simp only [Prod.mk.injEq] at h; cases h.1
  | ok old =>
    have hfind := hg old rfl
    have hid : old.ID = linkID := by
      have := List.find?_some hfind
      simpa using this
    simp only at h
    by_cases hown : old.UserID = userID
    · simp only [hown, ne_eq, not_true_eq_false, if_false] at h
      cases hu : updateOriginalURL env req old with
      | error e => rw [hu] at h; simp only [Prod.mk.injEq] at h; cases h.1
      | ok link1 =>
        rw [hu] at h
        simp only at h
        obtain ⟨hid1, huser1, _⟩ := updateOriginalURL_ok env req old link1 hu
        rcases ha : updateCustomAlias env req link1 (w.record (.getByID linkID)) with ⟨res2, w2⟩
        rw [ha] at h
        obtain ⟨hrows2, hlink2⟩ := updateCustomAlias_cases env req link1 _ res2 w2 ha
        cases res2 with
        | error e => simp only [Prod.mk.injEq] at h; cases h.1
        | ok link2 =>
          simp only at h
          obtain ⟨hid2, huser2, _, _⟩ := hlink2 link2 rfl
          obtain ⟨hid3, huser3, _⟩ := updateOptionalFields_keeps req link2
          rcases Update_cases env (updateOptionalFields req link2) w2 with
            ⟨⟨err, h1⟩, _⟩ | ⟨h1, h2⟩
          · rcases hU : LinkRepository.Update env (updateOptionalFields req link2) w2 with
              ⟨res3, w3⟩
            rw [hU] at h h1
            simp only at h1
            subst h1
            simp only [Prod.mk.injEq] at h
            cases h.1
          · rcases hU : LinkRepository.Update env (updateOptionalFields req link2) w2 with
              ⟨res3, w3⟩
            rw [hU] at h h1 h2
            simp only at h1 h2
            subst h1
            simp only [Prod.mk.injEq, Except.ok.injEq] at h
            obtain ⟨rfl, rfl⟩ := h
            refine ⟨old, link1, link2, hfind, hid, hown, List.mem_of_find?_eq_some hfind, hu,
              by rw [ha], ?_, rfl⟩
            rw [h2, hrows2]
            have e1 : (updateOptionalFields req link2).ID = linkID := by
              rw [hid3, hid2, hid1, hid]
            have e2 : (updateOptionalFields req link2).UserID = userID := by
              rw [huser3, huser2, huser1, hown]
            simp only [e1, e2]
            rfl
    · simp only [hown, ne_eq, not_false_eq_true, if_true, Prod.mk.injEq] at h
      cases h.1

/-- C15: normalisation is applied identically on create and on update.  Whenever
`CreateLink` succeeds, the `original_url` of the response and of the row it has added is
`SanitizeURL` of the request's `original_url`; whenever `UpdateLink` succeeds for a request
with a non-empty `original_url`, the `original_url` of the response and of the link's row
in the table is `SanitizeURL` of the request's `original_url`; and `SanitizeURL` of
`example.com` is `https://example.com`. -/
theorem normalisation_on_create_and_update (env : Env) :
    (∀ (fuel : Nat) (userID : UUID) (req : CreateLinkRequest) (w : Store) (r : LinkResponse)
        (w' : Store), CreateLink env fuel userID req w = .done (.ok r, w') →
      r.OriginalURL = SanitizeURL req.OriginalURL ∧
      ∃ row, w'.rows = w.rows ++ [row] ∧ row.ID = r.ID ∧
        row.OriginalURL = SanitizeURL req.OriginalURL) ∧
    (∀ (userID linkID : UUID) (req : UpdateLinkRequest) (w : Store) (r : LinkResponse)
        (w' : Store), UpdateLink env userID linkID req w = (.ok r, w') →
      req.OriginalURL ≠ "" →
      r.OriginalURL = SanitizeURL req.OriginalURL ∧
      (∃ row ∈ w'.rows, row.ID = linkID ∧ row.UserID = userID) ∧
      ∀ row ∈ w'.rows, row.ID = linkID → row.UserID = userID →
        row.OriginalURL = SanitizeURL req.OriginalURL) ∧
    SanitizeURL "example.com" = "https://example.com" := by
  refine ⟨?_, ?_, by decide⟩
  · intro fuel userID req w r w' h
    rcases CreateLink_done env fuel userID req w _ w' h with
      ⟨_, err, herr⟩ | ⟨code, hrows, hout, _, _, _⟩
    · cases herr
    · simp only [Except.ok.injEq] at hout
      subst hout
      exact ⟨rfl, _, hrows, rfl, rfl⟩
  · intro userID linkID req w r w' h hne
    obtain ⟨old, link1, link2, _, hid, hown, hmem, hu, ha, hrows, hr⟩ :=
      UpdateLink_ok env userID linkID req w r w' h
    have hurl : (updateOptionalFields req link2).OriginalURL =
        SanitizeURL req.OriginalURL := by
      rw [updateOptionalFields_url, updateCustomAlias_url env req link1 link2 _ ha]
      exact ((updateOriginalURL_url env req old link1 hu).1 hne).1
    refine ⟨?_, ?_, ?_⟩
    · rw [hr]; exact hurl
    · refine ⟨updatedRow env (updateOptionalFields req link2) old, ?_, hid, hown⟩
      rw [hrows, List.mem_map]
      refine ⟨old, hmem, ?_⟩
      have hm : (old.ID == linkID && old.UserID == userID) = true := by
        simp [hid, hown]
      rw [if_pos hm]
    · intro row hrow hrid hruser
      rw [hrows, List.mem_map] at hrow
      obtain ⟨l, _, hl⟩ := hrow
      by_cases hm : (l.ID == linkID && l.UserID == userID) = true
      · rw [if_pos hm] at hl
        rw [← hl]
        exact hurl
      · rw [if_neg hm] at hl
        subst hl
        exfalso
        apply hm
        simp [hrid, hruser]

/-- Creating a link for `example.com` stores `https://example.com`; retargeting the sample
row to ` example.net` stores `https://example.net`. -/
theorem normalisation_on_create_and_update_witness :
    (∃ r w', CreateLink sampleEnv 1 7 sampleBareRequest emptyStore = .done (.ok r, w') ∧
      r.OriginalURL = "https://example.com" ∧
      w'.rows.map Link.OriginalURL = ["https://example.com"] ∧
      r.OriginalURL = SanitizeURL sampleBareRequest.OriginalURL) ∧
    (∃ r w', UpdateLink sampleEnv 7 5 sampleRetarget sampleStore = (.ok r, w') ∧
      sampleRetarget.OriginalURL ≠ "" ∧
      w'.rows.map Link.OriginalURL = ["https://example.net"] ∧
      r.OriginalURL = SanitizeURL sampleRetarget.OriginalURL) :=
  ⟨⟨_, _, rfl, rfl, rfl,
      ((normalisation_on_create_and_update sampleEnv).1 1 7 sampleBareRequest emptyStore
        _ _ rfl).1⟩,
    ⟨_, _, rfl, by decide, rfl,
      ((normalisation_on_create_and_update sampleEnv).2.1 7 5 sampleRetarget sampleStore
        _ _ rfl (by decide)).1⟩⟩

/-! ### Conflicts in `UpdateLink` -/

/-- Texts that start with different characters are different. -/
theorem append_ne_of_head_ne (p s t : String) (h : p.data.head? ≠ t.data.head?)
    (hp : p.data ≠ []) : p ++ s ≠ t := by
  intro he
  apply h
  rw [← he, String.data_append]
  cases hd : p.data with
  | nil => exact absurd hd hp
  | cons c cs => rfl

theorem notFound_ne_conflict (e : String) :
    "link not found: " ++ e ≠ "custom alias already exists" :=
  append_ne_of_head_ne _ _ _ (by decide) (by decide)

theorem invalidURL_ne_conflict (e : String) :
    "invalid URL: " ++ e ≠ "custom alias already exists" :=
  append_ne_of_head_ne _ _ _ (by decide) (by decide)

theorem invalidAlias_ne_conflict (e : String) :
    "invalid custom alias: " ++ e ≠ "custom alias already exists" :=
  append_ne_of_head_ne _ _ _ (by decide) (by decide)

theorem checkFailed_ne_conflict (e : String) :
    "failed to check short code: " ++ e ≠ "custom alias already exists" :=
  append_ne_of_head_ne _ _ _ (by decide) (by decide)

theorem updateFailed_ne_conflict (e : String) :
    "failed to update link: " ++ e ≠ "custom alias already exists" :=
  append_ne_of_head_ne _ _ _ (by decide) (by decide)

theorem createFailed_ne_conflict (e : String) :
    "failed to create link: " ++ e ≠ "custom alias already exists" :=
  append_ne_of_head_ne _ _ _ (by decide) (by decide)

theorem GetByID_eq_of_found (env : Env) (id : UUID) (w : Store) (old : Link)
    (hfault : env.fault w.calls.length = none)
    (hfind : w.rows.find? (fun l => l.ID == id) = some old) :
    LinkRepository.GetByID env id w = (.ok old, w.record (.getByID id)) := by
  unfold LinkRepository.GetByID
  rw [hfault]
  simp only [hfind]

/-- The alias block returns the conflict error only for an alias that some row carries and
that is not the code of the link being updated. -/
theorem updateCustomAlias_conflict (env : Env) (req : UpdateLinkRequest) (link : Link)
    (w : Store)
    (h : (updateCustomAlias env req link w).1 = .error "custom alias already exists") :
    req.CustomAlias ≠ link.ShortCode ∧ ∃ l ∈ w.rows, l.ShortCode = req.CustomAlias := by
  unfold updateCustomAlias at h
  by_cases hne : req.CustomAlias = ""
  · simp only [hne, ne_eq, not_true_eq_false, if_false] at h
    cases h
  · simp only [hne, ne_eq, not_false_eq_true, if_true] at h
    cases hv : ValidateShortCode req.CustomAlias with
    | some e =>
      rw [hv] at h
      simp only [Except.error.injEq] at h
      exact absurd h (invalidAlias_ne_conflict e)
    | none =>
      rw [hv] at h
      simp only at h
      have hr := ShortCodeExists_result env req.CustomAlias w
      rcases hq : LinkRepository.ShortCodeExists env req.CustomAlias w with ⟨res, w1⟩
      rw [hq] at h hr
      simp only at hr
      cases res with
      | error e =>
        simp only [Except.error.injEq] at h
        exact absurd h (checkFailed_ne_conflict e)
      | ok found =>
        simp only at h
        by_cases hc : (found && req.CustomAlias != link.ShortCode) = true
        · simp only [Bool.and_eq_true, bne_iff_ne, ne_eq] at hc
          refine ⟨hc.2, ?_⟩
          cases hf : env.fault w.calls.length with
          | some e => rw [hf] at hr; cases hr
          | none =>
            rw [hf] at hr
            simp only [Except.ok.injEq] at hr
            rw [hc.1] at hr
            exact (any_shortCode_eq_true_iff _ _).mp hr.symm
        · rw [if_neg hc] at h
          cases h

/-- `UpdateLink` returns the conflict error only when the alias block does. -/
theorem UpdateLink_conflict (env : Env) (userID linkID : UUID) (req : UpdateLinkRequest)
    (w : Store)
    (h : (UpdateLink env userID linkID req w).1 = .error "custom alias already exists") :
    ∃ old, w.rows.find? (fun l => l.ID == linkID) = some old ∧
      req.CustomAlias ≠ old.ShortCode ∧ ∃ l ∈ w.rows, l.ShortCode = req.CustomAlias := by
  unfold UpdateLink at h
  have hg := GetByID_ok env linkID w
  rcases hq : LinkRepository.GetByID env linkID w with ⟨res, w1⟩
  have hs := GetByID_store env linkID w
  rw [hq] at h hg hs
  simp only at hg hs
  subst hs
  cases res with
  | error e =>
    simp only [Except.error.injEq] at h
    exact absurd h (notFound_ne_conflict e)
  | ok old =>
    have hfind := hg old rfl
    simp only at h
    by_cases hown : old.UserID = userID
    · simp only [hown, ne_eq, not_true_eq_false, if_false] at h
      cases hu : updateOriginalURL env req old with
      | error e =>
        rw [hu] at h
        simp only [Except.error.injEq] at h
        unfold updateOriginalURL at hu
        by_cases hne : req.OriginalURL = ""
        · simp only [hne, ne_eq, not_true_eq_false, if_false] at hu
          cases hu
        · simp only [hne, ne_eq, not_false_eq_true, if_true] at hu
          cases hv : ValidateURL env.parseRequestURI req.OriginalURL with
          | none => rw [hv] at hu; cases hu
          | some e' =>
            rw [hv] at hu
            simp only [Except.error.injEq] at hu
            rw [← hu] at h
            exact absurd h (invalidURL_ne_conflict e')
      | ok link1 =>
        rw [hu] at h
        simp only at h
        obtain ⟨_, _, hcode1⟩ := updateOriginalURL_ok env req old link1 hu
        rcases ha : updateCustomAlias env req link1 (w.record (.getByID linkID)) with ⟨res2, w2⟩
        rw [ha] at h
        cases res2 with
        | error e =>
          simp only [Except.error.injEq] at h
          subst h
          obtain ⟨h1, h2⟩ := updateCustomAlias_conflict env req link1 _ (by rw [ha])
          rw [hcode1] at h1
          exact ⟨old, hfind, h1, h2⟩
        | ok link2 =>
          simp only at h
          rcases hU : LinkRepository.Update env (updateOptionalFields req link2) w2 with
            ⟨res3, w3⟩
          rw [hU] at h
          cases res3 with
          | error e =>
            simp only [Except.error.injEq] at h
            exact absurd h (updateFailed_ne_conflict e)
          | ok l => cases h
    · simp only [hown, ne_eq, not_false_eq_true, if_true, Except.error.injEq] at h
      exact absurd h (by decide)

theorem find?_map_of_preserve {α : Type} (p : α → Bool) (g : α → α) (hg : ∀ a, p (g a) = p a)
    (l : List α) : (l.map g).find? p = (l.find? p).map g := by
  induction l with
  | nil => rfl
  | cons a t ih =>
    simp only [List.map_cons, List.find?_cons, hg]
    cases p a <;> simp [ih]

theorem updateOriginalURL_of_valid (env : Env) (req : UpdateLinkRequest) (link : Link)
    (h : req.OriginalURL = "" ∨ ValidateURL env.parseRequestURI req.OriginalURL = none) :
    ∃ link1, updateOriginalURL env req link = .ok link1 ∧ link1.ShortCode = link.ShortCode := by
  unfold updateOriginalURL
  by_cases hne : req.OriginalURL = ""
  · simp only [hne, ne_eq, not_true_eq_false, if_false]
    exact ⟨link, rfl, rfl⟩
  · simp only [hne, ne_eq, not_false_eq_true, if_true]
    rcases h with h | h
    · exact absurd h hne
    · rw [h]
      exact ⟨_, rfl, rfl⟩

/-- The alias block on an alias that fails the format rule: no repository call is made. -/
theorem updateCustomAlias_invalid (env : Env) (req : UpdateLinkRequest) (link : Link)
    (w : Store) (e : String) (hne : req.CustomAlias ≠ "")
    (hinvalid : ValidateShortCode req.CustomAlias = some e) :
    updateCustomAlias env req link w = (.error ("invalid custom alias: " ++ e), w) := by
  unfold updateCustomAlias
  simp only [hne, ne_eq, not_false_eq_true, if_true]
  rw [hinvalid]

/-- The alias block on a valid alias that some row carries and that is not the code of the
link, when the existence query is answered. -/
theorem updateCustomAlias_eq_conflict (env : Env) (req : UpdateLinkRequest) (link : Link)
    (w : Store) (hvalid : ValidateShortCode req.CustomAlias = none)
    (hfault : env.fault w.calls.length = none)
    (hex : ∃ l ∈ w.rows, l.ShortCode = req.CustomAlias)
    (hne : req.CustomAlias ≠ link.ShortCode) :
    updateCustomAlias env req link w =
      (.error "custom alias already exists", w.record (.shortCodeExists req.CustomAlias)) := by
  unfold updateCustomAlias
  have hne0 := ne_empty_of_ValidateShortCode _ hvalid
  simp only [hne0, ne_eq, not_false_eq_true, if_true]
  rw [hvalid]
  simp only [ShortCodeExists_eq_of_no_fault env req.CustomAlias w hfault]
  rw [(any_shortCode_eq_true_iff w.rows req.CustomAlias).mpr hex]
  have hb : (true && req.CustomAlias != link.ShortCode) = true := by
    simp [hne]
  rw [if_pos hb]

/-- C16, counterexample: `CreateLink` for a request without alias, with a random source
that delivers eight bytes `0xFF`, stores a second link with the generated code `________`
next to the link `5` of the same user; `UpdateLink` of link `5` with that code as the alias
is then not answered with "custom alias already exists" but with the error of the format
rule, before the existence of the code is looked up. -/
theorem UpdateLink_alias_of_other_link_invalid :
    ∃ r w1, CreateLink sampleEnv 1 7 sampleRequestNoAlias sampleStore = .done (.ok r, w1) ∧
      w1.rows.map (fun l => (l.ID, l.UserID, l.ShortCode)) =
        [(5, 7, "test-link"), (1, 7, "________")] ∧
      UniqueShortCodes w1 ∧
      sampleAliasGenerated.CustomAlias = "________" ∧
      UpdateLink sampleEnv 7 5 sampleAliasGenerated w1 =
        (.error "invalid custom alias: short code can only contain letters, numbers, and hyphens",
          w1.record (.getByID 5)) ∧
      (UpdateLink sampleEnv 7 5 sampleAliasGenerated w1).1 ≠
        .error "custom alias already exists" :=   by
  refine ⟨_, _, rfl, rfl, ?_, rfl, rfl, ?_⟩
  · unfold UniqueShortCodes
    decide
  · intro h
    exact absurd (Except.error.inj h) (by decide)

/-- C16, amended: in `UpdateLink`, for a link that is stored under the id and owned by the
caller.  A requested alias equal to the link's own current code is never answered with the
error "custom alias already exists", and the link keeps its short code, whatever the outcome
of the call.  A requested alias that is the short code of a different stored link (in a table
without duplicate short codes) always ends in an error with the table unchanged.  Which
error depends on how far the request gets: when the lookups are answered, the URL is absent
or valid and the alias satisfies the format rule, the error is "custom alias already exists"
and the only repository calls made are `GetByID` and `ShortCodeExists` (`Update` is not
called); when the alias fails the format rule, as the generated code of another link may,
the error is "invalid custom alias: ..." and the only repository call made is `GetByID`. -/
theorem UpdateLink_alias_conflict (env : Env) (userID linkID : UUID) (req : UpdateLinkRequest)
    (w : Store) (old : Link)
    (hfind : w.rows.find? (fun l => l.ID == linkID) = some old)
    (hown : old.UserID = userID) :
    (req.CustomAlias = old.ShortCode →
      (UpdateLink env userID linkID req w).1 ≠ .error "custom alias already exists" ∧
      ((UpdateLink env userID linkID req w).2.rows.find? (fun l => l.ID == linkID)).map
        Link.ShortCode = some old.ShortCode) ∧
    (req.CustomAlias ≠ "" → UniqueShortCodes w →
      (∃ other ∈ w.rows, other.ID ≠ linkID ∧ other.ShortCode = req.CustomAlias) →
      (∃ err, (UpdateLink env userID linkID req w).1 = .error err) ∧
      (UpdateLink env userID linkID req w).2.rows = w.rows ∧
      (env.fault w.calls.length = none → env.fault (w.calls.length + 1) = none →
        (req.OriginalURL = "" ∨ ValidateURL env.parseRequestURI req.OriginalURL = none) →
        ValidateShortCode req.CustomAlias = none →
        UpdateLink env userID linkID req w =
          (.error "custom alias already exists",
            { rows := w.rows,
              calls := w.calls ++ [.getByID linkID, .shortCodeExists req.CustomAlias] })) ∧
      (env.fault w.calls.length = none →
        (req.OriginalURL = "" ∨ ValidateURL env.parseRequestURI req.OriginalURL = none) →
        ∀ e, ValidateShortCode req.CustomAlias = some e →
        UpdateLink env userID linkID req w =
          (.error ("invalid custom alias: " ++ e),
            { rows := w.rows, calls := w.calls ++ [.getByID linkID] }))) := by
  have hold : old ∈ w.rows := List.mem_of_find?_eq_some hfind
  have hid : old.ID = linkID := by
    have := List.find?_some hfind
    simpa using this
  constructor
  · intro halias
    constructor
    · intro hc
      obtain ⟨old', hfind', hne, _⟩ := UpdateLink_conflict env userID linkID req w hc
      rw [hfind] at hfind'
      simp only [Option.some.injEq] at hfind'
      subst hfind'
      exact hne halias
    · rcases hq : UpdateLink env userID linkID req w with ⟨out, w'⟩
      rcases UpdateLink_done env userID linkID req w out w' hq with
        ⟨hrows, _⟩ | ⟨old', link, hfind', _, hlid, hluser, hno, hyes, hrows, _⟩
      · simp only [hrows, hfind, Option.map_some']
      · rw [hfind] at hfind'
        simp only [Option.some.injEq] at hfind'
        subst hfind'
        simp only [hrows]
        rw [find?_map_of_preserve, hfind]
        · have hm : (old.ID == link.ID && old.UserID == link.UserID) = true := by
            simp [hlid, hluser]
          simp only [Option.map_some', hm, if_true, Option.some.injEq]
          show link.ShortCode = old.ShortCode
          by_cases he : req.CustomAlias = ""
          · exact hno he
          · rw [(hyes he).1, halias]
        · intro a
          by_cases hm : (a.ID == link.ID && a.UserID == link.UserID) = true
          · rw [if_pos hm]; rfl
          · rw [if_neg hm]
  · intro hne hunique hother
    obtain ⟨other, hmem, hoid, hocode⟩ := hother
    have hdiff : req.CustomAlias ≠ old.ShortCode := by
      intro hc
      have := eq_of_pairwise_ne Link.ShortCode w.rows hunique other hmem old hold
        (by rw [hocode, hc])
      rw [this] at hoid
      exact hoid hid
    have hex : ∃ l ∈ w.rows, l.ShortCode = req.CustomAlias := ⟨other, hmem, hocode⟩
    have hgeneral : (∃ err, (UpdateLink env userID linkID req w).1 = .error err) ∧
        (UpdateLink env userID linkID req w).2.rows = w.rows := by
      rcases hq : UpdateLink env userID linkID req w with ⟨out, w'⟩
      rcases UpdateLink_done env userID linkID req w out w' hq with
        ⟨hrows, herr⟩ | ⟨old', link, hfind', _, _, _, _, hyes, _, _⟩
      · exact ⟨herr, hrows⟩
      · exfalso
        rw [hfind] at hfind'
        simp only [Option.some.injEq] at hfind'
        subst hfind'
        rcases (hyes hne).2.2 with h | h
        · exact hdiff h
        · exact h other hmem hocode
    refine ⟨hgeneral.1, hgeneral.2, ?_, ?_⟩
    · intro hf0 hf1 hurl hvalid
      unfold UpdateLink
      rw [GetByID_eq_of_found env linkID w old hf0 hfind]
      simp only [hown, ne_eq, not_true_eq_false, if_false]
      obtain ⟨link1, hu, hcode1⟩ := updateOriginalURL_of_valid env req old hurl
      rw [hu]
      simp only
      rw [updateCustomAlias_eq_conflict env req link1 (w.record (.getByID linkID)) hvalid
        (by simpa [Store.record] using hf1) hex (by rw [hcode1]; exact hdiff)]
      simp [Store.record]
    · intro hf0 hurl e hinvalid
      unfold UpdateLink
      rw [GetByID_eq_of_found env linkID w old hf0 hfind]
      simp only [hown, ne_eq, not_true_eq_false, if_false]
      obtain ⟨link1, hu, _⟩ := updateOriginalURL_of_valid env req old hurl
      rw [hu]
      simp only
      rw [updateCustomAlias_invalid env req link1 (w.record (.getByID linkID)) e hne hinvalid]
      rfl

/-- Renaming the sample row to its own code `test-link` succeeds and keeps the code; naming
the code `test-link` for the second row is a conflict, and `Update` is not called; naming
the generated code `________` of another row for the second row is an invalid alias. -/
theorem UpdateLink_alias_conflict_witness :
    sampleStore2.rows.find? (fun l => l.ID == 5) = some sampleRow ∧
    sampleStore2.rows.find? (fun l => l.ID == 6) = some sampleRow2 ∧
    (∃ r, (UpdateLink sampleEnv 7 5 sampleAliasTestLink sampleStore2).1 = .ok r ∧
      r.ShortCode = "test-link") ∧
    ((UpdateLink sampleEnv 7 5 sampleAliasTestLink sampleStore2).1 ≠
        .error "custom alias already exists" ∧
      ((UpdateLink sampleEnv 7 5 sampleAliasTestLink sampleStore2).2.rows.find?
        (fun l => l.ID == 5)).map Link.ShortCode = some sampleRow.ShortCode) ∧
    UpdateLink sampleEnv 7 6 sampleAliasTestLink sampleStore2 =
      (.error "custom alias already exists",
        { rows := sampleStore2.rows,
          calls := sampleStore2.calls ++ [.getByID 6, .shortCodeExists "test-link"] }) ∧
    UpdateLink sampleEnv 7 6 sampleAliasGenerated sampleStore4 =
      (.error ("invalid custom alias: " ++
          "short code can only contain letters, numbers, and hyphens"),
        { rows := sampleStore4.rows, calls := sampleStore4.calls ++ [.getByID 6] }) :=
  ⟨rfl, rfl, ⟨_, rfl, rfl⟩,
    (UpdateLink_alias_conflict sampleEnv 7 5 sampleAliasTestLink sampleStore2 sampleRow rfl
      rfl).1 rfl,
    ((UpdateLink_alias_conflict sampleEnv 7 6 sampleAliasTestLink sampleStore2 sampleRow2 rfl
      rfl).2 (by decide)
      (by unfold UniqueShortCodes sampleStore2; decide)
      ⟨sampleRow, by decide, by decide, rfl⟩).2.2.1 rfl rfl (Or.inl rfl) (by decide),
    ((UpdateLink_alias_conflict sampleEnv 7 6 sampleAliasGenerated sampleStore4 sampleRow2 rfl
      rfl).2 (by decide)
      (by unfold UniqueShortCodes sampleStore4; decide)
      ⟨{ sampleRow with ShortCode := "________" }, by decide, by decide, rfl⟩).2.2.2 rfl
        (Or.inl rfl) _ (by decide)⟩

/-! ### A failing insert -/

theorem createWith_of_fault (env : Env) (userID : UUID) (req : CreateLinkRequest)
    (url code : String) (w : Store) (err : String)
    (h : env.fault w.calls.length = some err) :
    createWith env userID req url code w =
      (.error ("failed to create link: " ++ err),
        { rows := w.rows, calls := w.calls ++ [.create (newLink env userID req url code)] }) := by
  rw [createWith_eq, h]
  rfl

/-- One round of the generation loop whose candidate is the short code of no row. -/
theorem generateLoop_first (env : Env) (fuel : Nat) (w : Store) (random : List Nat)
    (code : String) (hread : env.randRead 0 = .ok random)
    (hcode : GenerateShortCode 8 (.ok random) = some (.ok code))
    (hquery : env.fault w.calls.length = none)
    (hfree : ∀ l ∈ w.rows, l.ShortCode ≠ code) :
    generateLoop env (fuel + 1) 0 w = .done (.ok code, w.record (.shortCodeExists code)) := by
  unfold generateLoop
  rw [hread, hcode]
  simp only [ShortCodeExists_eq_of_no_fault env code w hquery]
  rw [(any_shortCode_eq_false_iff w.rows code).mpr hfree]
  rfl

/-- C17, counterexample: the existence query finds the code unused and the insert then
fails on the uniqueness constraint.  For the custom alias `test-link`, `CreateLink` returns
"failed to create link: " followed by the database's message, which is not the check-time
error "custom alias already exists"; for a request without alias it returns the same error
to the caller after one candidate and one insert, without a retry. -/
theorem CreateLink_lost_race :
    CreateLink raceEnv 5 7 sampleRequest emptyStore =
      .done (.error ("failed to create link: " ++ uniqueViolation),
        { rows := [],
          calls := [.shortCodeExists "test-link",
            .create (newLink raceEnv 7 sampleRequest "https://example.com/very-long-url"
              "test-link")] }) ∧
    "failed to create link: " ++ uniqueViolation ≠ "custom alias already exists" ∧
    CreateLink raceEnv 5 7 sampleRequestNoAlias emptyStore =
      .done (.error ("failed to create link: " ++ uniqueViolation),
        { rows := [],
          calls := [.shortCodeExists "________",
            .create (newLink raceEnv 7 sampleRequestNoAlias
              "https://example.com/very-long-url" "________")] }) :=
  ⟨rfl, by decide, rfl⟩

/-- C17, amended: when the insert fails, on the uniqueness constraint of `short_code` as on
anything else, `CreateLink` returns "failed to create link: " followed by the database's
message, with the table unchanged and one call of `Create`; this error is never the
check-time error "custom alias already exists".  That holds for a custom alias, and equally
for a system-generated code: the failure is returned to the caller, no fresh code is
drawn and no second insert is tried. -/
theorem CreateLink_insert_failure (env : Env) (userID : UUID) (req : CreateLinkRequest)
    (w : Store) (err : String)
    (hurl : ValidateURL env.parseRequestURI req.OriginalURL = none)
    (hquery : env.fault w.calls.length = none)
    (hinsert : env.fault (w.calls.length + 1) = some err) :
    (∀ fuel : Nat, ValidateShortCode req.CustomAlias = none →
      (∀ l ∈ w.rows, l.ShortCode ≠ req.CustomAlias) →
      CreateLink env fuel userID req w =
        .done (.error ("failed to create link: " ++ err),
          { rows := w.rows,
            calls := w.calls ++ [.shortCodeExists req.CustomAlias,
              .create (newLink env userID req (SanitizeURL req.OriginalURL)
                req.CustomAlias)] })) ∧
    (∀ (fuel : Nat) (random : List Nat) (code : String), req.CustomAlias = "" →
      env.randRead 0 = .ok random → GenerateShortCode 8 (.ok random) = some (.ok code) →
      (∀ l ∈ w.rows, l.ShortCode ≠ code) →
      CreateLink env (fuel + 1) userID req w =
        .done (.error ("failed to create link: " ++ err),
          { rows := w.rows,
            calls := w.calls ++ [.shortCodeExists code,
              .create (newLink env userID req (SanitizeURL req.OriginalURL) code)] })) ∧
    "failed to create link: " ++ err ≠ "custom alias already exists" := by
  refine ⟨?_, ?_, createFailed_ne_conflict err⟩
  · intro fuel halias hfree
    have hne := ne_empty_of_ValidateShortCode _ halias
    rw [CreateLink_alias_eq env fuel userID req w hurl hne, halias]
    simp only [ShortCodeExists_eq_of_no_fault env req.CustomAlias w hquery]
    rw [(any_shortCode_eq_false_iff w.rows req.CustomAlias).mpr hfree]
    simp only [Bool.false_eq_true, if_false]
    rw [createWith_of_fault env userID req _ _ _ err (by simpa [Store.record] using hinsert)]
    simp [Store.record]
  · intro fuel random code he hread hcode hfree
    rw [CreateLink_generated_eq env (fuel + 1) userID req w hurl he,
      generateLoop_first env fuel w random code hread hcode hquery hfree]
    simp only
    rw [createWith_of_fault env userID req _ _ _ err (by simpa [Store.record] using hinsert)]
    simp [Store.record]

/-- The lost race of the sample surroundings, for the alias `test-link`. -/
theorem CreateLink_insert_failure_witness :
    ValidateURL raceEnv.parseRequestURI sampleRequest.OriginalURL = none ∧
    raceEnv.fault emptyStore.calls.length = none ∧
    raceEnv.fault (emptyStore.calls.length + 1) = some uniqueViolation ∧
    ValidateShortCode sampleRequest.CustomAlias = none ∧
    CreateLink raceEnv 0 7 sampleRequest emptyStore =
      .done (.error ("failed to create link: " ++ uniqueViolation),
        { rows := emptyStore.rows,
          calls := emptyStore.calls ++ [.shortCodeExists sampleRequest.CustomAlias,
            .create (newLink raceEnv 7 sampleRequest (SanitizeURL sampleRequest.OriginalURL)
              sampleRequest.CustomAlias)] }) :=
  ⟨rfl, rfl, rfl, by decide,
    (CreateLink_insert_failure raceEnv 7 sampleRequest emptyStore uniqueViolation rfl rfl
      rfl).1 0 (by decide) (by intro l hl; cases hl)⟩

/-! ### The redirect lookup -/

theorem GetByShortCode_store (env : Env) (now : Time) (shortCode : String) (w : Store) :
    (LinkRepository.GetByShortCode env now shortCode w).2 =
      w.record (.getByShortCode shortCode) := by
  unfold LinkRepository.GetByShortCode
  cases env.fault w.calls.length with
  | some e => rfl
  | none =>
    cases w.rows.find? (fun l => l.ShortCode == shortCode && l.IsActive == true) with
    | none => rfl
    | some link => simp only; split <;> rfl

theorem expired_eq_false_iff (now : Time) (l : Link) :
    (match l.ExpiresAt with
      | some expiresAt => decide (now > expiresAt)
      | none => false) = false ↔ ∀ expiresAt, l.ExpiresAt = some expiresAt → now ≤ expiresAt := by
  cases h : l.ExpiresAt with
  | none => simp
  | some e => simp

/-- A link returned by the lookup is a row with the code that is active and not expired. -/
theorem GetByShortCode_ok (env : Env) (now : Time) (shortCode : String) (w : Store)
    (link : Link) (h : (LinkRepository.GetByShortCode env now shortCode w).1 = .ok link) :
    env.fault w.calls.length = none ∧
    w.rows.find? (fun l => l.ShortCode == shortCode && l.IsActive == true) = some link ∧
    link ∈ w.rows ∧ link.ShortCode = shortCode ∧ resolvable now link := by
  unfold LinkRepository.GetByShortCode at h
  cases hf : env.fault w.calls.length with
  | some e => rw [hf] at h; cases h
  | none =>
    rw [hf] at h
    cases hfind : w.rows.find? (fun l => l.ShortCode == shortCode && l.IsActive == true) with
    | none => rw [hfind] at h; cases h
    | some l =>
      rw [hfind] at h
      simp only at h
      have hp := List.find?_some hfind
      simp only [Bool.and_eq_true, beq_iff_eq] at hp
      cases hexp : (match l.ExpiresAt with
          | some expiresAt => decide (now > expiresAt)
          | none => false) with
      | true => rw [hexp] at h; simp only [if_true] at h; cases h
      | false =>
        rw [hexp] at h
        simp only [Bool.false_eq_true, if_false, Except.ok.injEq] at h
        subst h
        exact ⟨rfl, rfl, List.mem_of_find?_eq_some hfind, hp.1, hp.2,
          (expired_eq_false_iff now l).mp hexp⟩

/-- When the database answers and short codes are unique, a resolvable row with the code is
returned by the lookup. -/
theorem GetByShortCode_of_resolvable (env : Env) (now : Time) (shortCode : String) (w : Store)
    (hfault : env.fault w.calls.length = none) (hunique : UniqueShortCodes w)
    (l : Link) (hl : l ∈ w.rows) (hcode : l.ShortCode = shortCode) (hres : resolvable now l) :
    LinkRepository.GetByShortCode env now shortCode w =
      (.ok l, w.record (.getByShortCode shortCode)) := by
  have hsome : (w.rows.find? (fun l => l.ShortCode == shortCode && l.IsActive == true)).isSome
      = true := by
    rw [List.find?_isSome]
    exact ⟨l, hl, by simp [hcode, hres.1]⟩
  obtain ⟨l', hfind⟩ := Option.isSome_iff_exists.mp hsome
  have hp := List.find?_some hfind
  simp only [Bool.and_eq_true, beq_iff_eq] at hp
  have heq : l' = l := eq_of_pairwise_ne Link.ShortCode w.rows hunique l'
    (List.mem_of_find?_eq_some hfind) l hl (by rw [hp.1, hcode])
  subst heq
  unfold LinkRepository.GetByShortCode
  rw [hfault]
  simp only [hfind]
  rw [(expired_eq_false_iff now l').mpr hres.2]
  simp

/-- C18: the redirect lookup, `GetByShortCode` and with it `RedirectToOriginal`, at the time
`now`.  A link it resolves is a stored link with that code that is active and not expired
(its `expires_at` is absent, or `now` is not after it).  When the database answers and short
codes are unique, the converse holds: the code is resolved if and only if the stored link
with that code is active and not expired.  So a link whose `expires_at` is in the past is
not resolved although it is active, and an inactive link is not resolved. -/
theorem redirect_lookup_spec (env : Env) (now : Time) (shortCode : String) (w : Store) :
    (∀ link, (LinkRepository.GetByShortCode env now shortCode w).1 = .ok link →
      link ∈ w.rows ∧ link.ShortCode = shortCode ∧ link.IsActive = true ∧
      ∀ expiresAt, link.ExpiresAt = some expiresAt → now ≤ expiresAt) ∧
    (env.fault w.calls.length = none → UniqueShortCodes w →
      (((∃ link, (LinkRepository.GetByShortCode env now shortCode w).1 = .ok link) ↔
        ∃ l ∈ w.rows, l.ShortCode = shortCode ∧ l.IsActive = true ∧
          ∀ expiresAt, l.ExpiresAt = some expiresAt → now ≤ expiresAt) ∧
      ((∃ url, (RedirectToOriginal env now shortCode w).1 = .ok url) ↔
        ∃ l ∈ w.rows, l.ShortCode = shortCode ∧ l.IsActive = true ∧
          ∀ expiresAt, l.ExpiresAt = some expiresAt → now ≤ expiresAt) ∧
      (∀ l ∈ w.rows, l.ShortCode = shortCode → l.IsActive = true →
        (∃ expiresAt, l.ExpiresAt = some expiresAt ∧ expiresAt < now) →
        ∃ err, (RedirectToOriginal env now shortCode w).1 = .error err) ∧
      (∀ l ∈ w.rows, l.ShortCode = shortCode → l.IsActive = false →
        ∃ err, (RedirectToOriginal env now shortCode w).1 = .error err))) := by
  have hsound : ∀ link, (LinkRepository.GetByShortCode env now shortCode w).1 = .ok link →
      link ∈ w.rows ∧ link.ShortCode = shortCode ∧ link.IsActive = true ∧
      ∀ expiresAt, link.ExpiresAt = some expiresAt → now ≤ expiresAt := by
    intro link h
    obtain ⟨_, _, h1, h2, h3, h4⟩ := GetByShortCode_ok env now shortCode w link h
    exact ⟨h1, h2, h3, h4⟩
  have hredirect : ∀ url, (RedirectToOriginal env now shortCode w).1 = .ok url →
      ∃ link, (LinkRepository.GetByShortCode env now shortCode w).1 = .ok link := by
    intro url h
    unfold RedirectToOriginal at h
    rcases hq : LinkRepository.GetByShortCode env now shortCode w with ⟨res, w1⟩
    rw [hq] at h
    cases res with
    | error e => cases h
    | ok link => exact ⟨link, rfl⟩
  have hfail : (¬ ∃ link, (LinkRepository.GetByShortCode env now shortCode w).1 = .ok link) →
      ∃ err, (RedirectToOriginal env now shortCode w).1 = .error err := by
    intro hno
    cases hr : (RedirectToOriginal env now shortCode w).1 with
    | error e => exact ⟨e, rfl⟩
    | ok url => exact absurd (hredirect url hr) hno
  refine ⟨hsound, ?_⟩
  intro hfault hunique
  have hcomplete : (∃ l ∈ w.rows, l.ShortCode = shortCode ∧ l.IsActive = true ∧
      ∀ expiresAt, l.ExpiresAt = some expiresAt → now ≤ expiresAt) →
      ∃ link, LinkRepository.GetByShortCode env now shortCode w =
        (.ok link, w.record (.getByShortCode shortCode)) := by
    rintro ⟨l, hl, hcode, hact, hexp⟩
    exact ⟨l, GetByShortCode_of_resolvable env now shortCode w hfault hunique l hl hcode
      ⟨hact, hexp⟩⟩
  refine ⟨?_, ?_, ?_, ?_⟩
  · constructor
    · rintro ⟨link, h⟩
      exact ⟨link, hsound link h⟩
    · intro h
      obtain ⟨link, hq⟩ := hcomplete h
      exact ⟨link, by rw [hq]⟩
  · constructor
    · rintro ⟨url, h⟩
      obtain ⟨link, hl⟩ := hredirect url h
      exact ⟨link, hsound link hl⟩
    · intro h
      obtain ⟨link, hq⟩ := hcomplete h
      refine ⟨link.OriginalURL, ?_⟩
      unfold RedirectToOriginal
      rw [hq]
  · intro l hl hcode _ hpast
    apply hfail
    rintro ⟨link, h⟩
    obtain ⟨hmem, hc, _, hexp⟩ := hsound link h
    have heq : link = l := eq_of_pairwise_ne Link.ShortCode w.rows hunique link hmem l hl
      (by rw [hc, hcode])
    subst heq
    obtain ⟨e, he, hlt⟩ := hpast
    have := hexp e he
    exact absurd hlt (not_lt.mpr this)
  · intro l hl hcode hinactive
    apply hfail
    rintro ⟨link, h⟩
    obtain ⟨hmem, hc, hact, _⟩ := hsound link h
    have heq : link = l := eq_of_pairwise_ne Link.ShortCode w.rows hunique link hmem l hl
      (by rw [hc, hcode])
    subst heq
    rw [hact] at hinactive
    cases hinactive

/-- At the time 20: the sample row is resolved, the row that expired at 10 is not, although
it is active, and the inactive row is not. -/
theorem redirect_lookup_spec_witness :
    sampleEnv.fault sampleStore3.calls.length = none ∧ UniqueShortCodes sampleStore3 ∧
    (RedirectToOriginal sampleEnv 20 "test-link" sampleStore3).1 = .ok "https://example.org" ∧
    (RedirectToOriginal sampleEnv 20 "old" sampleStore3).1 =
      .error "link not found: link has expired" ∧
    (RedirectToOriginal sampleEnv 20 "off" sampleStore3).1 =
      .error "link not found: link not found" ∧
    (∃ err, (RedirectToOriginal sampleEnv 20 "old" sampleStore3).1 = .error err) ∧
    (∃ err, (RedirectToOriginal sampleEnv 20 "off" sampleStore3).1 = .error err) :=
  have hu : UniqueShortCodes sampleStore3 := by unfold UniqueShortCodes sampleStore3; decide
  ⟨rfl, hu, rfl, rfl, rfl,
    ((redirect_lookup_spec sampleEnv 20 "old" sampleStore3).2 rfl hu).2.2.1 expiringRow
      (by decide) rfl rfl ⟨10, rfl, by decide⟩,
    ((redirect_lookup_spec sampleEnv 20 "off" sampleStore3).2 rfl hu).2.2.2 inactiveRow
      (by decide) rfl rfl⟩

/-! ### The redirect and its click count -/

theorem RedirectToOriginal_of_ok (env : Env) (now : Time) (shortCode : String) (w : Store)
    (link : Link) (h : (LinkRepository.GetByShortCode env now shortCode w).1 = .ok link) :
    RedirectToOriginal env now shortCode w =
      (.ok link.OriginalURL, [.incrementClicks link.ID],
        w.record (.getByShortCode shortCode)) := by
  have hs := GetByShortCode_store env now shortCode w
  unfold RedirectToOriginal
  rcases hq : LinkRepository.GetByShortCode env now shortCode w with ⟨res, w1⟩
  rw [hq] at h hs
  simp only at h hs
  subst h
  subst hs
  rfl

theorem RedirectToOriginal_of_error (env : Env) (now : Time) (shortCode : String) (w : Store)
    (err : String) (h : (LinkRepository.GetByShortCode env now shortCode w).1 = .error err) :
    RedirectToOriginal env now shortCode w =
      (.error ("link not found: " ++ err), [], w.record (.getByShortCode shortCode)) := by
  have hs := GetByShortCode_store env now shortCode w
  unfold RedirectToOriginal
  rcases hq : LinkRepository.GetByShortCode env now shortCode w with ⟨res, w1⟩
  rw [hq] at h hs
  simp only at h hs
  subst h
  subst hs
  rfl

/-- The lookup depends on the surroundings only through the fault of its own call. -/
theorem GetByShortCode_congr (env env' : Env) (now : Time) (shortCode : String) (w : Store)
    (h : env'.fault w.calls.length = env.fault w.calls.length) :
    LinkRepository.GetByShortCode env' now shortCode w =
      LinkRepository.GetByShortCode env now shortCode w := by
  unfold LinkRepository.GetByShortCode
  rw [h]

/-- C19: when the lookup succeeds, `RedirectToOriginal` returns the `original_url` of the
stored link it resolved and starts exactly one goroutine, the click increment for the id
of that link; when the lookup fails it returns an error and starts none.  What it returns
does not depend on whether the increment succeeds: it is the same in all surroundings that
agree on the lookup, whatever they do to later calls; and the goroutine itself only prints
the error of a failed increment, leaving the table as it was. -/
theorem redirect_increment_spec (env : Env) (now : Time) (shortCode : String) (w : Store) :
    (∀ link, (LinkRepository.GetByShortCode env now shortCode w).1 = .ok link →
      link ∈ w.rows ∧ link.ShortCode = shortCode ∧
      (RedirectToOriginal env now shortCode w).1 = .ok link.OriginalURL ∧
      (RedirectToOriginal env now shortCode w).2.1 = [.incrementClicks link.ID]) ∧
    (∀ err, (LinkRepository.GetByShortCode env now shortCode w).1 = .error err →
      (RedirectToOriginal env now shortCode w).1 = .error ("link not found: " ++ err) ∧
      (RedirectToOriginal env now shortCode w).2.1 = []) ∧
    (∀ env' : Env, env'.fault w.calls.length = env.fault w.calls.length →
      RedirectToOriginal env' now shortCode w = RedirectToOriginal env now shortCode w) ∧
    (∀ (id : UUID) (w1 : Store),
      (env.fault w1.calls.length = none →
        Goroutine.run env (.incrementClicks id) w1 =
          ([], { rows := w1.rows.map (fun l =>
                   if l.ID == id then { l with Clicks := l.Clicks + 1 } else l),
                 calls := w1.calls ++ [.incrementClicks id] })) ∧
      (∀ err, env.fault w1.calls.length = some err →
        Goroutine.run env (.incrementClicks id) w1 =
          (["Failed to increment clicks: " ++ err ++ "\n"],
            { rows := w1.rows, calls := w1.calls ++ [.incrementClicks id] }))) := by
  refine ⟨?_, ?_, ?_, ?_⟩
  · intro link h
    obtain ⟨_, _, hmem, hcode, _⟩ := GetByShortCode_ok env now shortCode w link h
    rw [RedirectToOriginal_of_ok env now shortCode w link h]
    exact ⟨hmem, hcode, rfl, rfl⟩
  · intro err h
    rw [RedirectToOriginal_of_error env now shortCode w err h]
    exact ⟨rfl, rfl⟩
  · intro env' h
    unfold RedirectToOriginal
    rw [GetByShortCode_congr env env' now shortCode w h]
  · intro id w1
    constructor
    · intro h
      show (match LinkRepository.IncrementClicks env id w1 with
        | (some err, w2) => (["Failed to increment clicks: " ++ err ++ "\n"], w2)
        | (none, w2) => ([], w2)) = _
      unfold LinkRepository.IncrementClicks
      rw [h]
    · intro err h
      show (match LinkRepository.IncrementClicks env id w1 with
        | (some err, w2) => (["Failed to increment clicks: " ++ err ++ "\n"], w2)
        | (none, w2) => ([], w2)) = _
      unfold LinkRepository.IncrementClicks
      rw [h]
      rfl

/-- The sample row is resolved, with one increment started for its id 5; the answer is the
same where the increment fails, and the failed increment leaves the click count at 0. -/
theorem redirect_increment_spec_witness :
    (RedirectToOriginal sampleEnv 20 "test-link" sampleStore3).1 = .ok "https://example.org" ∧
    (RedirectToOriginal sampleEnv 20 "test-link" sampleStore3).2.1 = [.incrementClicks 5] ∧
    (RedirectToOriginal sampleEnv 20 "nothing" sampleStore3).2.1 = [] ∧
    RedirectToOriginal incrementFailsEnv 20 "test-link" sampleStore3 =
      RedirectToOriginal sampleEnv 20 "test-link" sampleStore3 ∧
    ((Goroutine.run sampleEnv (.incrementClicks 5)
      (RedirectToOriginal sampleEnv 20 "test-link" sampleStore3).2.2).2.rows.map
        Link.Clicks = [1, 0, 0]) ∧
    ((Goroutine.run incrementFailsEnv (.incrementClicks 5)
      (RedirectToOriginal incrementFailsEnv 20 "test-link" sampleStore3).2.2).2.rows.map
        Link.Clicks = [0, 0, 0]) ∧
    (sampleRow ∈ sampleStore3.rows ∧ sampleRow.ShortCode = "test-link" ∧
      (RedirectToOriginal sampleEnv 20 "test-link" sampleStore3).1 =
        .ok sampleRow.OriginalURL ∧
      (RedirectToOriginal sampleEnv 20 "test-link" sampleStore3).2.1 =
        [.incrementClicks sampleRow.ID]) :=
  ⟨rfl, rfl, rfl,
    (redirect_increment_spec sampleEnv 20 "test-link" sampleStore3).2.2.1 incrementFailsEnv
      rfl,
    rfl, rfl,
    (redirect_increment_spec sampleEnv 20 "test-link" sampleStore3).1 sampleRow rfl⟩

/-! ### Operations on links of other users, or on no link -/

/-- With no row under the id that is owned by the caller, `GetByID` fails or returns a link
of another owner; either way it is the only call made. -/
theorem GetByID_of_not_owned (env : Env) (userID linkID : UUID) (w : Store)
    (hno : ∀ l ∈ w.rows, l.ID = linkID → l.UserID ≠ userID) :
    (∃ err, LinkRepository.GetByID env linkID w = (.error err, w.record (.getByID linkID)) ∧
      (env.fault w.calls.length = none → err = "link not found" ∧
        ∀ l ∈ w.rows, l.ID ≠ linkID)) ∨
    (∃ link, LinkRepository.GetByID env linkID w = (.ok link, w.record (.getByID linkID)) ∧
      link.UserID ≠ userID ∧ link ∈ w.rows ∧ link.ID = linkID) := by
  unfold LinkRepository.GetByID
  cases hf : env.fault w.calls.length with
  | some e => exact Or.inl ⟨e, rfl, fun h => by cases h⟩
  | none =>
    cases hfind : w.rows.find? (fun l => l.ID == linkID) with
    | none =>
      refine Or.inl ⟨"link not found", rfl, fun _ => ⟨rfl, ?_⟩⟩
      intro l hl hid
      have := List.find?_eq_none.mp hfind l hl
      simp [hid] at this
    | some link =>
      have hmem := List.mem_of_find?_eq_some hfind
      have hid : link.ID = linkID := by
        have := List.find?_some hfind
        simpa using this
      exact Or.inr ⟨link, rfl, hno link hmem hid, hmem, hid⟩

/-- C20: link operations act only on the caller's own existing links.  When no stored link
with the id is owned by `userID` (no link has that id, or its owner is someone else),
`GetLinkByID`, `UpdateLink` and `DeleteLink` return an error, whatever the request, and
leave the table unchanged: the only repository call made is `GetByID`, so neither `Update`
nor `Delete` is issued.  When the database answers, the error is "link not found: ..." if
no link has that id, and "unauthorized" if one has. -/
theorem operations_on_own_links_only (env : Env) (userID linkID : UUID) (w : Store)
    (hno : ∀ l ∈ w.rows, l.ID = linkID → l.UserID ≠ userID) :
    ∃ err : String,
      GetLinkByID env userID linkID w = (.error err, w.record (.getByID linkID)) ∧
      (∀ req : UpdateLinkRequest,
        UpdateLink env userID linkID req w = (.error err, w.record (.getByID linkID))) ∧
      DeleteLink env userID linkID w = (some err, w.record (.getByID linkID)) ∧
      (w.record (.getByID linkID)).rows = w.rows ∧
      (w.record (.getByID linkID)).calls = w.calls ++ [.getByID linkID] ∧
      (env.fault w.calls.length = none →
        ((∀ l ∈ w.rows, l.ID ≠ linkID) → err = "link not found: link not found") ∧
        ((∃ l ∈ w.rows, l.ID = linkID) → err = "unauthorized")) := by
  rcases GetByID_of_not_owned env userID linkID w hno with
    ⟨e, hq, hmsg⟩ | ⟨link, hq, hown, hmem, hid⟩
  · refine ⟨"link not found: " ++ e, ?_, ?_, ?_, rfl, rfl, ?_⟩
    · unfold GetLinkByID; rw [hq]
    · intro req; unfold UpdateLink; rw [hq]
    · unfold DeleteLink; rw [hq]
    · intro hf
      obtain ⟨he, hnone⟩ := hmsg hf
      refine ⟨fun _ => by rw [he]; decide, ?_⟩
      rintro ⟨l, hl, hlid⟩
      exact absurd hlid (hnone l hl)
  · refine ⟨"unauthorized", ?_, ?_, ?_, rfl, rfl, ?_⟩
    · unfold GetLinkByID; rw [hq]; simp only [hown, ne_eq, not_false_eq_true, if_true]
    · intro req; unfold UpdateLink; rw [hq]
      simp only [hown, ne_eq, not_false_eq_true, if_true]
    · unfold DeleteLink; rw [hq]; simp only [hown, ne_eq, not_false_eq_true, if_true]
    · intro _
      refine ⟨?_, fun _ => rfl⟩
      intro hnone
      exact absurd hid (hnone link hmem)

/-- On the sample table, whose row 5 is owned by user 7: user 8 is not authorised for
link 5, and link 55 does not exist. -/
theorem operations_on_own_links_only_witness :
    (∀ l ∈ sampleStore.rows, l.ID = 5 → l.UserID ≠ 8) ∧
    (∀ l ∈ sampleStore.rows, l.ID = 55 → l.UserID ≠ 7) ∧
    UpdateLink sampleEnv 8 5 sampleRename sampleStore =
      (.error "unauthorized", sampleStore.record (.getByID 5)) ∧
    DeleteLink sampleEnv 7 55 sampleStore =
      (some "link not found: link not found", sampleStore.record (.getByID 55)) ∧
    (∃ err : String,
      GetLinkByID sampleEnv 8 5 sampleStore = (.error err, sampleStore.record (.getByID 5)) ∧
      (∀ req : UpdateLinkRequest,
        UpdateLink sampleEnv 8 5 req sampleStore =
          (.error err, sampleStore.record (.getByID 5))) ∧
      DeleteLink sampleEnv 8 5 sampleStore = (some err, sampleStore.record (.getByID 5)) ∧
      (sampleStore.record (.getByID 5)).rows = sampleStore.rows ∧
      (sampleStore.record (.getByID 5)).calls = sampleStore.calls ++ [.getByID 5] ∧
      (sampleEnv.fault sampleStore.calls.length = none →
        ((∀ l ∈ sampleStore.rows, l.ID ≠ 5) → err = "link not found: link not found") ∧
        ((∃ l ∈ sampleStore.rows, l.ID = 5) → err = "unauthorized"))) :=
  ⟨by decide, by decide, rfl, rfl,
    operations_on_own_links_only sampleEnv 8 5 sampleStore (by decide)⟩

/-! ### Checks of one identity within one window, served one after the other -/

theorem validTimes_eq_self (ws : Time) (s : List Time) (h : ∀ a ∈ s, ws < a) :
    validTimes ws s = s := by
  rw [validTimes_eq_filter, List.filter_eq_self]
  intro a ha
  simpa using h a ha

/-- Checks of one identity whose times lie within one window of each other, served one
after the other in any order, from a limiter that holds `j ≤ N` timestamps of that window
for the identity: exactly `min m (N - j)` of the `m` checks are admitted.  (This is the
sequential content of the mutual exclusion in `RateLimit`: whatever order the lock imposes
on the callers, the number admitted is the same.) -/
theorem serial_checks_admitted (N : Nat) (W : Int) (clientIP : String) :
    ∀ (times : List Time) (rl : RateLimiter), rl.limit = N → rl.window = W →
      (∀ a ∈ times, ∀ b ∈ times, b - W < a) →
      (∀ a ∈ rl.lookup (identity clientIP), ∀ b ∈ times, b - W < a) →
      (rl.lookup (identity clientIP)).length ≤ N →
      ((runChecks rl (times.map (fun t => (clientIP, t)))).1.count .allow) =
        min times.length (N - (rl.lookup (identity clientIP)).length) := by
  intro times
  induction times with
  | nil => intro rl _ _ _ _ _; simp [runChecks]
  | cons t rest ih =>
    intro rl hlim hwin hin hstored hlen
    obtain ⟨hd, hlk, hlim1, hwin1⟩ := RateLimit_eq rl clientIP t
    have hself := hlk (identity clientIP)
    simp only [if_true] at hself
    have hkeep : validTimes (t + negDuration rl.window) (rl.lookup (identity clientIP)) =
        rl.lookup (identity clientIP) := by
      apply validTimes_eq_self
      intro a ha
      rw [hwin]
      exact lt_of_le_of_lt (windowStart_le t W) (hstored a ha t (List.mem_cons_self _ _))
    rw [hkeep, hlim] at hd hself
    have hin' : ∀ a ∈ rest, ∀ b ∈ rest, b - W < a := fun a ha b hb =>
      hin a (List.mem_cons_of_mem _ ha) b (List.mem_cons_of_mem _ hb)
    show ((RateLimit rl clientIP t).1 ::
      (runChecks (RateLimit rl clientIP t).2 (rest.map (fun t => (clientIP, t)))).1).count
        .allow = _
    by_cases hc : (((rl.lookup (identity clientIP)).length : Int)) ≥ (N : Int)
    · rw [if_pos hc] at hd hself
      have hfull : (rl.lookup (identity clientIP)).length = N := by omega
      have hIH := ih (RateLimit rl clientIP t).2 (by rw [hlim1, hlim]) (by rw [hwin1, hwin])
        hin' (by
          rw [hself]
          intro a ha b hb
          exact hstored a ha b (List.mem_cons_of_mem _ hb)) (by rw [hself]; exact hlen)
      rw [hd, List.count_cons_of_ne (by decide), hIH, hself, hfull]
      simp
    · rw [if_neg hc] at hd hself
      have hIH := ih (RateLimit rl clientIP t).2 (by rw [hlim1, hlim]) (by rw [hwin1, hwin])
        hin' (by
          rw [hself]
          intro a ha b hb
          rcases List.mem_append.mp ha with ha | ha
          · exact hstored a ha b (List.mem_cons_of_mem _ hb)
          · rw [List.mem_singleton] at ha
            rw [ha]
            exact hin t (List.mem_cons_self _ _) b (List.mem_cons_of_mem _ hb))
        (by rw [hself, List.length_append, List.length_singleton]; omega)
      rw [hd, List.count_cons_self, hIH, hself, List.length_append, List.length_singleton,
        List.length_cons]
      omega

/-! ### Order and size of the stored sequences -/

/-- One check keeps every stored sequence ascending, below the times still to come, and
within the cap. -/
theorem RateLimit_keeps_order (N : Int) (rl : RateLimiter) (clientIP : String) (now : Time)
    (later : List Time) (hlim : rl.limit = N) (hnow : ∀ b ∈ later, now ≤ b)
    (hinv : ∀ k, (rl.lookup k).Pairwise (fun a b => a ≤ b) ∧
      (∀ a ∈ rl.lookup k, a ≤ now ∧ ∀ b ∈ later, a ≤ b) ∧
      ((rl.lookup k).length : Int) ≤ max N 0) :
    ∀ k, ((RateLimit rl clientIP now).2.lookup k).Pairwise (fun a b => a ≤ b) ∧
      (∀ a ∈ (RateLimit rl clientIP now).2.lookup k, ∀ b ∈ later, a ≤ b) ∧
      (((RateLimit rl clientIP now).2.lookup k).length : Int) ≤ max N 0 := by
  intro k
  obtain ⟨_, hl, _, _⟩ := RateLimit_eq rl clientIP now
  rw [hl k]
  obtain ⟨hsorted, hbelow, hlen⟩ := hinv k
  by_cases hk : k = identity clientIP
  · subst hk
    rw [if_pos rfl, validTimes_eq_filter]
    have hfs : ((rl.lookup (identity clientIP)).filter
        (fun t => decide (now + negDuration rl.window < t))).Pairwise (fun a b => a ≤ b) :=
      hsorted.sublist (List.filter_sublist _)
    have hfl := List.length_filter_le (fun t => decide (now + negDuration rl.window < t))
      (rl.lookup (identity clientIP))
    have hfm : ∀ a ∈ (rl.lookup (identity clientIP)).filter
        (fun t => decide (now + negDuration rl.window < t)), a ∈ rl.lookup (identity clientIP) :=
      fun a ha => (List.mem_filter.mp ha).1
    by_cases hc : ((((rl.lookup (identity clientIP)).filter
        (fun t => decide (now + negDuration rl.window < t))).length : Nat) : Int) ≥ rl.limit
    · rw [if_pos hc]
      refine ⟨hfs, fun a ha b hb => (hbelow a (hfm a ha)).2 b hb, ?_⟩
      omega
    · rw [if_neg hc]
      refine ⟨?_, ?_, ?_⟩
      · rw [List.pairwise_append]
        refine ⟨hfs, List.pairwise_singleton _ _, ?_⟩
        intro a ha b hb
        rw [List.mem_singleton] at hb
        rw [hb]
        exact (hbelow a (hfm a ha)).1
      · intro a ha b hb
        rcases List.mem_append.mp ha with ha | ha
        · exact (hbelow a (hfm a ha)).2 b hb
        · rw [List.mem_singleton] at ha
          rw [ha]
          exact hnow b hb
      · rw [List.length_append, List.length_singleton, hlim] at *
        push_cast
        omega
  · rw [if_neg hk]
    exact ⟨hsorted, fun a ha b hb => (hbelow a ha).2 b hb, hlen⟩

/-- The invariant along a sequence of checks with non-decreasing times. -/
theorem runChecks_keeps_order (N : Int) (reqs : List (String × Time)) :
    ∀ rl : RateLimiter, rl.limit = N →
      (reqs.map Prod.snd).Pairwise (fun a b => a ≤ b) →
      (∀ k, (rl.lookup k).Pairwise (fun a b => a ≤ b) ∧
        (∀ a ∈ rl.lookup k, ∀ b ∈ reqs.map Prod.snd, a ≤ b) ∧
        ((rl.lookup k).length : Int) ≤ max N 0) →
      ∀ k, ((runChecks rl reqs).2.lookup k).Pairwise (fun a b => a ≤ b) ∧
        (((runChecks rl reqs).2.lookup k).length : Int) ≤ max N 0 := by
  induction reqs with
  | nil => intro rl _ _ hinv k; exact ⟨(hinv k).1, (hinv k).2.2⟩
  | cons q rest ih =>
    intro rl hlim hmono hinv
    obtain ⟨ip, now⟩ := q
    simp only [List.map_cons, List.pairwise_cons] at hmono
    obtain ⟨hnow, hrest⟩ := hmono
    have hstep := RateLimit_keeps_order N rl ip now (rest.map Prod.snd) hlim hnow
      (fun k => ⟨(hinv k).1,
        fun a ha => ⟨(hinv k).2.1 a ha now (by simp),
          fun b hb => (hinv k).2.1 a ha b (by simp only [List.map_cons]; exact List.mem_cons_of_mem _ hb)⟩,
        (hinv k).2.2⟩)
    exact ih (RateLimit rl ip now).2 (by rw [(RateLimit_eq rl ip now).2.2.1, hlim]) hrest hstep

/-- C24: starting from an empty limiter with cap `N` and window `W`, for every sequence of
checks whose times are non-decreasing, after every check (after the first `n` checks, for
every `n`) the stored sequence of each identity is in non-decreasing order, although the
code never sorts, and holds at most `max N 0` timestamps. -/
theorem stored_sequences_ascending (N W : Int) (reqs : List (String × Time))
    (hmono : (reqs.map Prod.snd).Pairwise (fun a b => a ≤ b)) (n : Nat) (id : String) :
    ((runChecks (NewRateLimiter N W) (reqs.take n)).2.lookup id).Pairwise (fun a b => a ≤ b) ∧
    (((runChecks (NewRateLimiter N W) (reqs.take n)).2.lookup id).length : Int) ≤ max N 0 := by
  have hmono' : ((reqs.take n).map Prod.snd).Pairwise (fun a b => a ≤ b) := by
    rw [List.map_take]
    exact hmono.sublist (List.take_sublist _ _)
  refine runChecks_keeps_order N (reqs.take n) (NewRateLimiter N W) rfl hmono' ?_ id
  intro k
  have hempty : (NewRateLimiter N W).lookup k = [] := rfl
  rw [hempty]
  refine ⟨List.Pairwise.nil, fun a ha => (by cases ha), ?_⟩
  simp

/-- The sample sequence of checks under cap 3 and window 60: after six checks the identity
`a` holds the times 0, 0, 2, and after all eight the times 61, 62. -/
theorem stored_sequences_ascending_witness :
    (sampleChecks.map Prod.snd).Pairwise (fun a b => a ≤ b) ∧
    (runChecks (NewRateLimiter 3 60) (sampleChecks.take 6)).2.lookup "a" = [0, 0, 2] ∧
    (runChecks (NewRateLimiter 3 60) (sampleChecks.take 8)).2.lookup "a" = [61, 62] ∧
    (((runChecks (NewRateLimiter 3 60) (sampleChecks.take 8)).2.lookup "a").Pairwise
        (fun a b => a ≤ b) ∧
      (((runChecks (NewRateLimiter 3 60) (sampleChecks.take 8)).2.lookup "a").length : Int)
        ≤ max 3 0) :=
  ⟨by decide, by decide, by decide,
    stored_sequences_ascending 3 60 sampleChecks (by decide) 8 "a"⟩

/-! ### The generation loop, candidate by candidate -/

theorem range_succ_map_shift {α : Type} (f : Nat → α) (n : Nat) :
    (List.range (n + 1)).map f = f 0 :: (List.range n).map (fun i => f (i + 1)) := by
  rw [List.range_succ_eq_map, List.map_cons, List.map_map]
  rfl

/-- Rounds whose candidates are all in use: the loop goes on with the next draw, having made
one existence check per round. -/
theorem generateLoop_skip (env : Env) :
    ∀ (n j : Nat) (cand : Nat → String) (w : Store),
      (∀ i < n, GenerateShortCode 8 (env.randRead (j + i)) = some (.ok (cand i))) →
      (∀ i < n, env.fault (w.calls.length + i) = none) →
      (∀ i < n, ∃ l ∈ w.rows, l.ShortCode = cand i) →
      ∀ fuel, generateLoop env (fuel + n) j w =
        generateLoop env fuel (j + n) (afterChecks w cand n) := by
  intro n
  induction n with
  | zero =>
    intro j cand w _ _ _ fuel
    simp [afterChecks]
  | succ n ih =>
    intro j cand w hcand hchecks hused fuel
    have h0 := hcand 0 (Nat.succ_pos n)
    have hf0 := hchecks 0 (Nat.succ_pos n)
    have hu0 := hused 0 (Nat.succ_pos n)
    rw [Nat.add_zero] at h0 hf0
    have hstep : generateLoop env (fuel + n + 1) j w =
        generateLoop env (fuel + n) (j + 1) (w.record (.shortCodeExists (cand 0))) := by
      conv => lhs; unfold generateLoop
      rw [h0]
      simp only [ShortCodeExists_eq_of_no_fault env (cand 0) w hf0]
      rw [(any_shortCode_eq_true_iff w.rows (cand 0)).mpr hu0]
      rfl
    rw [← Nat.add_assoc, hstep,
      ih (j + 1) (fun i => cand (i + 1)) (w.record (.shortCodeExists (cand 0)))
        (fun i hi => by
          have := hcand (i + 1) (Nat.succ_lt_succ hi)
          rw [show j + 1 + i = j + (i + 1) by omega]
          exact this)
        (fun i hi => by
          have := hchecks (i + 1) (Nat.succ_lt_succ hi)
          rw [show (w.record (.shortCodeExists (cand 0))).calls.length + i =
            w.calls.length + (i + 1) by simp [Store.record]; omega]
          exact this)
        (fun i hi => hused (i + 1) (Nat.succ_lt_succ hi)) fuel]
    have hstore : afterChecks (w.record (.shortCodeExists (cand 0))) (fun i => cand (i + 1)) n =
        afterChecks w cand (n + 1) := by
      unfold afterChecks
      rw [range_succ_map_shift]
      simp [Store.record]
    rw [hstore, show j + 1 + n = j + (n + 1) by omega]

theorem afterChecks_succ (w : Store) (cand : Nat → String) (n : Nat) :
    (afterChecks w cand n).record (.shortCodeExists (cand n)) = afterChecks w cand (n + 1) := by
  unfold afterChecks Store.record
  simp [List.range_succ]

theorem afterChecks_length (w : Store) (cand : Nat → String) (n : Nat) :
    (afterChecks w cand n).calls.length = w.calls.length + n := by
  simp [afterChecks]

theorem createWith_calls (env : Env) (userID : UUID) (req : CreateLinkRequest)
    (url code : String) (w : Store) :
    (createWith env userID req url code w).2.calls =
      w.calls ++ [.create (newLink env userID req url code)] := by
  rcases createWith_cases env userID req url code w with ⟨_, h⟩ | ⟨_, h, _, _⟩
  · rw [h]; rfl
  · rw [h]

/-- C22: for a create request without custom alias, let the first `n` generated candidates
be short codes already in the store (their draws and existence checks succeeding).  If the
next candidate is not in the store, then with any fuel above `n` the loop returns it after
exactly `n + 1` existence checks, so the loop terminates, and `CreateLink` goes on to
insert a link with that candidate as short code.  If instead the random source fails at the
next draw, or the next existence check fails, the loop and `CreateLink` end with the error,
the table is unchanged and `Create` is not called.  (In the words of the claim, `k = n + 1`:
the first `k - 1` candidates are in use and the `k`-th decides.) -/
theorem generation_loop_spec (env : Env) (cand : Nat → String) (n : Nat) (w : Store)
    (userID : UUID) (req : CreateLinkRequest)
    (hurl : ValidateURL env.parseRequestURI req.OriginalURL = none)
    (hnoalias : req.CustomAlias = "")
    (hcand : ∀ i < n, GenerateShortCode 8 (env.randRead i) = some (.ok (cand i)))
    (hchecks : ∀ i < n, env.fault (w.calls.length + i) = none)
    (hused : ∀ i < n, ∃ l ∈ w.rows, l.ShortCode = cand i) :
    (GenerateShortCode 8 (env.randRead n) = some (.ok (cand n)) →
      env.fault (w.calls.length + n) = none → (∀ l ∈ w.rows, l.ShortCode ≠ cand n) →
      ∀ fuel, n < fuel →
        generateLoop env fuel 0 w = .done (.ok (cand n), afterChecks w cand (n + 1)) ∧
        CreateLink env fuel userID req w =
          .done (createWith env userID req (SanitizeURL req.OriginalURL) (cand n)
            (afterChecks w cand (n + 1))) ∧
        (createWith env userID req (SanitizeURL req.OriginalURL) (cand n)
            (afterChecks w cand (n + 1))).2.calls =
          w.calls ++ (List.range (n + 1)).map (fun i => RepoCall.shortCodeExists (cand i)) ++
            [.create (newLink env userID req (SanitizeURL req.OriginalURL) (cand n))]) ∧
    (∀ err, env.randRead n = .error err → ∀ fuel, n < fuel →
      generateLoop env fuel 0 w =
        .done (.error ("failed to generate short code: " ++ err), afterChecks w cand n) ∧
      CreateLink env fuel userID req w =
        .done (.error ("failed to generate short code: " ++ err), afterChecks w cand n)) ∧
    (∀ err, GenerateShortCode 8 (env.randRead n) = some (.ok (cand n)) →
      env.fault (w.calls.length + n) = some err → ∀ fuel, n < fuel →
      generateLoop env fuel 0 w =
        .done (.error ("failed to check short code: " ++ err), afterChecks w cand (n + 1)) ∧
      CreateLink env fuel userID req w =
        .done (.error ("failed to check short code: " ++ err),
          afterChecks w cand (n + 1))) := by
  have hskip : ∀ fuel, n < fuel → generateLoop env fuel 0 w =
      generateLoop env (fuel - n - 1 + 1) n (afterChecks w cand n) := by
    intro fuel hfuel
    have h := generateLoop_skip env n 0 cand w
      (fun i hi => by rw [Nat.zero_add]; exact hcand i hi) hchecks hused (fuel - n - 1 + 1)
    rw [Nat.zero_add] at h
    rw [← h]
    congr 1
    omega
  have hcreate := CreateLink_generated_eq env
  refine ⟨?_, ?_, ?_⟩
  · intro hgen hfault hfree fuel hfuel
    have hloop : generateLoop env fuel 0 w =
        .done (.ok (cand n), afterChecks w cand (n + 1)) := by
      rw [hskip fuel hfuel]
      conv => lhs; unfold generateLoop
      rw [hgen]
      simp only [ShortCodeExists_eq_of_no_fault env (cand n) (afterChecks w cand n)
        (by rw [afterChecks_length]; exact hfault)]
      have hrows : (afterChecks w cand n).rows = w.rows := rfl
      rw [hrows, (any_shortCode_eq_false_iff w.rows (cand n)).mpr hfree, afterChecks_succ]
      rfl
    refine ⟨hloop, ?_, ?_⟩
    · rw [hcreate fuel userID req w hurl hnoalias, hloop]
    · rw [createWith_calls]
      rfl
  · intro err hread fuel hfuel
    have hloop : generateLoop env fuel 0 w =
        .done (.error ("failed to generate short code: " ++ err), afterChecks w cand n) := by
      rw [hskip fuel hfuel]
      conv => lhs; unfold generateLoop
      rw [hread]
      rfl
    refine ⟨hloop, ?_⟩
    rw [hcreate fuel userID req w hurl hnoalias, hloop]
  · intro err hgen hfault fuel hfuel
    have hloop : generateLoop env fuel 0 w =
        .done (.error ("failed to check short code: " ++ err),
          afterChecks w cand (n + 1)) := by
      rw [hskip fuel hfuel]
      conv => lhs; unfold generateLoop
      rw [hgen]
      have hq : LinkRepository.ShortCodeExists env (cand n) (afterChecks w cand n) =
          (.error err, afterChecks w cand (n + 1)) := by
        unfold LinkRepository.ShortCodeExists
        rw [afterChecks_length, hfault, afterChecks_succ]
      simp only [hq]
    refine ⟨hloop, ?_⟩
    rw [hcreate fuel userID req w hurl hnoalias, hloop]

/-- Two candidates `________` that are in use, then `AQIDBAUG`: three existence checks, and
the link is created with the short code `AQIDBAUG`. -/
theorem generation_loop_spec_witness :
    ValidateURL retryEnv.parseRequestURI sampleRequestNoAlias.OriginalURL = none ∧
    sampleRequestNoAlias.CustomAlias = "" ∧
    (∀ i < 2, GenerateShortCode 8 (retryEnv.randRead i) = some (.ok (retryCandidates i))) ∧
    (∀ i < 2, retryEnv.fault (takenStore.calls.length + i) = none) ∧
    (∀ i < 2, ∃ l ∈ takenStore.rows, l.ShortCode = retryCandidates i) ∧
    (∃ r w', CreateLink retryEnv 3 7 sampleRequestNoAlias takenStore = .done (.ok r, w') ∧
      r.ShortCode = "AQIDBAUG" ∧
      w'.calls.take 3 = [.shortCodeExists "________", .shortCodeExists "________",
        .shortCodeExists "AQIDBAUG"]) ∧
    (generateLoop retryEnv 3 0 takenStore =
        .done (.ok (retryCandidates 2), afterChecks takenStore retryCandidates (2 + 1)) ∧
      CreateLink retryEnv 3 7 sampleRequestNoAlias takenStore =
        .done (createWith retryEnv 7 sampleRequestNoAlias
          (SanitizeURL sampleRequestNoAlias.OriginalURL) (retryCandidates 2)
          (afterChecks takenStore retryCandidates (2 + 1))) ∧
      (createWith retryEnv 7 sampleRequestNoAlias
          (SanitizeURL sampleRequestNoAlias.OriginalURL) (retryCandidates 2)
          (afterChecks takenStore retryCandidates (2 + 1))).2.calls =
        takenStore.calls ++
          (List.range (2 + 1)).map (fun i => RepoCall.shortCodeExists (retryCandidates i)) ++
          [.create (newLink retryEnv 7 sampleRequestNoAlias
            (SanitizeURL sampleRequestNoAlias.OriginalURL) (retryCandidates 2))]) :=
  have hcand : ∀ i < 2,
      GenerateShortCode 8 (retryEnv.randRead i) = some (.ok (retryCandidates i)) := by
    intro i hi
    interval_cases i <;> rfl
  have hchecks : ∀ i < 2, retryEnv.fault (takenStore.calls.length + i) = none :=
    fun _ _ => rfl
  have hused : ∀ i < 2, ∃ l ∈ takenStore.rows, l.ShortCode = retryCandidates i := by
    intro i hi
    interval_cases i <;> exact ⟨_, List.mem_singleton.mpr rfl, rfl⟩
  ⟨rfl, rfl, hcand, hchecks, hused, ⟨_, _, rfl, rfl, rfl⟩,
    (generation_loop_spec retryEnv retryCandidates 2 takenStore 7 sampleRequestNoAlias rfl rfl
      hcand hchecks hused).1 rfl rfl
      (by intro l hl; rw [List.mem_singleton.mp hl]; decide) 3 (by decide)⟩

/-! ### The fields that `UpdateLink` writes -/

theorem updateOriginalURL_eq (env : Env) (req : UpdateLinkRequest) (link link' : Link)
    (h : updateOriginalURL env req link = .ok link') :
    link' = { link with OriginalURL :=
      if req.OriginalURL = "" then link.OriginalURL else SanitizeURL req.OriginalURL } := by
  unfold updateOriginalURL at h
  by_cases hne : req.OriginalURL = ""
  · simp only [hne, ne_eq, not_true_eq_false, if_false, Except.ok.injEq] at h
    subst h
    simp [hne]
  · simp only [hne, ne_eq, not_false_eq_true, if_true] at h
    cases hv : ValidateURL env.parseRequestURI req.OriginalURL with
    | some e => rw [hv] at h; cases h
    | none =>
      rw [hv] at h
      simp only [Except.ok.injEq] at h
      subst h
      simp [hne]

theorem updateCustomAlias_eq (env : Env) (req : UpdateLinkRequest) (link link' : Link)
    (w : Store) (h : (updateCustomAlias env req link w).1 = .ok link') :
    link' = { link with ShortCode :=
      if req.CustomAlias = "" then link.ShortCode else req.CustomAlias } := by
  unfold updateCustomAlias at h
  by_cases hne : req.CustomAlias = ""
  · simp only [hne, ne_eq, not_true_eq_false, if_false, Except.ok.injEq] at h
    subst h
    simp [hne]
  · simp only [hne, ne_eq, not_false_eq_true, if_true] at h
    cases hv : ValidateShortCode req.CustomAlias with
    | some e => rw [hv] at h; cases h
    | none =>
      rw [hv] at h
      simp only at h
      rcases hq : LinkRepository.ShortCodeExists env req.CustomAlias w with ⟨res, w1⟩
      rw [hq] at h
      cases res with
      | error e => cases h
      | ok found =>
        simp only at h
        by_cases hc : (found && req.CustomAlias != link.ShortCode) = true
        · rw [if_pos hc] at h; cases h
        · rw [if_neg hc] at h
          simp only [Except.ok.injEq] at h
          subst h
          simp [hne]

/-- The three blocks together give the link described field by field. -/
theorem updateOptionalFields_eq (env : Env) (req : UpdateLinkRequest) (old link1 link2 : Link)
    (w : Store) (h1 : updateOriginalURL env req old = .ok link1)
    (h2 : (updateCustomAlias env req link1 w).1 = .ok link2) :
    updateOptionalFields req link2 = updatedLink req old := by
  rw [updateCustomAlias_eq env req link1 link2 w h2, updateOriginalURL_eq env req old link1 h1]
  unfold updateOptionalFields updatedLink
  cases req.IsActive <;> cases req.ExpiresAt <;> by_cases ht : req.Title = "" <;> simp [ht]

/-- C23, counterexample: an update of the sample row with a request that provides nothing
succeeds, and the row written differs from the stored one: its `updated_at` is the current
time 100 of the database, not the stored 50. -/
theorem UpdateLink_empty_request_touches_row :
    ∃ r w', UpdateLink sampleEnv 7 5 emptyUpdate sampleStore = (.ok r, w') ∧
      sampleStore.rows = [sampleRow] ∧
      w'.rows = [{ sampleRow with UpdatedAt := 100 }] ∧
      sampleRow.UpdatedAt = 50 ∧ w'.rows ≠ sampleStore.rows :=
  ⟨_, _, rfl, rfl, rfl, rfl, by decide⟩

/-- C23, amended: `UpdateLink` changes only the fields the request provides, and
`updated_at`.  When it succeeds, the record written for the stored link has the same id,
owner, click count and creation time, each of `original_url`, `short_code`, `title`,
`active` and `expires_at` equal to the stored value when its request field is absent (empty
string or nil), and `updated_at` set to the current time of the database; with an entirely
empty request the written record equals the stored one except for `updated_at`.  When ids
are unique, every other row of the table is left as it was. -/
theorem UpdateLink_frame (env : Env) (userID linkID : UUID) (req : UpdateLinkRequest)
    (w : Store) (r : LinkResponse) (w' : Store)
    (h : UpdateLink env userID linkID req w = (.ok r, w')) :
    ∃ old, w.rows.find? (fun l => l.ID == linkID) = some old ∧ old ∈ w.rows ∧
      old.ID = linkID ∧ old.UserID = userID ∧
      w'.rows = w.rows.map (fun l =>
        if l.ID == linkID && l.UserID == userID then updatedRow env (updatedLink req old) l
        else l) ∧
      updatedRow env (updatedLink req old) old ∈ w'.rows ∧
      (updatedRow env (updatedLink req old) old).ID = old.ID ∧
      (updatedRow env (updatedLink req old) old).UserID = old.UserID ∧
      (updatedRow env (updatedLink req old) old).Clicks = old.Clicks ∧
      (updatedRow env (updatedLink req old) old).CreatedAt = old.CreatedAt ∧
      (updatedRow env (updatedLink req old) old).UpdatedAt = env.dbNow ∧
      (req.OriginalURL = "" →
        (updatedRow env (updatedLink req old) old).OriginalURL = old.OriginalURL) ∧
      (req.CustomAlias = "" →
        (updatedRow env (updatedLink req old) old).ShortCode = old.ShortCode) ∧
      (req.Title = "" → (updatedRow env (updatedLink req old) old).Title = old.Title) ∧
      (req.IsActive = none →
        (updatedRow env (updatedLink req old) old).IsActive = old.IsActive) ∧
      (req.ExpiresAt = none →
        (updatedRow env (updatedLink req old) old).ExpiresAt = old.ExpiresAt) ∧
      (req.OriginalURL = "" → req.CustomAlias = "" → req.Title = "" → req.IsActive = none →
        req.ExpiresAt = none →
        updatedRow env (updatedLink req old) old = { old with UpdatedAt := env.dbNow }) ∧
      (UniqueIDs w → ∀ l ∈ w.rows, l ≠ old → l ∈ w'.rows ∧
        (if l.ID == linkID && l.UserID == userID then updatedRow env (updatedLink req old) l
          else l) = l) := by
  obtain ⟨old, link1, link2, hfind, hid, hown, hmem, hu, ha, hrows, _⟩ :=
    UpdateLink_ok env userID linkID req w r w' h
  have hlink := updateOptionalFields_eq env req old link1 link2 _ hu ha
  rw [hlink] at hrows
  have hm : (old.ID == linkID && old.UserID == userID) = true := by simp [hid, hown]
  have hwritten : updatedRow env (updatedLink req old) old ∈ w'.rows := by
    rw [hrows, List.mem_map]
    exact ⟨old, hmem, by rw [if_pos hm]⟩
  refine ⟨old, hfind, hmem, hid, hown, hrows, hwritten, rfl, rfl, rfl, rfl, rfl, ?_, ?_, ?_,
    ?_, ?_, ?_, ?_⟩
  · intro he; simp [updatedRow, updatedLink, he]
  · intro he; simp [updatedRow, updatedLink, he]
  · intro he; simp [updatedRow, updatedLink, he]
  · intro he; simp [updatedRow, updatedLink, he]
  · intro he; simp [updatedRow, updatedLink, he]
  · intro h1 h2 h3 h4 h5
    simp [updatedRow, updatedLink, h1, h2, h3, h4, h5]
  · intro hunique l hl hne
    have hnm : ¬ ((l.ID == linkID && l.UserID == userID) = true) := by
      intro hc
      simp only [Bool.and_eq_true, beq_iff_eq] at hc
      exact hne (eq_of_pairwise_ne Link.ID w.rows hunique l hl old hmem (by rw [hc.1, hid]))
    refine ⟨?_, by rw [if_neg hnm]⟩
    rw [hrows, List.mem_map]
    exact ⟨l, hl, by rw [if_neg hnm]⟩

/-- Giving the sample row a new title and switching it off leaves its URL, code and expiry,
and leaves the second row of the table alone. -/
theorem UpdateLink_frame_witness :
    ∃ r w', UpdateLink sampleEnv 7 5 sampleRetitle sampleStore2 = (.ok r, w') ∧
      w'.rows = [{ sampleRow with Title := "New title", IsActive := false, UpdatedAt := 100 },
        sampleRow2] ∧
      ∃ old, sampleStore2.rows.find? (fun l => l.ID == 5) = some old ∧
        old ∈ sampleStore2.rows ∧ old.ID = 5 ∧ old.UserID = 7 ∧
        (updatedRow sampleEnv (updatedLink sampleRetitle old) old).ShortCode =
          old.ShortCode :=
  ⟨_, _, rfl, rfl,
    match UpdateLink_frame sampleEnv 7 5 sampleRetitle sampleStore2 _ _ rfl with
    | ⟨old, h1, h2, h3, h4, _, _, _, _, _, _, _, _, h13, _⟩ => ⟨old, h1, h2, h3, h4, h13 rfl⟩⟩

/-! ### The handler of `POST /api/links` -/

theorem isAlphanumChar_hyphen : isAlphanumChar '-' = false := by decide

theorem inShortCodeClass_of_isAlphanumChar (c : Char) (h : isAlphanumChar c = true) :
    inShortCodeClass c = true := by
  unfold isAlphanumChar at h
  unfold inShortCodeClass
  rw [h]
  rfl

/-- The alias field of a request whose alias satisfies the format rule of
`ValidateShortCode` and contains a hyphen fails the binding tag `alphanum`. -/
theorem validateField_alias_hyphen (isURL : String → Bool) (code : String)
    (hvalid : ValidateShortCode code = none) (hhyphen : '-' ∈ code.data) :
    validateField isURL true [.min 3, .max 20, .alphanum] code = some .alphanum := by
  have hne := ne_empty_of_ValidateShortCode code hvalid
  obtain ⟨h3, h20, _⟩ := (ValidateShortCode_eq_none_iff_chars code).mp hvalid
  have hall : code.data.all isAlphanumChar = false := by
    rw [List.all_eq_false]
    exact ⟨'-', hhyphen, by rw [isAlphanumChar_hyphen]; exact Bool.false_ne_true⟩
  unfold validateField
  simp only [hne, decide_False, Bool.and_false, Bool.false_eq_true, if_false]
  simp [List.find?_cons, checkTag, h3, h20, hall]

theorem ShouldBindJSON_of_failed (isURL : String → Bool) (req : CreateLinkRequest)
    (h : validateCreateLinkRequest isURL req ≠ []) :
    ShouldBindJSON isURL (.ok req) =
      .error (.validation (validateCreateLinkRequest isURL req)) := by
  unfold ShouldBindJSON
  simp only

/-- C21: for an authenticated user, a create request whose custom alias satisfies the alias
format rule of `ValidateShortCode` and contains a hyphen does not pass request binding: the
field `CustomAlias` fails its tag `alphanum`, the handler answers with status 400 and the
error "Invalid request data", and the service is not called, so the store is as before and
no link is created. -/
theorem CreateLink_handler_rejects_hyphen (env : Env) (isURL : String → Bool) (fuel : Nat)
    (userID : UUID) (req : CreateLinkRequest) (w : Store)
    (hvalid : ValidateShortCode req.CustomAlias = none)
    (hhyphen : '-' ∈ req.CustomAlias.data) :
    ("CustomAlias", Tag.alphanum) ∈ validateCreateLinkRequest isURL req ∧
    LinkHandler.CreateLink env isURL fuel (some userID) (.ok req) w =
      .done ({ status := 400, error := some "Invalid request data",
               details := some (.validation (validateCreateLinkRequest isURL req)),
               message := none, data := none }, w) := by
  have hfield := validateField_alias_hyphen isURL req.CustomAlias hvalid hhyphen
  have hmem : ("CustomAlias", Tag.alphanum) ∈ validateCreateLinkRequest isURL req := by
    unfold validateCreateLinkRequest
    rw [hfield]
    simp
  refine ⟨hmem, ?_⟩
  unfold LinkHandler.CreateLink
  simp only
  rw [ShouldBindJSON_of_failed isURL req (List.ne_nil_of_mem hmem)]

/-- The request of `TestCreateLink`, with the alias `test-link`, is answered with 400. -/
theorem CreateLink_handler_rejects_hyphen_witness :
    ValidateShortCode sampleRequest.CustomAlias = none ∧
    '-' ∈ sampleRequest.CustomAlias.data ∧
    LinkHandler.CreateLink sampleEnv (fun _ => true) 1 (some 7) (.ok sampleRequest)
        emptyStore =
      .done ({ status := 400, error := some "Invalid request data",
               details := some (.validation [("CustomAlias", Tag.alphanum)]),
               message := none, data := none }, emptyStore) ∧
    (("CustomAlias", Tag.alphanum) ∈ validateCreateLinkRequest (fun _ => true) sampleRequest ∧
      LinkHandler.CreateLink sampleEnv (fun _ => true) 1 (some 7) (.ok sampleRequest)
          emptyStore =
        .done ({ status := 400, error := some "Invalid request data",
                 details := some (.validation
                   (validateCreateLinkRequest (fun _ => true) sampleRequest)),
                 message := none, data := none }, emptyStore)) :=
  ⟨by decide, by decide, rfl,
    CreateLink_handler_rejects_hyphen sampleEnv (fun _ => true) 1 7 sampleRequest emptyStore
      (by decide) (by decide)⟩

/-- What the handler does answer with 201: a request that passes binding (so its alias, if
any, has no hyphen), whose URL and alias the service accepts, whose alias is unused, and
whose insert succeeds.  The response carries the alias as `short_code` and `SanitizeURL` of
the input as `original_url`. -/
theorem CreateLink_handler_created (env : Env) (isURL : String → Bool) (fuel : Nat)
    (userID : UUID) (req : CreateLinkRequest) (w : Store)
    (hbind : validateCreateLinkRequest isURL req = [])
    (hurl : ValidateURL env.parseRequestURI req.OriginalURL = none)
    (halias : ValidateShortCode req.CustomAlias = none)
    (hquery : env.fault w.calls.length = none)
    (hfree : ∀ l ∈ w.rows, l.ShortCode ≠ req.CustomAlias)
    (hinsert : env.fault (w.calls.length + 1) = none)
    (hfresh : ∀ l ∈ w.rows, l.ID ≠ env.newUUID) :
    LinkHandler.CreateLink env isURL fuel (some userID) (.ok req) w =
      .done ({ status := 201, error := none, details := none,
               message := some "Link created successfully",
               data := some (toLinkResponse env
                 (newRow env userID req (SanitizeURL req.OriginalURL) req.CustomAlias)) },
        { rows := w.rows ++ [newRow env userID req (SanitizeURL req.OriginalURL)
            req.CustomAlias],
          calls := w.calls ++ [.shortCodeExists req.CustomAlias,
            .create (newLink env userID req (SanitizeURL req.OriginalURL)
              req.CustomAlias)] }) := by
  have hne := ne_empty_of_ValidateShortCode _ halias
  have hservice : CreateLink env fuel userID req w =
      .done (.ok (toLinkResponse env
          (newRow env userID req (SanitizeURL req.OriginalURL) req.CustomAlias)),
        { rows := w.rows ++ [newRow env userID req (SanitizeURL req.OriginalURL)
            req.CustomAlias],
          calls := w.calls ++ [.shortCodeExists req.CustomAlias,
            .create (newLink env userID req (SanitizeURL req.OriginalURL)
              req.CustomAlias)] }) := by
    rw [CreateLink_alias_eq env fuel userID req w hurl hne, halias]
    simp only [ShortCodeExists_eq_of_no_fault env req.CustomAlias w hquery]
    rw [(any_shortCode_eq_false_iff w.rows req.CustomAlias).mpr hfree]
    simp only [Bool.false_eq_true, if_false]
    rw [createWith_eq]
    have hlen : (w.record (.shortCodeExists req.CustomAlias)).calls.length =
        w.calls.length + 1 := by simp [Store.record]
    rw [hlen, hinsert]
    have hany : (w.record (.shortCodeExists req.CustomAlias)).rows.any
        (fun l => l.ID == env.newUUID) = false := by
      simpa [Store.record, List.any_eq_false] using hfresh
    simp only [hany, Bool.false_eq_true, if_false]
    simp [Store.record]
  unfold LinkHandler.CreateLink
  simp only
  have hb : ShouldBindJSON isURL (.ok req) = .ok req := by
    unfold ShouldBindJSON
    simp only [hbind]
  rw [hb]
  simp only [hservice]

end Shortlink
